import Mathlib

/-!
Shallow embedding of the versioned, reversible-command engine over a weighted
multigraph ("city map") and its persistence layer, together with proofs that
settle the specification claims about it.

The graph store is a Python dict of dicts `{city: {neighbor: [cost, ...]}}`.
Python dicts are insertion-ordered maps with unique keys, embedded here as
association lists: lookup returns the first matching entry, assignment
replaces the value in place when the key is present and appends a fresh entry
otherwise, and deletion removes the (unique) entry.  Costs, like every value
flowing through the JSON persistence layer, are dynamically typed; they are
embedded as `JVal`, the JSON-compatible value domain.

Operations that can raise a Python exception part-way through a mutation are
embedded as functions returning `Option Bool × State`: `none` in the first
component marks an escaped exception, and the second component is the state
as mutated up to the point the exception was raised.
-/

/-- A JSON-compatible dynamically-typed value: `null`, integer, string,
array, or object.  Objects model parsed Python dicts (string keys, first
occurrence wins on lookup). -/
inductive JVal where
  | null : JVal
  | int : Int → JVal
  | str : String → JVal
  | arr : List JVal → JVal
  | obj : List (String × JVal) → JVal

mutual

/-- Boolean equality on `JVal`. -/
def JVal.beq : JVal → JVal → Bool
  | .null, .null => true
  | .int a, .int b => a == b
  | .str a, .str b => a == b
  | .arr xs, .arr ys => JVal.beqArr xs ys
  | .obj xs, .obj ys => JVal.beqObj xs ys
  | _, _ => false

/-- Boolean equality on `JVal` arrays. -/
def JVal.beqArr : List JVal → List JVal → Bool
  | [], [] => true
  | x :: xs, y :: ys => JVal.beq x y && JVal.beqArr xs ys
  | _, _ => false

/-- Boolean equality on `JVal` objects. -/
def JVal.beqObj : List (String × JVal) → List (String × JVal) → Bool
  | [], [] => true
  | (k1, v1) :: xs, (k2, v2) :: ys =>
      k1 == k2 && JVal.beq v1 v2 && JVal.beqObj xs ys
  | _, _ => false

end

mutual

theorem JVal.eq_of_beq : ∀ a b : JVal, JVal.beq a b = true → a = b
  | .null, .null, _ => rfl
  | .null, .int _, h => by simp [JVal.beq] at h
  | .null, .str _, h => by simp [JVal.beq] at h
  | .null, .arr _, h => by simp [JVal.beq] at h
  | .null, .obj _, h => by simp [JVal.beq] at h
  | .int _, .null, h => by simp [JVal.beq] at h
  | .int a, .int b, h => by
      simp only [JVal.beq, beq_iff_eq] at h
      exact congrArg JVal.int h
  | .int _, .str _, h => by simp [JVal.beq] at h
  | .int _, .arr _, h => by simp [JVal.beq] at h
  | .int _, .obj _, h => by simp [JVal.beq] at h
  | .str _, .null, h => by simp [JVal.beq] at h
  | .str _, .int _, h => by simp [JVal.beq] at h
  | .str a, .str b, h => by
      simp only [JVal.beq, beq_iff_eq] at h
      exact congrArg JVal.str h
  | .str _, .arr _, h => by simp [JVal.beq] at h
  | .str _, .obj _, h => by simp [JVal.beq] at h
  | .arr _, .null, h => by simp [JVal.beq] at h
  | .arr _, .int _, h => by simp [JVal.beq] at h
  | .arr _, .str _, h => by simp [JVal.beq] at h
  | .arr xs, .arr ys, h => by
      simp only [JVal.beq] at h
      exact congrArg JVal.arr (JVal.eqArr_of_beqArr xs ys h)
  | .arr _, .obj _, h => by simp [JVal.beq] at h
  | .obj _, .null, h => by simp [JVal.beq] at h
  | .obj _, .int _, h => by simp [JVal.beq] at h
  | .obj _, .str _, h => by simp [JVal.beq] at h
  | .obj _, .arr _, h => by simp [JVal.beq] at h
  | .obj xs, .obj ys, h => by
      simp only [JVal.beq] at h
      exact congrArg JVal.obj (JVal.eqObj_of_beqObj xs ys h)

theorem JVal.eqArr_of_beqArr : ∀ xs ys : List JVal, JVal.beqArr xs ys = true → xs = ys
  | [], [], _ => rfl
  | [], _ :: _, h => by simp [JVal.beqArr] at h
  | _ :: _, [], h => by simp [JVal.beqArr] at h
  | x :: xs, y :: ys, h => by
      simp only [JVal.beqArr, Bool.and_eq_true] at h
      rw [JVal.eq_of_beq x y h.1, JVal.eqArr_of_beqArr xs ys h.2]

theorem JVal.eqObj_of_beqObj :
    ∀ xs ys : List (String × JVal), JVal.beqObj xs ys = true → xs = ys
  | [], [], _ => rfl
  | [], _ :: _, h => by simp [JVal.beqObj] at h
  | _ :: _, [], h => by simp [JVal.beqObj] at h
  | (k1, v1) :: xs, (k2, v2) :: ys, h => by
      simp only [JVal.beqObj, Bool.and_eq_true, beq_iff_eq] at h
      rw [h.1.1, JVal.eq_of_beq v1 v2 h.1.2, JVal.eqObj_of_beqObj xs ys h.2]

end

mutual

theorem JVal.beq_refl : ∀ a : JVal, JVal.beq a a = true
  | .null => rfl
  | .int a => by simp [JVal.beq]
  | .str a => by simp [JVal.beq]
  | .arr xs => by simp only [JVal.beq]; exact JVal.beqArr_refl xs
  | .obj xs => by simp only [JVal.beq]; exact JVal.beqObj_refl xs

theorem JVal.beqArr_refl : ∀ xs : List JVal, JVal.beqArr xs xs = true
  | [] => rfl
  | x :: xs => by
      simp only [JVal.beqArr, Bool.and_eq_true]
      exact ⟨JVal.beq_refl x, JVal.beqArr_refl xs⟩

theorem JVal.beqObj_refl : ∀ xs : List (String × JVal), JVal.beqObj xs xs = true
  | [] => rfl
  | (k, v) :: xs => by
      simp [JVal.beqObj, JVal.beq_refl v, JVal.beqObj_refl xs]

end

instance : DecidableEq JVal := fun a b =>
  if h : JVal.beq a b = true then isTrue (JVal.eq_of_beq a b h)
  else isFalse (fun he => h (he ▸ JVal.beq_refl a))

/-- Dict lookup (`d[k]` / `d.get(k)`): value of the first entry whose key
matches, if any. -/
def dlook {α : Type} : List (String × α) → String → Option α
  | [], _ => none
  | (k, v) :: rest, key => if k = key then some v else dlook rest key

/-- Dict membership (`k in d`). -/
def dmem {α : Type} (m : List (String × α)) (k : String) : Bool :=
  (dlook m k).isSome

/-- Dict assignment (`d[k] = v`): replace the value of the first entry with
key `k` in place, or append a fresh entry when absent. -/
def dset {α : Type} : List (String × α) → String → α → List (String × α)
  | [], k, v => [(k, v)]
  | (k', v') :: rest, k, v =>
      if k' = k then (k', v) :: rest else (k', v') :: dset rest k v

/-- Dict deletion (`del d[k]` / `d.pop(k)`): drop the first entry with key
`k` (a no-op when absent; the Python callers guard for presence). -/
def ddel {α : Type} : List (String × α) → String → List (String × α)
  | [], _ => []
  | (k', v') :: rest, k =>
      if k' = k then rest else (k', v') :: ddel rest k

/-- Keys of a dict, in insertion order. -/
def dkeys {α : Type} (m : List (String × α)) : List String :=
  m.map Prod.fst

theorem dlook_dset_self {α : Type} (m : List (String × α)) (k : String) (v : α) :
    dlook (dset m k v) k = some v := by
  induction m with
  | nil => simp [dset, dlook]
  | cons hd tl ih =>
    obtain ⟨k', v'⟩ := hd
    by_cases h : k' = k <;> simp [dset, dlook, h, ih]

theorem dlook_dset_ne {α : Type} (m : List (String × α)) (k k' : String) (v : α)
    (h : k' ≠ k) : dlook (dset m k v) k' = dlook m k' := by
  induction m with
  | nil =>
    have hne : ¬ k = k' := fun hh => h hh.symm
    simp [dset, dlook, hne]
  | cons hd tl ih =>
    obtain ⟨k'', v''⟩ := hd
    by_cases hk : k'' = k
    · subst hk
      have hne : ¬ k'' = k' := fun hh => h hh.symm
      simp [dset, dlook, hne]
    · simp [dset, dlook, hk, ih]

theorem dlook_ddel_ne {α : Type} (m : List (String × α)) (k k' : String)
    (h : k' ≠ k) : dlook (ddel m k) k' = dlook m k' := by
  induction m with
  | nil => simp [ddel]
  | cons hd tl ih =>
    obtain ⟨k'', v''⟩ := hd
    by_cases hk : k'' = k
    · subst hk
      have hne : ¬ k'' = k' := fun hh => h hh.symm
      simp [ddel, dlook, hne]
    · simp [ddel, dlook, hk, ih]

theorem dlook_eq_none_of_not_mem_keys {α : Type} (m : List (String × α))
    (k : String) (h : k ∉ dkeys m) : dlook m k = none := by
  induction m with
  | nil => simp [dlook]
  | cons hd tl ih =>
    obtain ⟨k', v'⟩ := hd
    simp only [dkeys, List.map_cons, List.mem_cons] at h
    push_neg at h
    have hne : ¬ k' = k := fun hh => h.1 hh.symm
    simp [dlook, hne, ih (by simpa [dkeys] using h.2)]

theorem mem_keys_of_dlook_some {α : Type} {m : List (String × α)} {k : String}
    {v : α} (h : dlook m k = some v) : k ∈ dkeys m := by
  by_contra hk
  rw [dlook_eq_none_of_not_mem_keys m k hk] at h
  exact Option.noConfusion h

theorem dlook_isSome_of_mem_keys {α : Type} {m : List (String × α)} {k : String}
    (h : k ∈ dkeys m) : (dlook m k).isSome = true := by
  induction m with
  | nil => simp [dkeys] at h
  | cons hd tl ih =>
    obtain ⟨k', v'⟩ := hd
    by_cases hk : k' = k
    · simp [dlook, hk]
    · simp only [dkeys, List.map_cons, List.mem_cons] at h
      rcases h with h | h
      · exact absurd h.symm hk
      · simp [dlook, hk, ih h]

theorem dmem_iff_mem_keys {α : Type} (m : List (String × α)) (k : String) :
    dmem m k = true ↔ k ∈ dkeys m := by
  constructor
  · intro h
    simp only [dmem, Option.isSome_iff_exists] at h
    obtain ⟨v, hv⟩ := h
    exact mem_keys_of_dlook_some hv
  · intro h
    exact dlook_isSome_of_mem_keys h

/-- The keys of a dict are pairwise distinct (always true of a Python dict). -/
def NodupKeys {α : Type} (m : List (String × α)) : Prop :=
  (dkeys m).Nodup

theorem dlook_ddel_self {α : Type} (m : List (String × α)) (k : String)
    (h : NodupKeys m) : dlook (ddel m k) k = none := by
  induction m with
  | nil => simp [ddel, dlook]
  | cons hd tl ih =>
    obtain ⟨k', v'⟩ := hd
    simp only [NodupKeys, dkeys, List.map_cons, List.nodup_cons] at h
    by_cases hk : k' = k
    · subst hk
      simp only [ddel, if_true]
      exact dlook_eq_none_of_not_mem_keys tl k' (by simpa [dkeys] using h.1)
    · simp [ddel, dlook, hk]
      exact ih h.2

theorem dkeys_dset {α : Type} (m : List (String × α)) (k : String) (v : α) :
    dkeys (dset m k v) = if k ∈ dkeys m then dkeys m else dkeys m ++ [k] := by
  induction m with
  | nil => simp [dset, dkeys]
  | cons hd tl ih =>
    obtain ⟨k', v'⟩ := hd
    by_cases hk : k' = k
    · subst hk
      simp [dset, dkeys]
    · have hne : ¬ k = k' := fun hh => hk hh.symm
      simp only [dset, hk, if_false]
      simp only [dkeys, List.map_cons] at ih ⊢
      rw [ih]
      by_cases hmem : k ∈ List.map (Prod.fst (α := String) (β := α)) tl <;>
        simp [dkeys, hmem, hne]

theorem dkeys_ddel_sublist {α : Type} (m : List (String × α)) (k : String) :
    (dkeys (ddel m k)).Sublist (dkeys m) := by
  induction m with
  | nil => simp [ddel]
  | cons hd tl ih =>
    obtain ⟨k', v'⟩ := hd
    by_cases hk : k' = k
    · simp only [ddel, hk, if_true, dkeys, List.map_cons]
      exact List.sublist_cons_self _ _
    · simp only [ddel, hk, if_false, dkeys, List.map_cons]
      exact List.Sublist.cons₂ _ ih

theorem nodupKeys_ddel {α : Type} (m : List (String × α)) (k : String)
    (h : NodupKeys m) : NodupKeys (ddel m k) :=
  List.Nodup.sublist (dkeys_ddel_sublist m k) h

theorem nodupKeys_dset {α : Type} (m : List (String × α)) (k : String) (v : α)
    (h : NodupKeys m) : NodupKeys (dset m k v) := by
  unfold NodupKeys
  rw [dkeys_dset]
  by_cases hk : k ∈ dkeys m
  · simpa [hk] using h
  · simp only [hk, if_false]
    simpa [List.nodup_append, hk] using h

/-! ## The Graph Store: `CityMap` -/

/-- A neighbor map `{neighbor: [cost, ...]}` of one city. -/
abbrev RoadMap := List (String × List JVal)

/-- The graph `CityMap.cities : {city: {neighbor: [cost, ...]}}`. -/
abbrev Cities := List (String × RoadMap)

/-- The neighbor map of a city (`self.cities[c]`; callers guard presence). -/
def nbrsOf (m : Cities) (c : String) : RoadMap := (dlook m c).getD []

/-- The cost list stored under the ordered direction `a → b`, when both the
city `a` and the entry for `b` inside it exist. -/
def lookNbr (m : Cities) (a b : String) : Option (List JVal) :=
  match dlook m a with
  | none => none
  | some rm => dlook rm b

/-- Nested dict assignment `self.cities[c][n] = v` (callers guard that `c`
is present). -/
def setRoad (m : Cities) (c n : String) (v : List JVal) : Cities :=
  dset m c (dset (nbrsOf m c) n v)

/-- Nested dict deletion `del self.cities[c][n]` (callers guard presence of
both `c` and the entry `n`). -/
def delRoad (m : Cities) (c n : String) : Cities :=
  dset m c (ddel (nbrsOf m c) n)

/-- `list.remove(c)`: drop the first element equal to `c` (the caller guards
membership; on an absent value Python raises, which callers model). -/
def pyRemove (l : List JVal) (c : JVal) : List JVal :=
  match l with
  | [] => []
  | x :: rest => if x = c then rest else x :: pyRemove rest c

/-- `list.index(c)`: index of the first element equal to `c` (callers guard
membership). -/
def pyIndexOf (l : List JVal) (c : JVal) : Nat :=
  match l with
  | [] => 0
  | x :: rest => if x = c then 0 else pyIndexOf rest c + 1

/-- `CityMap.add_city`. -/
def add_city (m : Cities) (name : String) : Bool × Cities :=
  if dmem m name then (false, m)
  else (true, dset m name [])

/-- `CityMap.remove_city`: delete the entry for `name` from every city's
neighbor map, then delete the city itself. -/
def remove_city (m : Cities) (name : String) : Bool × Cities :=
  if !(dmem m name) then (false, m)
  else
    let m1 := m.map (fun e => (e.1, ddel e.2 name))
    (true, ddel m1 name)

/-- The loop body of `CityMap.rename_city`: rewrite one neighbor map's
reciprocal reference (`if old in d: d[new] = d.pop(old)`). -/
def renameRef (old_name new_name : String) (nm : RoadMap) : RoadMap :=
  if dmem nm old_name
  then dset (ddel nm old_name) new_name ((dlook nm old_name).getD [])
  else nm

/-- `CityMap.rename_city`: move the neighbor map to the new key
(`cities[new] = cities.pop(old)`), then rewrite the reciprocal reference in
every neighbor map (`cities[c][new] = cities[c].pop(old)`). -/
def rename_city (m : Cities) (old_name new_name : String) : Bool × Cities :=
  if !(dmem m old_name) || dmem m new_name then (false, m)
  else
    let rm := (dlook m old_name).getD []
    let m1 := dset (ddel m old_name) new_name rm
    let m2 := m1.map (fun e => (e.1, renameRef old_name new_name e.2))
    (true, m2)

/-- `CityMap.add_road`: create empty cost lists for both directions when the
pair is new, then append `cost` to `cities[city1][city2]` and to
`cities[city2][city1]`; the second append raises `KeyError` (`none`) when the
reverse entry is missing.  The two appends are sequential, which captures the
aliasing when `city1 = city2`. -/
def add_road (m : Cities) (city1 city2 : String) (cost : JVal) :
    Option Bool × Cities :=
  if !(dmem m city1) || !(dmem m city2) then (some false, m)
  else
    let m1 := if dmem (nbrsOf m city1) city2 then m
              else setRoad (setRoad m city1 city2 []) city2 city1 []
    match lookNbr m1 city1 city2 with
    | none => (none, m1)
    | some l1 =>
      let m2 := setRoad m1 city1 city2 (l1 ++ [cost])
      match lookNbr m2 city2 city1 with
      | none => (none, m2)
      | some l2 => (some true, setRoad m2 city2 city1 (l2 ++ [cost]))

/-- `CityMap.remove_road`: with `cost = none` delete both directed entries;
with an explicit cost, if the cost is present in `cities[city1][city2]`
remove the first match from each direction and, when that empties the list,
delete both entries — otherwise do nothing and still return `True`.
`list.remove` on a missing value and `del` on a missing key raise (`none`),
with the state as mutated so far. -/
def remove_road (m : Cities) (city1 city2 : String) (cost : Option JVal) :
    Option Bool × Cities :=
  if !(dmem m city1) || !(dmem m city2) then (some false, m)
  else if !(dmem (nbrsOf m city1) city2) then (some false, m)
  else
    match cost with
    | none =>
      let m1 := delRoad m city1 city2
      if dmem (nbrsOf m1 city2) city1 then (some true, delRoad m1 city2 city1)
      else (none, m1)
    | some cst =>
      match lookNbr m city1 city2 with
      | none => (none, m)
      | some l1 =>
        if cst ∈ l1 then
          let m1 := setRoad m city1 city2 (pyRemove l1 cst)
          match lookNbr m1 city2 city1 with
          | none => (none, m1)
          | some l2 =>
            if cst ∈ l2 then
              let m2 := setRoad m1 city2 city1 (pyRemove l2 cst)
              if (lookNbr m2 city1 city2).getD [] = [] then
                let m3 := delRoad m2 city1 city2
                if dmem (nbrsOf m3 city2) city1 then
                  (some true, delRoad m3 city2 city1)
                else (none, m3)
              else (some true, m2)
            else (none, m1)
        else (some true, m)

/-- `CityMap.update_road_cost`: replace the first occurrence of `old_cost`
with `new_cost` at the same list index in both directions; the second indexed
assignment raises (`none`) when the reverse entry is missing or shorter. -/
def update_road_cost (m : Cities) (city1 city2 : String)
    (old_cost new_cost : JVal) : Option Bool × Cities :=
  if !(dmem m city1) || !(dmem m city2) then (some false, m)
  else if !(dmem (nbrsOf m city1) city2) then (some false, m)
  else
    match lookNbr m city1 city2 with
    | none => (none, m)
    | some l1 =>
      if old_cost ∈ l1 then
        let i := pyIndexOf l1 old_cost
        let m1 := setRoad m city1 city2 (l1.set i new_cost)
        match lookNbr m1 city2 city1 with
        | none => (none, m1)
        | some l2 =>
          if i < l2.length then
            (some true, setRoad m1 city2 city1 (l2.set i new_cost))
          else (none, m1)
      else (some false, m)

/-- `CityMap.get_cities`. -/
def get_cities (m : Cities) : List String := dkeys m

/-- `CityMap.get_roads_from_city`. -/
def get_roads_from_city (m : Cities) (city : String) :
    List (String × List JVal) :=
  match dlook m city with
  | none => []
  | some rm => rm

/-- The undirected pairs collected by `CityMap.get_all_roads`, adding
`(city1, city2)` unless `(city2, city1)` was already collected.  The Python
original accumulates them in a `set` whose iteration order is unspecified;
the embedding keeps insertion order, which is one admissible order. -/
def roadPairs (m : Cities) : List (String × String) :=
  m.foldl (fun acc e =>
    e.2.foldl (fun acc2 e2 =>
      if (e2.1, e.1) ∈ acc2 then acc2 else acc2 ++ [(e.1, e2.1)]) acc) []

/-- `CityMap.get_all_roads`. -/
def get_all_roads (m : Cities) : List (String × String × List JVal) :=
  (roadPairs m).map (fun p => (p.1, p.2, (lookNbr m p.1 p.2).getD []))

/-! ## Graph Store operation sequences (reachability) -/

/-- One Graph Store operation. -/
inductive GOp where
  | addCity (name : String)
  | removeCity (name : String)
  | renameCity (old_name new_name : String)
  | addRoad (city1 city2 : String) (cost : JVal)
  | removeRoad (city1 city2 : String) (cost : Option JVal)
  | updateRoad (city1 city2 : String) (old_cost new_cost : JVal)

/-- The state after one Graph Store operation (also after an operation that
raised: the state as mutated up to the raise, which is what the process keeps
running with). -/
def applyGOp (m : Cities) : GOp → Cities
  | .addCity n => (add_city m n).2
  | .removeCity n => (remove_city m n).2
  | .renameCity o n => (rename_city m o n).2
  | .addRoad a b c => (add_road m a b c).2
  | .removeRoad a b c => (remove_road m a b c).2
  | .updateRoad a b o n => (update_road_cost m a b o n).2

/-- The state reached from the empty `CityMap` by a sequence of Graph Store
operations. -/
def runOps (ops : List GOp) : Cities := ops.foldl applyGOp []

example :
    get_roads_from_city
      (runOps [.addCity "X", .addCity "Y", .addRoad "X" "Y" (.int 5),
               .addRoad "X" "Y" (.int 5)]) "X" =
      [("Y", [.int 5, .int 5])] := by decide

example :
    (remove_road
      (runOps [.addCity "X", .addCity "Y", .addRoad "X" "Y" (.int 5)])
      "X" "Y" (some (.int 7))).1 = some true := by decide

/-! ## Dict and road-level helper lemmas -/

theorem dmem_dset {α : Type} (m : List (String × α)) (k x : String) (v : α) :
    dmem (dset m k v) x = if x = k then true else dmem m x := by
  by_cases h : x = k
  · subst h
    simp [dmem, dlook_dset_self]
  · simp [dmem, dlook_dset_ne m k x v h, h]

theorem dmem_ddel_ne {α : Type} (m : List (String × α)) (k x : String)
    (h : x ≠ k) : dmem (ddel m k) x = dmem m x := by
  simp [dmem, dlook_ddel_ne m k x h]

theorem dmem_ddel_self {α : Type} (m : List (String × α)) (k : String)
    (hn : NodupKeys m) : dmem (ddel m k) k = false := by
  simp [dmem, dlook_ddel_self m k hn]

theorem lookNbr_setRoad (m : Cities) (c n : String) (v : List JVal)
    (x y : String) :
    lookNbr (setRoad m c n v) x y =
      if x = c then (if y = n then some v else lookNbr m c y)
      else lookNbr m x y := by
  unfold setRoad lookNbr
  by_cases hx : x = c
  · subst hx
    rw [dlook_dset_self]
    by_cases hy : y = n
    · subst hy
      simp [dlook_dset_self]
    · simp only [if_true, hy, if_false, dlook_dset_ne _ _ _ _ hy, nbrsOf]
      cases dlook m x with
      | none => simp [dlook]
      | some rm => simp
  · simp [dlook_dset_ne _ _ _ _ hx, hx]

theorem lookNbr_delRoad (m : Cities) (c n : String) (x y : String)
    (hn : NodupKeys (nbrsOf m c)) :
    lookNbr (delRoad m c n) x y =
      if x = c then (if y = n then none else lookNbr m c y)
      else lookNbr m x y := by
  unfold delRoad lookNbr
  by_cases hx : x = c
  · subst hx
    rw [dlook_dset_self]
    by_cases hy : y = n
    · subst hy
      simp [dlook_ddel_self _ _ hn]
    · simp only [if_true, hy, if_false, dlook_ddel_ne _ _ _ hy, nbrsOf]
      cases dlook m x with
      | none => simp [dlook]
      | some rm => simp
  · simp [dlook_dset_ne _ _ _ _ hx, hx]

theorem dmem_setRoad (m : Cities) (c n : String) (v : List JVal) (x : String) :
    dmem (setRoad m c n v) x = if x = c then true else dmem m x :=
  dmem_dset m c x _

theorem dmem_delRoad (m : Cities) (c n : String) (x : String) :
    dmem (delRoad m c n) x = if x = c then true else dmem m x :=
  dmem_dset m c x _

/-! ## The graph invariants -/

/-- Structural invariants of the graph store: dict keys are distinct (true of
every Python dict), and the two directed entries of every pair agree exactly
(the symmetry invariant, in its strongest positional form; it also forces
every neighbor reference to point to an existing city). -/
structure GInv (m : Cities) : Prop where
  top : NodupKeys m
  inner : ∀ c rm, dlook m c = some rm → NodupKeys rm
  sym : ∀ a b, lookNbr m a b = lookNbr m b a

theorem ginv_nil : GInv [] :=
  ⟨List.nodup_nil, fun _ _ h => by simp [dlook] at h, fun _ _ => rfl⟩

theorem dmem_of_lookNbr_some {m : Cities} {a b : String} (h : GInv m)
    {l : List JVal} (hl : lookNbr m a b = some l) : dmem m b = true := by
  have hba := (h.sym a b).symm.trans hl
  unfold lookNbr at hba
  cases hb : dlook m b with
  | none => rw [hb] at hba; exact Option.noConfusion hba
  | some rm => simp [dmem, hb]

theorem dmem_fst_of_lookNbr_some {m : Cities} {a b : String}
    {l : List JVal} (hl : lookNbr m a b = some l) : dmem m a = true := by
  unfold lookNbr at hl
  cases ha : dlook m a with
  | none => rw [ha] at hl; exact Option.noConfusion hl
  | some rm => simp [dmem, ha]

theorem nbrsOf_nodup {m : Cities} (h : GInv m) (c : String) :
    NodupKeys (nbrsOf m c) := by
  unfold nbrsOf
  cases hc : dlook m c with
  | none => exact List.nodup_nil
  | some rm => exact h.inner c rm hc

theorem inner_setRoad {m : Cities} (c n : String) (v : List JVal)
    (h : ∀ c' rm, dlook m c' = some rm → NodupKeys rm) :
    ∀ c' rm, dlook (setRoad m c n v) c' = some rm → NodupKeys rm := by
  intro c' rm hrm
  by_cases hc : c' = c
  · subst hc
    rw [setRoad, dlook_dset_self] at hrm
    cases hrm
    apply nodupKeys_dset
    unfold nbrsOf
    cases hc0 : dlook m c' with
    | none => exact List.nodup_nil
    | some rm0 => exact h c' rm0 hc0
  · rw [setRoad, dlook_dset_ne _ _ _ _ hc] at hrm
    exact h c' rm hrm

theorem inner_delRoad {m : Cities} (c n : String)
    (h : ∀ c' rm, dlook m c' = some rm → NodupKeys rm) :
    ∀ c' rm, dlook (delRoad m c n) c' = some rm → NodupKeys rm := by
  intro c' rm hrm
  by_cases hc : c' = c
  · subst hc
    rw [delRoad, dlook_dset_self] at hrm
    cases hrm
    apply nodupKeys_ddel
    unfold nbrsOf
    cases hc0 : dlook m c' with
    | none => exact List.nodup_nil
    | some rm0 => exact h c' rm0 hc0
  · rw [delRoad, dlook_dset_ne _ _ _ _ hc] at hrm
    exact h c' rm hrm

theorem top_setRoad {m : Cities} (c n : String) (v : List JVal)
    (h : NodupKeys m) : NodupKeys (setRoad m c n v) :=
  nodupKeys_dset m c _ h

theorem top_delRoad {m : Cities} (c n : String)
    (h : NodupKeys m) : NodupKeys (delRoad m c n) :=
  nodupKeys_dset m c _ h

/-! ## `add_city` and `remove_city` -/

theorem add_city_mem {m : Cities} {n : String} (h : dmem m n = true) :
    add_city m n = (false, m) := by
  simp [add_city, h]

theorem add_city_not_mem {m : Cities} {n : String} (h : dmem m n = false) :
    add_city m n = (true, dset m n []) := by
  simp [add_city, h]

theorem dlook_add_city {m : Cities} {n : String} (h : dmem m n = false)
    (x : String) :
    dlook (add_city m n).2 x = if x = n then some [] else dlook m x := by
  rw [add_city_not_mem h]
  by_cases hx : x = n
  · subst hx
    simp [dlook_dset_self]
  · simp [dlook_dset_ne _ _ _ _ hx, hx]

theorem lookNbr_add_city {m : Cities} {n : String} (h : GInv m)
    (hn : dmem m n = false) (x y : String) :
    lookNbr (add_city m n).2 x y =
      if x = n ∨ y = n then none else lookNbr m x y := by
  unfold lookNbr
  rw [dlook_add_city hn]
  by_cases hx : x = n
  · simp [hx, dlook]
  · simp only [hx, if_false, false_or]
    by_cases hy : y = n
    · subst hy
      simp only [if_true]
      cases hm : dlook m x with
      | none => rfl
      | some rm =>
        cases hrm : dlook rm y with
        | none => exact hrm
        | some l =>
          exfalso
          have : lookNbr m x y = some l := by
            unfold lookNbr
            rw [hm]
            exact hrm
          rw [dmem_of_lookNbr_some h this] at hn
          exact Bool.noConfusion hn
    · simp [hy]

theorem dmem_add_city {m : Cities} {n : String} (hn : dmem m n = false)
    (x : String) :
    dmem (add_city m n).2 x = if x = n then true else dmem m x := by
  by_cases hx : x = n
  · subst hx
    simp [dmem, dlook_add_city hn]
  · simp [dmem, dlook_add_city hn, hx]

theorem ginv_add_city (m : Cities) (n : String) (h : GInv m) :
    GInv (add_city m n).2 := by
  cases hn : dmem m n with
  | true => rw [add_city_mem hn]; exact h
  | false =>
    refine ⟨?_, ?_, ?_⟩
    · rw [add_city_not_mem hn]
      exact nodupKeys_dset m n [] h.top
    · intro c rm hrm
      rw [dlook_add_city hn] at hrm
      by_cases hc : c = n
      · rw [if_pos hc] at hrm
        cases hrm
        exact List.nodup_nil
      · rw [if_neg hc] at hrm
        exact h.inner c rm hrm
    · intro a b
      rw [lookNbr_add_city h hn, lookNbr_add_city h hn]
      by_cases hg : a = n ∨ b = n
      · rw [if_pos hg, if_pos (hg.symm.imp id id)]
      · rw [if_neg hg, if_neg (fun hh => hg (hh.symm.imp id id))]
        exact h.sym a b

theorem dlook_map_ddel (m : Cities) (n : String) (x : String) :
    dlook (m.map (fun e => (e.1, ddel e.2 n))) x =
      (dlook m x).map (fun rm => ddel rm n) := by
  induction m with
  | nil => simp [dlook]
  | cons hd tl ih =>
    obtain ⟨k, v⟩ := hd
    by_cases h : k = x <;> simp [dlook, h, ih]

theorem dkeys_map_ddel (m : Cities) (n : String) :
    dkeys (m.map (fun e => (e.1, ddel e.2 n))) = dkeys m := by
  induction m with
  | nil => rfl
  | cons hd tl ih =>
      simp only [dkeys, List.map_cons, List.map_map]
      simp only [dkeys, List.map_map] at ih
      rw [List.cons.injEq]
      exact ⟨rfl, ih⟩

theorem remove_city_not_mem {m : Cities} {n : String} (h : dmem m n = false) :
    remove_city m n = (false, m) := by
  simp [remove_city, h]

theorem remove_city_mem {m : Cities} {n : String} (h : dmem m n = true) :
    remove_city m n =
      (true, ddel (m.map (fun e => (e.1, ddel e.2 n))) n) := by
  simp [remove_city, h]

theorem dlook_remove_city {m : Cities} {n : String} (h : GInv m)
    (hn : dmem m n = true) (x : String) :
    dlook (remove_city m n).2 x =
      if x = n then none else (dlook m x).map (fun rm => ddel rm n) := by
  rw [remove_city_mem hn]
  by_cases hx : x = n
  · subst hx
    rw [if_pos rfl]
    apply dlook_ddel_self
    unfold NodupKeys
    rw [dkeys_map_ddel]
    exact h.top
  · rw [if_neg hx, dlook_ddel_ne _ _ _ hx, dlook_map_ddel]

theorem lookNbr_remove_city {m : Cities} {n : String} (h : GInv m)
    (hn : dmem m n = true) (x y : String) :
    lookNbr (remove_city m n).2 x y =
      if x = n ∨ y = n then none else lookNbr m x y := by
  unfold lookNbr
  rw [dlook_remove_city h hn]
  by_cases hx : x = n
  · simp [hx]
  · simp only [hx, if_false, false_or]
    cases hm : dlook m x with
    | none => simp [hm]
    | some rm =>
      by_cases hy : y = n
      · subst hy
        rw [if_pos rfl]
        exact dlook_ddel_self rm y (h.inner x rm hm)
      · rw [if_neg hy]
        exact dlook_ddel_ne rm n y hy

theorem dmem_remove_city {m : Cities} {n : String} (h : GInv m)
    (hn : dmem m n = true) (x : String) :
    dmem (remove_city m n).2 x = if x = n then false else dmem m x := by
  by_cases hx : x = n
  · subst hx
    simp [dmem, dlook_remove_city h hn]
  · simp only [dmem, dlook_remove_city h hn, hx, if_false]
    cases dlook m x <;> rfl

theorem ginv_remove_city (m : Cities) (n : String) (h : GInv m) :
    GInv (remove_city m n).2 := by
  cases hn : dmem m n with
  | false => rw [remove_city_not_mem hn]; exact h
  | true =>
    refine ⟨?_, ?_, ?_⟩
    · rw [remove_city_mem hn]
      apply nodupKeys_ddel
      unfold NodupKeys
      rw [dkeys_map_ddel]
      exact h.top
    · intro c rm hrm
      rw [dlook_remove_city h hn] at hrm
      by_cases hc : c = n
      · rw [if_pos hc] at hrm
        exact Option.noConfusion hrm
      · rw [if_neg hc] at hrm
        cases hm : dlook m c with
        | none => rw [hm] at hrm; exact Option.noConfusion hrm
        | some rm0 =>
          rw [hm] at hrm
          cases hrm
          exact nodupKeys_ddel rm0 n (h.inner c rm0 hm)
    · intro a b
      rw [lookNbr_remove_city h hn, lookNbr_remove_city h hn]
      by_cases hg : a = n ∨ b = n
      · rw [if_pos hg, if_pos (hg.symm.imp id id)]
      · rw [if_neg hg, if_neg (fun hh => hg (hh.symm.imp id id))]
        exact h.sym a b

/-! ## `rename_city` -/

theorem dlook_map_renameRef (m : Cities) (o n : String) (x : String) :
    dlook (m.map (fun e => (e.1, renameRef o n e.2))) x =
      (dlook m x).map (renameRef o n) := by
  induction m with
  | nil => simp [dlook]
  | cons hd tl ih =>
    obtain ⟨k, v⟩ := hd
    by_cases h : k = x <;> simp [dlook, h, ih]

theorem dkeys_map_renameRef (m : Cities) (o n : String) :
    dkeys (m.map (fun e => (e.1, renameRef o n e.2))) = dkeys m := by
  induction m with
  | nil => rfl
  | cons hd tl ih =>
    simp only [dkeys, List.map_cons, List.map_map]
    simp only [dkeys, List.map_map] at ih
    rw [List.cons.injEq]
    exact ⟨rfl, ih⟩

theorem nodup_renameRef (o n : String) (nm : RoadMap) (h : NodupKeys nm) :
    NodupKeys (renameRef o n nm) := by
  unfold renameRef
  by_cases hm : dmem nm o
  · rw [if_pos hm]
    exact nodupKeys_dset _ _ _ (nodupKeys_ddel nm o h)
  · rw [if_neg hm]
    exact h

theorem lookNbr_bind (m : Cities) (x y : String) :
    lookNbr m x y = (dlook m x).bind (fun rm => dlook rm y) := by
  unfold lookNbr
  cases dlook m x <;> rfl

theorem dlook_renameRef {old_name new_name : String} (nm : RoadMap)
    (hnd : NodupKeys nm) (hnew : dlook nm new_name = none)
    (hon : old_name ≠ new_name) (y : String) :
    dlook (renameRef old_name new_name nm) y =
      if y = old_name then none
      else dlook nm (if y = new_name then old_name else y) := by
  unfold renameRef
  by_cases hm : dmem nm old_name
  · rw [if_pos hm]
    by_cases hy : y = old_name
    · rw [if_pos hy, hy, dlook_dset_ne _ _ _ _ hon]
      exact dlook_ddel_self nm old_name hnd
    · rw [if_neg hy]
      by_cases hyn : y = new_name
      · rw [if_pos hyn, hyn, dlook_dset_self]
        obtain ⟨v0, hv0⟩ := Option.isSome_iff_exists.mp hm
        rw [hv0]
        rfl
      · rw [if_neg hyn, dlook_dset_ne _ _ _ _ hyn, dlook_ddel_ne _ _ _ hy]
  · rw [if_neg hm]
    have ho : dlook nm old_name = none := by
      cases hl : dlook nm old_name with
      | none => rfl
      | some v => rw [dmem, hl] at hm; exact absurd rfl hm
    by_cases hy : y = old_name
    · rw [if_pos hy, hy, ho]
    · rw [if_neg hy]
      by_cases hyn : y = new_name
      · rw [if_pos hyn, hyn, hnew, ho]
      · rw [if_neg hyn]

theorem rename_city_fail {m : Cities} {o n : String}
    (h : (!(dmem m o) || dmem m n) = true) :
    rename_city m o n = (false, m) := by
  simp [rename_city, h]

theorem rename_city_ok {m : Cities} {o n : String}
    (ho : dmem m o = true) (hn : dmem m n = false) :
    rename_city m o n =
      (true, (dset (ddel m o) n ((dlook m o).getD [])).map
        (fun e => (e.1, renameRef o n e.2))) := by
  have hg : (!(dmem m o) || dmem m n) = false := by rw [ho, hn]; rfl
  simp [rename_city, hg]

theorem ne_of_dmem_true_false {m : Cities} {o n : String}
    (ho : dmem m o = true) (hn : dmem m n = false) : o ≠ n := by
  intro h
  rw [h, hn] at ho
  exact Bool.noConfusion ho

theorem dlook_rename_city {m : Cities} {o n : String} (h : GInv m)
    (ho : dmem m o = true) (hn : dmem m n = false) (x : String) :
    dlook (rename_city m o n).2 x =
      if x = n then some (renameRef o n ((dlook m o).getD []))
      else if x = o then none
      else (dlook m x).map (renameRef o n) := by
  rw [rename_city_ok ho hn, dlook_map_renameRef]
  by_cases hx : x = n
  · rw [if_pos hx, hx, dlook_dset_self]
    rfl
  · rw [if_neg hx, dlook_dset_ne _ _ _ _ hx]
    by_cases hxo : x = o
    · rw [if_pos hxo, hxo, dlook_ddel_self m o h.top]
      rfl
    · rw [if_neg hxo, dlook_ddel_ne _ _ _ hxo]

theorem no_dangling {m : Cities} (h : GInv m) {c : String} {nm : RoadMap}
    (hc : dlook m c = some nm) {z : String} (hz : dmem m z = false) :
    dlook nm z = none := by
  cases hl : dlook nm z with
  | none => rfl
  | some l =>
    exfalso
    have : lookNbr m c z = some l := by
      unfold lookNbr
      rw [hc]
      exact hl
    rw [dmem_of_lookNbr_some h this] at hz
    exact Bool.noConfusion hz

theorem lookNbr_rename_city {m : Cities} {o n : String} (h : GInv m)
    (ho : dmem m o = true) (hn : dmem m n = false) (x y : String) :
    lookNbr (rename_city m o n).2 x y =
      if x = o ∨ y = o then none
      else lookNbr m (if x = n then o else x) (if y = n then o else y) := by
  have hon := ne_of_dmem_true_false ho hn
  obtain ⟨rm0, hrm0⟩ := Option.isSome_iff_exists.mp ho
  have hrmnd : NodupKeys rm0 := h.inner o rm0 hrm0
  have hrmnew : dlook rm0 n = none := no_dangling h hrm0 hn
  rw [lookNbr_bind, dlook_rename_city h ho hn]
  by_cases hxo : x = o
  · have hxn : ¬ x = n := fun hh => hon (hxo ▸ hh)
    rw [if_neg hxn, if_pos hxo, if_pos (Or.inl hxo)]
    rfl
  · by_cases hxn : x = n
    · rw [if_pos hxn, if_pos hxn, hrm0]
      simp only [Option.getD_some, Option.some_bind]
      rw [dlook_renameRef rm0 hrmnd hrmnew hon y]
      by_cases hyo : y = o
      · rw [if_pos hyo, if_pos (Or.inr hyo)]
      · rw [if_neg hyo,
            if_neg (show ¬(x = o ∨ y = o) from fun hh => hh.elim hxo hyo),
            lookNbr_bind, hrm0]
        rfl
    · rw [if_neg hxn, if_neg hxo]
      cases hm : dlook m x with
      | none =>
        by_cases hyo : y = o
        · rw [if_pos (Or.inr hyo)]
          rfl
        · rw [if_neg (show ¬(x = o ∨ y = o) from fun hh => hh.elim hxo hyo),
              if_neg hxn, lookNbr_bind, hm]
          rfl
      | some nm =>
        have hnmnd := h.inner x nm hm
        have hnmnew := no_dangling h hm hn
        show dlook (renameRef o n nm) y = _
        rw [dlook_renameRef nm hnmnd hnmnew hon y]
        by_cases hyo : y = o
        · rw [if_pos hyo, if_pos (Or.inr hyo)]
        · rw [if_neg hyo,
              if_neg (show ¬(x = o ∨ y = o) from fun hh => hh.elim hxo hyo),
              if_neg hxn, lookNbr_bind, hm]
          rfl

theorem dmem_rename_city {m : Cities} {o n : String} (h : GInv m)
    (ho : dmem m o = true) (hn : dmem m n = false) (x : String) :
    dmem (rename_city m o n).2 x =
      if x = o then false else if x = n then true else dmem m x := by
  have hon := ne_of_dmem_true_false ho hn
  rw [dmem, dlook_rename_city h ho hn]
  by_cases hxo : x = o
  · have hxn : ¬ x = n := fun hh => hon (hxo ▸ hh)
    rw [if_neg hxn, if_pos hxo, if_pos hxo]
    rfl
  · by_cases hxn : x = n
    · rw [if_pos hxn, if_neg hxo, if_pos hxn]
      rfl
    · rw [if_neg hxn, if_neg hxo, if_neg hxo, if_neg hxn]
      show (Option.map (renameRef o n) (dlook m x)).isSome = (dlook m x).isSome
      cases dlook m x <;> rfl

theorem ginv_rename_city (m : Cities) (o n : String) (h : GInv m) :
    GInv (rename_city m o n).2 := by
  cases hg : (!(dmem m o) || dmem m n) with
  | true => rw [rename_city_fail hg]; exact h
  | false =>
    have ho : dmem m o = true := by
      cases hoo : dmem m o with
      | true => rfl
      | false => rw [hoo] at hg; exact Bool.noConfusion hg
    have hn : dmem m n = false := by
      cases hnn : dmem m n with
      | false => rfl
      | true => rw [hnn, Bool.or_true] at hg; exact Bool.noConfusion hg
    refine ⟨?_, ?_, ?_⟩
    · rw [rename_city_ok ho hn]
      unfold NodupKeys
      rw [dkeys_map_renameRef]
      exact nodupKeys_dset _ _ _ (nodupKeys_ddel m o h.top)
    · intro c rm hrm
      rw [dlook_rename_city h ho hn] at hrm
      by_cases hc : c = n
      · rw [if_pos hc] at hrm
        cases hrm
        apply nodup_renameRef
        cases hl : dlook m o with
        | none => exact List.nodup_nil
        | some rm0 =>
          simp only [hl, Option.getD_some]
          exact h.inner o rm0 hl
      · rw [if_neg hc] at hrm
        by_cases hco : c = o
        · rw [if_pos hco] at hrm
          exact Option.noConfusion hrm
        · rw [if_neg hco] at hrm
          cases hl : dlook m c with
          | none => rw [hl] at hrm; exact Option.noConfusion hrm
          | some nm =>
            rw [hl] at hrm
            cases hrm
            exact nodup_renameRef o n nm (h.inner c nm hl)
    · intro a b
      rw [lookNbr_rename_city h ho hn, lookNbr_rename_city h ho hn]
      by_cases hg2 : a = o ∨ b = o
      · rw [if_pos hg2, if_pos hg2.symm]
      · rw [if_neg hg2,
            if_neg (show ¬(b = o ∨ a = o) from fun hh => hg2 hh.symm)]
        exact h.sym _ _

/-! ## `add_road` -/

theorem if_bool_true {α : Type} {c : Bool} (h : c = true) (t e : α) :
    (if c then t else e) = t := by
  rw [h]
  rfl

theorem if_bool_false {α : Type} {c : Bool} (h : c = false) (t e : α) :
    (if c then t else e) = e := by
  rw [h]
  rfl

theorem add_road_fail {m : Cities} {a b : String} (c : JVal)
    (h : (!(dmem m a) || !(dmem m b)) = true) :
    add_road m a b c = (some false, m) := by
  unfold add_road
  rw [if_bool_true h]

theorem add_road_eq_of_present {m : Cities} {a b : String} (c : JVal)
    (ha : dmem m a = true) (hb : dmem m b = true)
    (hpres : dmem (nbrsOf m a) b = true) {l1 : List JVal}
    (hl1 : lookNbr m a b = some l1) {l2 : List JVal}
    (hl2 : lookNbr (setRoad m a b (l1 ++ [c])) b a = some l2) :
    add_road m a b c =
      (some true, setRoad (setRoad m a b (l1 ++ [c])) b a (l2 ++ [c])) := by
  have hg : (!(dmem m a) || !(dmem m b)) = false := by rw [ha, hb]; rfl
  simp only [add_road, if_bool_false hg, if_bool_true hpres, hl1, hl2]

theorem add_road_eq_of_absent {m : Cities} {a b : String} (c : JVal)
    (ha : dmem m a = true) (hb : dmem m b = true)
    (hpres : dmem (nbrsOf m a) b = false) {l1 : List JVal}
    (hl1 : lookNbr (setRoad (setRoad m a b []) b a []) a b = some l1)
    {l2 : List JVal}
    (hl2 : lookNbr (setRoad (setRoad (setRoad m a b []) b a []) a b
             (l1 ++ [c])) b a = some l2) :
    add_road m a b c =
      (some true, setRoad (setRoad (setRoad (setRoad m a b []) b a []) a b
        (l1 ++ [c])) b a (l2 ++ [c])) := by
  have hg : (!(dmem m a) || !(dmem m b)) = false := by rw [ha, hb]; rfl
  simp only [add_road, if_bool_false hg, if_bool_false hpres, hl1, hl2]

theorem add_road_spec {m : Cities} {a b : String} (c : JVal) (h : GInv m)
    (hab : a ≠ b) (ha : dmem m a = true) (hb : dmem m b = true) :
    (add_road m a b c).1 = some true ∧
    GInv (add_road m a b c).2 ∧
    (∀ x y, lookNbr (add_road m a b c).2 x y =
      if (x = a ∧ y = b) ∨ (x = b ∧ y = a)
      then some ((lookNbr m a b).getD [] ++ [c])
      else lookNbr m x y) ∧
    (∀ x, dmem (add_road m a b c).2 x = dmem m x) := by
  have hba : b ≠ a := fun hh => hab hh.symm
  obtain ⟨rma, hrma⟩ := Option.isSome_iff_exists.mp ha
  have hnb : nbrsOf m a = rma := by rw [nbrsOf, hrma]; rfl
  cases hpres : dmem rma b with
  | true =>
    obtain ⟨l1, hl1'⟩ := Option.isSome_iff_exists.mp hpres
    have hl1 : lookNbr m a b = some l1 := by
      rw [lookNbr_bind, hrma]
      exact hl1'
    have hl2 : lookNbr (setRoad m a b (l1 ++ [c])) b a = some l1 := by
      rw [lookNbr_setRoad, if_neg hba, h.sym b a]
      exact hl1
    have hres := add_road_eq_of_present c ha hb (by rw [hnb]; exact hpres)
      hl1 hl2
    have hchar : ∀ x y, lookNbr (add_road m a b c).2 x y =
        if (x = a ∧ y = b) ∨ (x = b ∧ y = a)
        then some ((lookNbr m a b).getD [] ++ [c])
        else lookNbr m x y := by
      intro x y
      simp only [hres]
      by_cases hxa : x = a
      · by_cases hyb : y = b
        · simp [lookNbr_setRoad, hxa, hyb, hab, hba, hl1]
        · simp [lookNbr_setRoad, hxa, hyb, hab, hba]
      · by_cases hxb : x = b
        · by_cases hya : y = a
          · simp [lookNbr_setRoad, hxb, hya, hab, hba, hl1]
          · simp [lookNbr_setRoad, hxb, hya, hxa, hab, hba]
        · simp [lookNbr_setRoad, hxa, hxb, hab, hba]
    refine ⟨by rw [hres], ⟨?_, ?_, ?_⟩, hchar, ?_⟩
    · simp only [hres]
      exact top_setRoad _ _ _ (top_setRoad _ _ _ h.top)
    · simp only [hres]
      exact inner_setRoad _ _ _ (inner_setRoad _ _ _ h.inner)
    · intro u v
      rw [hchar u v, hchar v u]
      by_cases hguard : (u = a ∧ v = b) ∨ (u = b ∧ v = a)
      · rw [if_pos hguard,
            if_pos (hguard.elim (fun p => Or.inr ⟨p.2, p.1⟩)
              (fun p => Or.inl ⟨p.2, p.1⟩))]
      · rw [if_neg hguard,
            if_neg (show ¬((v = a ∧ u = b) ∨ (v = b ∧ u = a)) from
              fun hh => hguard (hh.elim (fun p => Or.inr ⟨p.2, p.1⟩)
                (fun p => Or.inl ⟨p.2, p.1⟩)))]
        exact h.sym u v
    · intro x
      simp only [hres]
      show dmem (setRoad _ _ _ _) x = dmem m x
      by_cases hxb : x = b
      · simp [dmem_setRoad, hxb, hb]
      · by_cases hxa : x = a
        · simp [dmem_setRoad, hxa, ha, hab, hxb]
        · simp [dmem_setRoad, hxa, hxb]
  | false =>
    have hnone : lookNbr m a b = none := by
      rw [lookNbr_bind, hrma]
      show dlook rma b = none
      cases hl : dlook rma b with
      | none => rfl
      | some l => rw [dmem, hl] at hpres; exact Bool.noConfusion hpres
    have hl1 : lookNbr (setRoad (setRoad m a b []) b a []) a b = some [] := by
      simp [lookNbr_setRoad, hab, hba]
    have hl2 : lookNbr (setRoad (setRoad (setRoad m a b []) b a []) a b
        ([] ++ [c])) b a = some [] := by
      simp [lookNbr_setRoad, hab, hba]
    have hres := add_road_eq_of_absent c ha hb (by rw [hnb]; exact hpres)
      hl1 hl2
    have hchar : ∀ x y, lookNbr (add_road m a b c).2 x y =
        if (x = a ∧ y = b) ∨ (x = b ∧ y = a)
        then some ((lookNbr m a b).getD [] ++ [c])
        else lookNbr m x y := by
      intro x y
      simp only [hres]
      by_cases hxa : x = a
      · by_cases hyb : y = b
        · simp [lookNbr_setRoad, hxa, hyb, hab, hba, hnone]
        · simp [lookNbr_setRoad, hxa, hyb, hab, hba]
      · by_cases hxb : x = b
        · by_cases hya : y = a
          · simp [lookNbr_setRoad, hxb, hya, hab, hba, hnone]
          · simp [lookNbr_setRoad, hxb, hya, hxa, hab, hba]
        · simp [lookNbr_setRoad, hxa, hxb, hab, hba]
    refine ⟨by rw [hres], ⟨?_, ?_, ?_⟩, hchar, ?_⟩
    · simp only [hres]
      exact top_setRoad _ _ _ (top_setRoad _ _ _
        (top_setRoad _ _ _ (top_setRoad _ _ _ h.top)))
    · simp only [hres]
      exact inner_setRoad _ _ _ (inner_setRoad _ _ _
        (inner_setRoad _ _ _ (inner_setRoad _ _ _ h.inner)))
    · intro u v
      rw [hchar u v, hchar v u]
      by_cases hguard : (u = a ∧ v = b) ∨ (u = b ∧ v = a)
      · rw [if_pos hguard,
            if_pos (hguard.elim (fun p => Or.inr ⟨p.2, p.1⟩)
              (fun p => Or.inl ⟨p.2, p.1⟩))]
      · rw [if_neg hguard,
            if_neg (show ¬((v = a ∧ u = b) ∨ (v = b ∧ u = a)) from
              fun hh => hguard (hh.elim (fun p => Or.inr ⟨p.2, p.1⟩)
                (fun p => Or.inl ⟨p.2, p.1⟩)))]
        exact h.sym u v
    · intro x
      simp only [hres]
      show dmem (setRoad _ _ _ _) x = dmem m x
      by_cases hxb : x = b
      · simp [dmem_setRoad, hxb, hb]
      · by_cases hxa : x = a
        · simp [dmem_setRoad, hxa, ha, hab, hxb]
        · simp [dmem_setRoad, hxa, hxb]

theorem add_road_self_spec {m : Cities} {a : String} (c : JVal) (h : GInv m)
    (ha : dmem m a = true) :
    (add_road m a a c).1 = some true ∧
    GInv (add_road m a a c).2 ∧
    (∀ x y, lookNbr (add_road m a a c).2 x y =
      if x = a ∧ y = a then some ((lookNbr m a a).getD [] ++ [c] ++ [c])
      else lookNbr m x y) ∧
    (∀ x, dmem (add_road m a a c).2 x = dmem m x) := by
  obtain ⟨rma, hrma⟩ := Option.isSome_iff_exists.mp ha
  have hnb : nbrsOf m a = rma := by rw [nbrsOf, hrma]; rfl
  cases hpres : dmem rma a with
  | true =>
    obtain ⟨l1, hl1'⟩ := Option.isSome_iff_exists.mp hpres
    have hl1 : lookNbr m a a = some l1 := by
      rw [lookNbr_bind, hrma]
      exact hl1'
    have hl2 : lookNbr (setRoad m a a (l1 ++ [c])) a a = some (l1 ++ [c]) := by
      simp [lookNbr_setRoad]
    have hres := add_road_eq_of_present c ha ha (by rw [hnb]; exact hpres)
      hl1 hl2
    have hchar : ∀ x y, lookNbr (add_road m a a c).2 x y =
        if x = a ∧ y = a then some ((lookNbr m a a).getD [] ++ [c] ++ [c])
        else lookNbr m x y := by
      intro x y
      simp only [hres]
      by_cases hxa : x = a
      · by_cases hya : y = a
        · simp [lookNbr_setRoad, hxa, hya, hl1]
        · simp [lookNbr_setRoad, hxa, hya]
      · simp [lookNbr_setRoad, hxa]
    refine ⟨by rw [hres], ⟨?_, ?_, ?_⟩, hchar, ?_⟩
    · simp only [hres]
      exact top_setRoad _ _ _ (top_setRoad _ _ _ h.top)
    · simp only [hres]
      exact inner_setRoad _ _ _ (inner_setRoad _ _ _ h.inner)
    · intro u v
      rw [hchar u v, hchar v u]
      by_cases hguard : u = a ∧ v = a
      · rw [if_pos hguard, if_pos ⟨hguard.2, hguard.1⟩]
      · rw [if_neg hguard,
            if_neg (show ¬(v = a ∧ u = a) from
              fun hh => hguard ⟨hh.2, hh.1⟩)]
        exact h.sym u v
    · intro x
      simp only [hres]
      show dmem (setRoad _ _ _ _) x = dmem m x
      by_cases hxa : x = a
      · simp [dmem_setRoad, hxa, ha]
      · simp [dmem_setRoad, hxa]
  | false =>
    have hnone : lookNbr m a a = none := by
      rw [lookNbr_bind, hrma]
      show dlook rma a = none
      cases hl : dlook rma a with
      | none => rfl
      | some l => rw [dmem, hl] at hpres; exact Bool.noConfusion hpres
    have hl1 : lookNbr (setRoad (setRoad m a a []) a a []) a a = some [] := by
      simp [lookNbr_setRoad]
    have hl2 : lookNbr (setRoad (setRoad (setRoad m a a []) a a []) a a
        ([] ++ [c])) a a = some ([] ++ [c]) := by
      simp [lookNbr_setRoad]
    have hres := add_road_eq_of_absent c ha ha (by rw [hnb]; exact hpres)
      hl1 hl2
    have hchar : ∀ x y, lookNbr (add_road m a a c).2 x y =
        if x = a ∧ y = a then some ((lookNbr m a a).getD [] ++ [c] ++ [c])
        else lookNbr m x y := by
      intro x y
      simp only [hres]
      by_cases hxa : x = a
      · by_cases hya : y = a
        · simp [lookNbr_setRoad, hxa, hya, hnone]
        · simp [lookNbr_setRoad, hxa, hya]
      · simp [lookNbr_setRoad, hxa]
    refine ⟨by rw [hres], ⟨?_, ?_, ?_⟩, hchar, ?_⟩
    · simp only [hres]
      exact top_setRoad _ _ _ (top_setRoad _ _ _
        (top_setRoad _ _ _ (top_setRoad _ _ _ h.top)))
    · simp only [hres]
      exact inner_setRoad _ _ _ (inner_setRoad _ _ _
        (inner_setRoad _ _ _ (inner_setRoad _ _ _ h.inner)))
    · intro u v
      rw [hchar u v, hchar v u]
      by_cases hguard : u = a ∧ v = a
      · rw [if_pos hguard, if_pos ⟨hguard.2, hguard.1⟩]
      · rw [if_neg hguard,
            if_neg (show ¬(v = a ∧ u = a) from
              fun hh => hguard ⟨hh.2, hh.1⟩)]
        exact h.sym u v
    · intro x
      simp only [hres]
      show dmem (setRoad _ _ _ _) x = dmem m x
      by_cases hxa : x = a
      · simp [dmem_setRoad, hxa, ha]
      · simp [dmem_setRoad, hxa]

theorem ginv_add_road (m : Cities) (a b : String) (c : JVal) (h : GInv m) :
    GInv (add_road m a b c).2 := by
  cases hg : (!(dmem m a) || !(dmem m b)) with
  | true => rw [add_road_fail c hg]; exact h
  | false =>
    have ha : dmem m a = true := by
      cases hx : dmem m a with
      | true => rfl
      | false => rw [hx] at hg; exact Bool.noConfusion hg
    have hb : dmem m b = true := by
      cases hx : dmem m b with
      | true => rfl
      | false => rw [hx, Bool.not_false, Bool.or_true] at hg
                 exact Bool.noConfusion hg
    by_cases hab : a = b
    · subst hab
      exact (add_road_self_spec c h ha).2.1
    · exact (add_road_spec c h hab ha hb).2.1

/-! ## `remove_road` -/

theorem nbrsOf_setRoad_ne {m : Cities} {c x : String} (n : String)
    (v : List JVal) (hxc : x ≠ c) : nbrsOf (setRoad m c n v) x = nbrsOf m x := by
  unfold setRoad nbrsOf
  rw [dlook_dset_ne _ _ _ _ hxc]

theorem nbrsOf_delRoad_ne {m : Cities} {c x : String} (n : String)
    (hxc : x ≠ c) : nbrsOf (delRoad m c n) x = nbrsOf m x := by
  unfold delRoad nbrsOf
  rw [dlook_dset_ne _ _ _ _ hxc]

theorem lookNbr_del_pair {m : Cities} {a b : String} (hab : a ≠ b)
    (h : GInv m) (x y : String) :
    lookNbr (delRoad (delRoad m a b) b a) x y =
      if (x = a ∧ y = b) ∨ (x = b ∧ y = a) then none else lookNbr m x y := by
  have hba : b ≠ a := fun hh => hab hh.symm
  have hn1 : NodupKeys (nbrsOf m a) := nbrsOf_nodup h a
  have hn2 : NodupKeys (nbrsOf (delRoad m a b) b) := by
    rw [nbrsOf_delRoad_ne b hba]
    exact nbrsOf_nodup h b
  rw [lookNbr_delRoad (delRoad m a b) b a x y hn2]
  by_cases hxb : x = b
  · rw [if_pos hxb]
    by_cases hya : y = a
    · rw [if_pos hya, if_pos (Or.inr ⟨hxb, hya⟩)]
    · have hxa : ¬ x = a := fun hh => hba (hxb.symm.trans hh)
      rw [if_neg hya, lookNbr_delRoad m a b b y hn1, if_neg hba,
          if_neg (show ¬((x = a ∧ y = b) ∨ (x = b ∧ y = a)) from
            fun hh => hh.elim (fun p => hxa p.1) (fun p => hya p.2)), hxb]
  · rw [if_neg hxb, lookNbr_delRoad m a b x y hn1]
    by_cases hxa : x = a
    · rw [if_pos hxa]
      by_cases hyb : y = b
      · rw [if_pos hyb, if_pos (Or.inl ⟨hxa, hyb⟩)]
      · rw [if_neg hyb,
            if_neg (show ¬((x = a ∧ y = b) ∨ (x = b ∧ y = a)) from
              fun hh => hh.elim (fun p => hyb p.2) (fun p => hxb p.1)), hxa]
    · rw [if_neg hxa,
          if_neg (show ¬((x = a ∧ y = b) ∨ (x = b ∧ y = a)) from
            fun hh => hh.elim (fun p => hxa p.1) (fun p => hxb p.1))]

theorem ginv_del_pair {m : Cities} {a b : String} (hab : a ≠ b) (h : GInv m) :
    GInv (delRoad (delRoad m a b) b a) := by
  refine ⟨?_, ?_, ?_⟩
  · exact top_delRoad _ _ (top_delRoad _ _ h.top)
  · exact inner_delRoad _ _ (inner_delRoad _ _ h.inner)
  · intro u v
    rw [lookNbr_del_pair hab h u v, lookNbr_del_pair hab h v u]
    by_cases hguard : (u = a ∧ v = b) ∨ (u = b ∧ v = a)
    · rw [if_pos hguard,
          if_pos (hguard.elim (fun p => Or.inr ⟨p.2, p.1⟩)
            (fun p => Or.inl ⟨p.2, p.1⟩))]
    · rw [if_neg hguard,
          if_neg (show ¬((v = a ∧ u = b) ∨ (v = b ∧ u = a)) from
            fun hh => hguard (hh.elim (fun p => Or.inr ⟨p.2, p.1⟩)
              (fun p => Or.inl ⟨p.2, p.1⟩)))]
      exact h.sym u v

theorem ginv_set_self (m : Cities) (a : String) (v : List JVal) (h : GInv m) :
    GInv (setRoad m a a v) := by
  refine ⟨top_setRoad _ _ _ h.top, inner_setRoad _ _ _ h.inner, ?_⟩
  intro u v'
  rw [lookNbr_setRoad m a a v u v', lookNbr_setRoad m a a v v' u]
  by_cases hu : u = a
  · rw [if_pos hu]
    by_cases hv : v' = a
    · rw [if_pos hv, if_pos hv, if_pos hu]
    · rw [if_neg hv, if_neg hv, hu]
      exact h.sym a v'
  · rw [if_neg hu]
    by_cases hv : v' = a
    · rw [if_pos hv, if_neg hu, hv]
      exact h.sym u a
    · rw [if_neg hv]
      exact h.sym u v'

theorem ginv_del_self (m : Cities) (a : String) (h : GInv m) :
    GInv (delRoad m a a) := by
  have hn : NodupKeys (nbrsOf m a) := nbrsOf_nodup h a
  refine ⟨top_delRoad _ _ h.top, inner_delRoad _ _ h.inner, ?_⟩
  intro u v
  rw [lookNbr_delRoad m a a u v hn, lookNbr_delRoad m a a v u hn]
  by_cases hu : u = a
  · rw [if_pos hu]
    by_cases hv : v = a
    · rw [if_pos hv, if_pos hv, if_pos hu]
    · rw [if_neg hv, if_neg hv, hu]
      exact h.sym a v
  · rw [if_neg hu]
    by_cases hv : v = a
    · rw [if_pos hv, if_neg hu, hv]
      exact h.sym u a
    · rw [if_neg hv]
      exact h.sym u v

theorem lookNbr_some_elim {m : Cities} {a b : String} {L : List JVal}
    (h : lookNbr m a b = some L) :
    ∃ rm, dlook m a = some rm ∧ dlook rm b = some L := by
  unfold lookNbr at h
  cases hd : dlook m a with
  | none => rw [hd] at h; exact Option.noConfusion h
  | some rm => rw [hd] at h; exact ⟨rm, rfl, h⟩

theorem remove_road_fail_nodes {m : Cities} {a b : String}
    (cost : Option JVal) (h : (!(dmem m a) || !(dmem m b)) = true) :
    remove_road m a b cost = (some false, m) := by
  unfold remove_road
  rw [if_bool_true h]

theorem remove_road_fail_pair {m : Cities} {a b : String} (cost : Option JVal)
    (hga : (!(dmem m a) || !(dmem m b)) = false)
    (hgp : (!(dmem (nbrsOf m a) b)) = true) :
    remove_road m a b cost = (some false, m) := by
  unfold remove_road
  rw [if_bool_false hga, if_bool_true hgp]

theorem remove_road_noop {m : Cities} {a b : String} {cst : JVal}
    {L : List JVal}
    (hga : (!(dmem m a) || !(dmem m b)) = false)
    (hgp : (!(dmem (nbrsOf m a) b)) = false)
    (hpair : lookNbr m a b = some L) (hcst : cst ∉ L) :
    remove_road m a b (some cst) = (some true, m) := by
  simp only [remove_road, if_bool_false hga, if_bool_false hgp, hpair,
    if_neg hcst]

theorem remove_road_eq_live {m : Cities} {a b : String} {cst : JVal}
    {L L2 : List JVal}
    (hga : (!(dmem m a) || !(dmem m b)) = false)
    (hgp : (!(dmem (nbrsOf m a) b)) = false)
    (hpair : lookNbr m a b = some L) (hcst : cst ∈ L)
    (hl2 : lookNbr (setRoad m a b (pyRemove L cst)) b a = some L2)
    (hc2 : cst ∈ L2)
    (hne : ¬ ((lookNbr (setRoad (setRoad m a b (pyRemove L cst)) b a
      (pyRemove L2 cst)) a b).getD [] = [])) :
    remove_road m a b (some cst) =
      (some true, setRoad (setRoad m a b (pyRemove L cst)) b a
        (pyRemove L2 cst)) := by
  simp only [remove_road, if_bool_false hga, if_bool_false hgp, hpair,
    if_pos hcst, hl2, if_pos hc2, if_neg hne]

theorem remove_road_eq_purge {m : Cities} {a b : String} {cst : JVal}
    {L L2 : List JVal}
    (hga : (!(dmem m a) || !(dmem m b)) = false)
    (hgp : (!(dmem (nbrsOf m a) b)) = false)
    (hpair : lookNbr m a b = some L) (hcst : cst ∈ L)
    (hl2 : lookNbr (setRoad m a b (pyRemove L cst)) b a = some L2)
    (hc2 : cst ∈ L2)
    (hemp : (lookNbr (setRoad (setRoad m a b (pyRemove L cst)) b a
      (pyRemove L2 cst)) a b).getD [] = [])
    (hmem : dmem (nbrsOf (delRoad (setRoad (setRoad m a b (pyRemove L cst))
      b a (pyRemove L2 cst)) a b) b) a = true) :
    remove_road m a b (some cst) =
      (some true, delRoad (delRoad (setRoad (setRoad m a b (pyRemove L cst))
        b a (pyRemove L2 cst)) a b) b a) := by
  simp only [remove_road, if_bool_false hga, if_bool_false hgp, hpair,
    if_pos hcst, hl2, if_pos hc2, if_pos hemp, if_bool_true hmem]

theorem remove_road_eq_exc_rev {m : Cities} {a b : String} {cst : JVal}
    {L L2 : List JVal}
    (hga : (!(dmem m a) || !(dmem m b)) = false)
    (hgp : (!(dmem (nbrsOf m a) b)) = false)
    (hpair : lookNbr m a b = some L) (hcst : cst ∈ L)
    (hl2 : lookNbr (setRoad m a b (pyRemove L cst)) b a = some L2)
    (hc2 : cst ∉ L2) :
    remove_road m a b (some cst) =
      (none, setRoad m a b (pyRemove L cst)) := by
  simp only [remove_road, if_bool_false hga, if_bool_false hgp, hpair,
    if_pos hcst, hl2, if_neg hc2]

theorem remove_road_eq_exc_purge {m : Cities} {a b : String} {cst : JVal}
    {L L2 : List JVal}
    (hga : (!(dmem m a) || !(dmem m b)) = false)
    (hgp : (!(dmem (nbrsOf m a) b)) = false)
    (hpair : lookNbr m a b = some L) (hcst : cst ∈ L)
    (hl2 : lookNbr (setRoad m a b (pyRemove L cst)) b a = some L2)
    (hc2 : cst ∈ L2)
    (hemp : (lookNbr (setRoad (setRoad m a b (pyRemove L cst)) b a
      (pyRemove L2 cst)) a b).getD [] = [])
    (hmem : dmem (nbrsOf (delRoad (setRoad (setRoad m a b (pyRemove L cst))
      b a (pyRemove L2 cst)) a b) b) a = false) :
    remove_road m a b (some cst) =
      (none, delRoad (setRoad (setRoad m a b (pyRemove L cst))
        b a (pyRemove L2 cst)) a b) := by
  simp only [remove_road, if_bool_false hga, if_bool_false hgp, hpair,
    if_pos hcst, hl2, if_pos hc2, if_pos hemp, if_bool_false hmem]

theorem remove_road_eq_none_cost {m : Cities} {a b : String}
    (hga : (!(dmem m a) || !(dmem m b)) = false)
    (hgp : (!(dmem (nbrsOf m a) b)) = false)
    (hmem : dmem (nbrsOf (delRoad m a b) b) a = true) :
    remove_road m a b none = (some true, delRoad (delRoad m a b) b a) := by
  simp only [remove_road, if_bool_false hga, if_bool_false hgp,
    if_bool_true hmem]

theorem remove_road_eq_none_cost_exc {m : Cities} {a b : String}
    (hga : (!(dmem m a) || !(dmem m b)) = false)
    (hgp : (!(dmem (nbrsOf m a) b)) = false)
    (hmem : dmem (nbrsOf (delRoad m a b) b) a = false) :
    remove_road m a b none = (none, delRoad m a b) := by
  simp only [remove_road, if_bool_false hga, if_bool_false hgp,
    if_bool_false hmem]

theorem remove_road_spec {m : Cities} {a b : String} {cst : JVal}
    {L : List JVal} (h : GInv m) (hab : a ≠ b)
    (ha : dmem m a = true) (hb : dmem m b = true)
    (hpair : lookNbr m a b = some L) (hcst : cst ∈ L) :
    (remove_road m a b (some cst)).1 = some true ∧
    GInv (remove_road m a b (some cst)).2 ∧
    (∀ x y, lookNbr (remove_road m a b (some cst)).2 x y =
      if (x = a ∧ y = b) ∨ (x = b ∧ y = a)
      then (if pyRemove L cst = [] then none else some (pyRemove L cst))
      else lookNbr m x y) ∧
    (∀ x, dmem (remove_road m a b (some cst)).2 x = dmem m x) := by
  have hba : b ≠ a := fun hh => hab hh.symm
  have hga : (!(dmem m a) || !(dmem m b)) = false := by rw [ha, hb]; rfl
  obtain ⟨rma, hrma, hrmab⟩ := lookNbr_some_elim hpair
  have hgp : (!(dmem (nbrsOf m a) b)) = false := by
    rw [nbrsOf, hrma]
    show (!(dmem rma b)) = false
    rw [dmem, hrmab]
    rfl
  have hl2 : lookNbr (setRoad m a b (pyRemove L cst)) b a = some L := by
    rw [lookNbr_setRoad, if_neg hba, h.sym b a]
    exact hpair
  have hM2 : ∀ x y, lookNbr (setRoad (setRoad m a b (pyRemove L cst)) b a
      (pyRemove L cst)) x y =
      if (x = a ∧ y = b) ∨ (x = b ∧ y = a) then some (pyRemove L cst)
      else lookNbr m x y := by
    intro x y
    by_cases hxa : x = a
    · by_cases hyb : y = b
      · simp [lookNbr_setRoad, hxa, hyb, hab, hba]
      · simp [lookNbr_setRoad, hxa, hyb, hab, hba]
    · by_cases hxb : x = b
      · by_cases hya : y = a
        · simp [lookNbr_setRoad, hxb, hya, hab, hba]
        · simp [lookNbr_setRoad, hxb, hya, hxa, hab, hba]
      · simp [lookNbr_setRoad, hxa, hxb, hab, hba]
  have hM2inv : GInv (setRoad (setRoad m a b (pyRemove L cst)) b a
      (pyRemove L cst)) := by
    refine ⟨top_setRoad _ _ _ (top_setRoad _ _ _ h.top),
      inner_setRoad _ _ _ (inner_setRoad _ _ _ h.inner), ?_⟩
    intro u v
    rw [hM2 u v, hM2 v u]
    by_cases hguard : (u = a ∧ v = b) ∨ (u = b ∧ v = a)
    · rw [if_pos hguard,
          if_pos (hguard.elim (fun p => Or.inr ⟨p.2, p.1⟩)
            (fun p => Or.inl ⟨p.2, p.1⟩))]
    · rw [if_neg hguard,
          if_neg (show ¬((v = a ∧ u = b) ∨ (v = b ∧ u = a)) from
            fun hh => hguard (hh.elim (fun p => Or.inr ⟨p.2, p.1⟩)
              (fun p => Or.inl ⟨p.2, p.1⟩)))]
      exact h.sym u v
  have hM2dmem : ∀ x, dmem (setRoad (setRoad m a b (pyRemove L cst)) b a
      (pyRemove L cst)) x = dmem m x := by
    intro x
    by_cases hxb : x = b
    · simp [dmem_setRoad, hxb, hb]
    · by_cases hxa : x = a
      · simp [dmem_setRoad, hxa, ha, hab, hxb]
      · simp [dmem_setRoad, hxa, hxb]
  by_cases hrem : pyRemove L cst = []
  · -- the removal empties the list: both pair entries are deleted
    have hemp : (lookNbr (setRoad (setRoad m a b (pyRemove L cst)) b a
        (pyRemove L cst)) a b).getD [] = [] := by
      rw [hM2 a b, if_pos (Or.inl ⟨rfl, rfl⟩), Option.getD_some]
      exact hrem
    have hmem : dmem (nbrsOf (delRoad (setRoad (setRoad m a b
        (pyRemove L cst)) b a (pyRemove L cst)) a b) b) a = true := by
      rw [nbrsOf_delRoad_ne b hba]
      have : lookNbr (setRoad (setRoad m a b (pyRemove L cst)) b a
          (pyRemove L cst)) b a = some (pyRemove L cst) := by
        rw [hM2 b a, if_pos (Or.inr ⟨rfl, rfl⟩)]
      obtain ⟨rmb, hrmb, hrmba⟩ := lookNbr_some_elim this
      rw [nbrsOf, hrmb]
      show dmem rmb a = true
      rw [dmem, hrmba]
      rfl
    have hres := remove_road_eq_purge hga hgp hpair hcst hl2 hcst hemp hmem
    have hchar : ∀ x y, lookNbr (remove_road m a b (some cst)).2 x y =
        if (x = a ∧ y = b) ∨ (x = b ∧ y = a)
        then (if pyRemove L cst = [] then none else some (pyRemove L cst))
        else lookNbr m x y := by
      intro x y
      simp only [hres]
      show lookNbr (delRoad (delRoad _ a b) b a) x y = _
      rw [lookNbr_del_pair hab hM2inv x y]
      by_cases hguard : (x = a ∧ y = b) ∨ (x = b ∧ y = a)
      · rw [if_pos hguard, if_pos hguard, if_pos hrem]
      · rw [if_neg hguard, if_neg hguard, hM2 x y, if_neg hguard]
    refine ⟨by rw [hres], ⟨?_, ?_, ?_⟩, hchar, ?_⟩
    · simp only [hres]
      exact top_delRoad _ _ (top_delRoad _ _ hM2inv.top)
    · simp only [hres]
      exact inner_delRoad _ _ (inner_delRoad _ _ hM2inv.inner)
    · intro u v
      rw [hchar u v, hchar v u]
      by_cases hguard : (u = a ∧ v = b) ∨ (u = b ∧ v = a)
      · rw [if_pos hguard,
            if_pos (hguard.elim (fun p => Or.inr ⟨p.2, p.1⟩)
              (fun p => Or.inl ⟨p.2, p.1⟩))]
      · rw [if_neg hguard,
            if_neg (show ¬((v = a ∧ u = b) ∨ (v = b ∧ u = a)) from
              fun hh => hguard (hh.elim (fun p => Or.inr ⟨p.2, p.1⟩)
                (fun p => Or.inl ⟨p.2, p.1⟩)))]
        exact h.sym u v
    · intro x
      simp only [hres]
      show dmem (delRoad (delRoad _ a b) b a) x = dmem m x
      rw [dmem_delRoad, dmem_delRoad]
      by_cases hxb : x = b
      · rw [if_pos hxb, hxb, hb]
      · rw [if_neg hxb]
        by_cases hxa : x = a
        · rw [if_pos hxa, hxa, ha]
        · rw [if_neg hxa, hM2dmem x]
  · -- at least one instance remains: both lists updated in place
    have hne : ¬ ((lookNbr (setRoad (setRoad m a b (pyRemove L cst)) b a
        (pyRemove L cst)) a b).getD [] = []) := by
      rw [hM2 a b, if_pos (Or.inl ⟨rfl, rfl⟩), Option.getD_some]
      exact hrem
    have hres := remove_road_eq_live hga hgp hpair hcst hl2 hcst hne
    have hchar : ∀ x y, lookNbr (remove_road m a b (some cst)).2 x y =
        if (x = a ∧ y = b) ∨ (x = b ∧ y = a)
        then (if pyRemove L cst = [] then none else some (pyRemove L cst))
        else lookNbr m x y := by
      intro x y
      simp only [hres]
      rw [hM2 x y]
      by_cases hguard : (x = a ∧ y = b) ∨ (x = b ∧ y = a)
      · rw [if_pos hguard, if_pos hguard, if_neg hrem]
      · rw [if_neg hguard, if_neg hguard]
    refine ⟨by rw [hres], ⟨?_, ?_, ?_⟩, hchar, ?_⟩
    · simp only [hres]
      exact hM2inv.top
    · simp only [hres]
      exact hM2inv.inner
    · intro u v
      rw [hchar u v, hchar v u]
      by_cases hguard : (u = a ∧ v = b) ∨ (u = b ∧ v = a)
      · rw [if_pos hguard,
            if_pos (hguard.elim (fun p => Or.inr ⟨p.2, p.1⟩)
              (fun p => Or.inl ⟨p.2, p.1⟩))]
      · rw [if_neg hguard,
            if_neg (show ¬((v = a ∧ u = b) ∨ (v = b ∧ u = a)) from
              fun hh => hguard (hh.elim (fun p => Or.inr ⟨p.2, p.1⟩)
                (fun p => Or.inl ⟨p.2, p.1⟩)))]
        exact h.sym u v
    · intro x
      simp only [hres]
      exact hM2dmem x

theorem ginv_remove_road (m : Cities) (a b : String) (cost : Option JVal)
    (h : GInv m) : GInv (remove_road m a b cost).2 := by
  cases hga : (!(dmem m a) || !(dmem m b)) with
  | true => rw [remove_road_fail_nodes cost hga]; exact h
  | false =>
    have ha : dmem m a = true := by
      cases hx : dmem m a with
      | true => rfl
      | false => rw [hx] at hga; exact Bool.noConfusion hga
    have hb : dmem m b = true := by
      cases hx : dmem m b with
      | true => rfl
      | false => rw [hx, Bool.not_false, Bool.or_true] at hga
                 exact Bool.noConfusion hga
    cases hgp : (!(dmem (nbrsOf m a) b)) with
    | true => rw [remove_road_fail_pair cost hga hgp]; exact h
    | false =>
      have hpres : dmem (nbrsOf m a) b = true := by
        cases hx : dmem (nbrsOf m a) b with
        | true => rfl
        | false => rw [hx] at hgp; exact Bool.noConfusion hgp
      obtain ⟨rma, hrma⟩ := Option.isSome_iff_exists.mp ha
      have hnb : nbrsOf m a = rma := by rw [nbrsOf, hrma]; rfl
      rw [hnb] at hpres
      obtain ⟨L, hL⟩ := Option.isSome_iff_exists.mp hpres
      have hpair : lookNbr m a b = some L := by
        rw [lookNbr_bind, hrma]
        exact hL
      cases cost with
      | none =>
        by_cases hab : a = b
        · subst hab
          have hmem : dmem (nbrsOf (delRoad m a a) a) a = false := by
            have heq : nbrsOf (delRoad m a a) a = ddel (nbrsOf m a) a := by
              unfold delRoad nbrsOf
              rw [dlook_dset_self]
              rfl
            rw [heq]
            exact dmem_ddel_self _ _ (nbrsOf_nodup h a)
          rw [remove_road_eq_none_cost_exc hga hgp hmem]
          exact ginv_del_self m a h
        · have hba : b ≠ a := fun hh => hab hh.symm
          have hmem : dmem (nbrsOf (delRoad m a b) b) a = true := by
            rw [nbrsOf_delRoad_ne b hba]
            have hba2 : lookNbr m b a = some L := by
              rw [h.sym b a]
              exact hpair
            obtain ⟨rmb, hrmb, hrmba⟩ := lookNbr_some_elim hba2
            rw [nbrsOf, hrmb]
            show dmem rmb a = true
            rw [dmem, hrmba]
            rfl
          rw [remove_road_eq_none_cost hga hgp hmem]
          exact ginv_del_pair hab h
      | some cst =>
        by_cases hcst : cst ∈ L
        · by_cases hab : a = b
          · subst hab
            have hl2 : lookNbr (setRoad m a a (pyRemove L cst)) a a =
                some (pyRemove L cst) := by
              simp [lookNbr_setRoad]
            by_cases hc2 : cst ∈ pyRemove L cst
            · by_cases hemp : (lookNbr (setRoad (setRoad m a a
                  (pyRemove L cst)) a a (pyRemove (pyRemove L cst) cst))
                  a a).getD [] = []
              · have hmem : dmem (nbrsOf (delRoad (setRoad (setRoad m a a
                    (pyRemove L cst)) a a (pyRemove (pyRemove L cst) cst))
                    a a) a) a = false := by
                  have heq : nbrsOf (delRoad (setRoad (setRoad m a a
                      (pyRemove L cst)) a a (pyRemove (pyRemove L cst) cst))
                      a a) a =
                      ddel (nbrsOf (setRoad (setRoad m a a (pyRemove L cst))
                        a a (pyRemove (pyRemove L cst) cst)) a) a := by
                    unfold delRoad nbrsOf
                    rw [dlook_dset_self]
                    rfl
                  rw [heq]
                  apply dmem_ddel_self
                  exact nbrsOf_nodup
                    (ginv_set_self _ a _ (ginv_set_self m a _ h)) a
                rw [remove_road_eq_exc_purge hga hgp hpair hcst hl2 hc2
                  hemp hmem]
                exact ginv_del_self _ a
                  (ginv_set_self _ a _ (ginv_set_self m a _ h))
              · rw [remove_road_eq_live hga hgp hpair hcst hl2 hc2 hemp]
                exact ginv_set_self _ a _ (ginv_set_self m a _ h)
            · rw [remove_road_eq_exc_rev hga hgp hpair hcst hl2 hc2]
              exact ginv_set_self m a _ h
          · exact (remove_road_spec h hab ha hb hpair hcst).2.1
        · rw [remove_road_noop hga hgp hpair hcst]
          exact h

/-! ## `update_road_cost` -/

theorem pyIndexOf_lt_length {l : List JVal} {c : JVal} (h : c ∈ l) :
    pyIndexOf l c < l.length := by
  induction l with
  | nil => cases h
  | cons x rest ih =>
    by_cases hx : x = c
    · simp [pyIndexOf, hx]
    · rcases List.mem_cons.mp h with h1 | h2
      · exact absurd h1.symm hx
      · simp only [pyIndexOf, hx, if_false, List.length_cons]
        exact Nat.succ_lt_succ (ih h2)

theorem update_fail_nodes {m : Cities} {a b : String} (oc nc : JVal)
    (h : (!(dmem m a) || !(dmem m b)) = true) :
    update_road_cost m a b oc nc = (some false, m) := by
  unfold update_road_cost
  rw [if_bool_true h]

theorem update_fail_pair {m : Cities} {a b : String} (oc nc : JVal)
    (hga : (!(dmem m a) || !(dmem m b)) = false)
    (hgp : (!(dmem (nbrsOf m a) b)) = true) :
    update_road_cost m a b oc nc = (some false, m) := by
  unfold update_road_cost
  rw [if_bool_false hga, if_bool_true hgp]

theorem update_fail_notin {m : Cities} {a b : String} {oc : JVal} (nc : JVal)
    {L : List JVal}
    (hga : (!(dmem m a) || !(dmem m b)) = false)
    (hgp : (!(dmem (nbrsOf m a) b)) = false)
    (hpair : lookNbr m a b = some L) (hoc : oc ∉ L) :
    update_road_cost m a b oc nc = (some false, m) := by
  simp only [update_road_cost, if_bool_false hga, if_bool_false hgp, hpair,
    if_neg hoc]

theorem update_eq_ok {m : Cities} {a b : String} {oc : JVal} (nc : JVal)
    {L L2 : List JVal}
    (hga : (!(dmem m a) || !(dmem m b)) = false)
    (hgp : (!(dmem (nbrsOf m a) b)) = false)
    (hpair : lookNbr m a b = some L) (hoc : oc ∈ L)
    (hl2 : lookNbr (setRoad m a b (L.set (pyIndexOf L oc) nc)) b a = some L2)
    (hlt : pyIndexOf L oc < L2.length) :
    update_road_cost m a b oc nc =
      (some true, setRoad (setRoad m a b (L.set (pyIndexOf L oc) nc)) b a
        (L2.set (pyIndexOf L oc) nc)) := by
  simp only [update_road_cost, if_bool_false hga, if_bool_false hgp, hpair,
    if_pos hoc, hl2, if_pos hlt]

theorem update_road_cost_spec {m : Cities} {a b : String} {oc : JVal}
    (nc : JVal) {L : List JVal} (h : GInv m) (hab : a ≠ b)
    (ha : dmem m a = true) (hb : dmem m b = true)
    (hpair : lookNbr m a b = some L) (hoc : oc ∈ L) :
    (update_road_cost m a b oc nc).1 = some true ∧
    GInv (update_road_cost m a b oc nc).2 ∧
    (∀ x y, lookNbr (update_road_cost m a b oc nc).2 x y =
      if (x = a ∧ y = b) ∨ (x = b ∧ y = a)
      then some (L.set (pyIndexOf L oc) nc)
      else lookNbr m x y) ∧
    (∀ x, dmem (update_road_cost m a b oc nc).2 x = dmem m x) := by
  have hba : b ≠ a := fun hh => hab hh.symm
  have hga : (!(dmem m a) || !(dmem m b)) = false := by rw [ha, hb]; rfl
  obtain ⟨rma, hrma, hrmab⟩ := lookNbr_some_elim hpair
  have hgp : (!(dmem (nbrsOf m a) b)) = false := by
    rw [nbrsOf, hrma]
    show (!(dmem rma b)) = false
    rw [dmem, hrmab]
    rfl
  have hl2 : lookNbr (setRoad m a b (L.set (pyIndexOf L oc) nc)) b a =
      some L := by
    rw [lookNbr_setRoad, if_neg hba, h.sym b a]
    exact hpair
  have hlt : pyIndexOf L oc < L.length := pyIndexOf_lt_length hoc
  have hres := update_eq_ok nc hga hgp hpair hoc hl2 hlt
  have hchar : ∀ x y, lookNbr (update_road_cost m a b oc nc).2 x y =
      if (x = a ∧ y = b) ∨ (x = b ∧ y = a)
      then some (L.set (pyIndexOf L oc) nc)
      else lookNbr m x y := by
    intro x y
    simp only [hres]
    by_cases hxa : x = a
    · by_cases hyb : y = b
      · simp [lookNbr_setRoad, hxa, hyb, hab, hba]
      · simp [lookNbr_setRoad, hxa, hyb, hab, hba]
    · by_cases hxb : x = b
      · by_cases hya : y = a
        · simp [lookNbr_setRoad, hxb, hya, hab, hba]
        · simp [lookNbr_setRoad, hxb, hya, hxa, hab, hba]
      · simp [lookNbr_setRoad, hxa, hxb, hab, hba]
  refine ⟨by rw [hres], ⟨?_, ?_, ?_⟩, hchar, ?_⟩
  · simp only [hres]
    exact top_setRoad _ _ _ (top_setRoad _ _ _ h.top)
  · simp only [hres]
    exact inner_setRoad _ _ _ (inner_setRoad _ _ _ h.inner)
  · intro u v
    rw [hchar u v, hchar v u]
    by_cases hguard : (u = a ∧ v = b) ∨ (u = b ∧ v = a)
    · rw [if_pos hguard,
          if_pos (hguard.elim (fun p => Or.inr ⟨p.2, p.1⟩)
            (fun p => Or.inl ⟨p.2, p.1⟩))]
    · rw [if_neg hguard,
          if_neg (show ¬((v = a ∧ u = b) ∨ (v = b ∧ u = a)) from
            fun hh => hguard (hh.elim (fun p => Or.inr ⟨p.2, p.1⟩)
              (fun p => Or.inl ⟨p.2, p.1⟩)))]
      exact h.sym u v
  · intro x
    simp only [hres]
    show dmem (setRoad _ _ _ _) x = dmem m x
    by_cases hxb : x = b
    · simp [dmem_setRoad, hxb, hb]
    · by_cases hxa : x = a
      · simp [dmem_setRoad, hxa, ha, hab, hxb]
      · simp [dmem_setRoad, hxa, hxb]

theorem ginv_update_road_cost (m : Cities) (a b : String) (oc nc : JVal)
    (h : GInv m) : GInv (update_road_cost m a b oc nc).2 := by
  cases hga : (!(dmem m a) || !(dmem m b)) with
  | true => rw [update_fail_nodes oc nc hga]; exact h
  | false =>
    have ha : dmem m a = true := by
      cases hx : dmem m a with
      | true => rfl
      | false => rw [hx] at hga; exact Bool.noConfusion hga
    have hb : dmem m b = true := by
      cases hx : dmem m b with
      | true => rfl
      | false => rw [hx, Bool.not_false, Bool.or_true] at hga
                 exact Bool.noConfusion hga
    cases hgp : (!(dmem (nbrsOf m a) b)) with
    | true => rw [update_fail_pair oc nc hga hgp]; exact h
    | false =>
      have hpres : dmem (nbrsOf m a) b = true := by
        cases hx : dmem (nbrsOf m a) b with
        | true => rfl
        | false => rw [hx] at hgp; exact Bool.noConfusion hgp
      obtain ⟨rma, hrma⟩ := Option.isSome_iff_exists.mp ha
      have hnb : nbrsOf m a = rma := by rw [nbrsOf, hrma]; rfl
      rw [hnb] at hpres
      obtain ⟨L, hL⟩ := Option.isSome_iff_exists.mp hpres
      have hpair : lookNbr m a b = some L := by
        rw [lookNbr_bind, hrma]
        exact hL
      by_cases hoc : oc ∈ L
      · by_cases hab : a = b
        · subst hab
          have hl2 : lookNbr (setRoad m a a (L.set (pyIndexOf L oc) nc)) a a =
              some (L.set (pyIndexOf L oc) nc) := by
            simp [lookNbr_setRoad]
          have hlt : pyIndexOf L oc < (L.set (pyIndexOf L oc) nc).length := by
            rw [List.length_set]
            exact pyIndexOf_lt_length hoc
          rw [update_eq_ok nc hga hgp hpair hoc hl2 hlt]
          exact ginv_set_self _ a _ (ginv_set_self m a _ h)
        · exact (update_road_cost_spec nc h hab ha hb hpair hoc).2.1
      · rw [update_fail_notin nc hga hgp hpair hoc]
        exact h

/-! ## Reachability: the invariant holds in every reachable state -/

theorem ginv_applyGOp (m : Cities) (op : GOp) (h : GInv m) :
    GInv (applyGOp m op) := by
  cases op with
  | addCity n => exact ginv_add_city m n h
  | removeCity n => exact ginv_remove_city m n h
  | renameCity o n => exact ginv_rename_city m o n h
  | addRoad a b c => exact ginv_add_road m a b c h
  | removeRoad a b c => exact ginv_remove_road m a b c h
  | updateRoad a b o n => exact ginv_update_road_cost m a b o n h

theorem ginv_runOps (ops : List GOp) : GInv (runOps ops) := by
  suffices hgen : ∀ (l : List GOp) (m : Cities), GInv m →
      GInv (l.foldl applyGOp m) by
    exact hgen ops [] ginv_nil
  intro l
  induction l with
  | nil => intro m hm; exact hm
  | cons op rest ih =>
    intro m hm
    exact ih (applyGOp m op) (ginv_applyGOp m op hm)

/-- C1.  Symmetry invariant: in every state reachable by any sequence of
Graph Store operations, for every pair of nodes (A, B) the cost list stored
under A→B equals the cost list stored under B→A as multisets, and the entry
A→B exists iff B→A exists. -/
theorem c1_symmetry_invariant (ops : List GOp) (a b : String) :
    ((lookNbr (runOps ops) a b).getD []).Perm
      ((lookNbr (runOps ops) b a).getD []) ∧
    ((lookNbr (runOps ops) a b).isSome ↔ (lookNbr (runOps ops) b a).isSome) := by
  have h := (ginv_runOps ops).sym a b
  rw [h]
  exact ⟨List.Perm.refl _, Iff.rfl⟩

/-- C9.  Positional symmetry: in every state reachable from the empty graph
by Graph Store operations, the cost list under A→B equals the cost list
under B→A as ordered sequences, position for position — the property that
makes `update_road_cost`'s shared-index update across the two directions
sound. -/
theorem c9_positional_symmetry (ops : List GOp) (a b : String) :
    lookNbr (runOps ops) a b = lookNbr (runOps ops) b a :=
  (ginv_runOps ops).sym a b

/-! ## C3: removal of a specific cost -/

/-- C3, counterexample.  With the pair A–B present with cost list `[3]`,
`remove_road A B 5` — a cost that is not present — returns `True` and leaves
the graph unchanged, instead of returning `False` as the claim states. -/
theorem c3_counterexample :
    lookNbr (runOps [.addCity "A", .addCity "B", .addRoad "A" "B" (.int 3)])
      "A" "B" = some [.int 3] ∧
    (JVal.int 5) ∉ [JVal.int 3] ∧
    remove_road (runOps [.addCity "A", .addCity "B",
        .addRoad "A" "B" (.int 3)]) "A" "B" (some (.int 5)) =
      (some true,
        runOps [.addCity "A", .addCity "B", .addRoad "A" "B" (.int 3)]) := by
  decide

/-- C3, amended.  `remove_road` with an explicit cost returns `False` only
when a node is absent or the pair has no entry; when the pair exists but the
cost is absent it returns `True` and changes nothing (a silent no-op, not a
failure); when the cost is present it removes exactly one matching instance
(first match by value) from each direction and deletes the pair entry from
both sides when the removal empties the cost list. -/
theorem c3_amended (m : Cities) (a b : String) (cst : JVal) (h : GInv m)
    (hab : a ≠ b) :
    ((!(dmem m a) || !(dmem m b)) = true →
      remove_road m a b (some cst) = (some false, m)) ∧
    (dmem m a = true → dmem m b = true → lookNbr m a b = none →
      remove_road m a b (some cst) = (some false, m)) ∧
    (∀ L, lookNbr m a b = some L → cst ∉ L →
      remove_road m a b (some cst) = (some true, m)) ∧
    (∀ L, lookNbr m a b = some L → cst ∈ L →
      (remove_road m a b (some cst)).1 = some true ∧
      (∀ x y, lookNbr (remove_road m a b (some cst)).2 x y =
        if (x = a ∧ y = b) ∨ (x = b ∧ y = a)
        then (if pyRemove L cst = [] then none else some (pyRemove L cst))
        else lookNbr m x y)) := by
  refine ⟨?_, ?_, ?_, ?_⟩
  · intro hg
    exact remove_road_fail_nodes (some cst) hg
  · intro ha hb hnone
    have hga : (!(dmem m a) || !(dmem m b)) = false := by rw [ha, hb]; rfl
    obtain ⟨rma, hrma⟩ := Option.isSome_iff_exists.mp ha
    have hgp : (!(dmem (nbrsOf m a) b)) = true := by
      rw [nbrsOf, hrma]
      show (!(dmem rma b)) = true
      rw [lookNbr_bind, hrma] at hnone
      have : dlook rma b = none := hnone
      rw [dmem, this]
      rfl
    exact remove_road_fail_pair (some cst) hga hgp
  · intro L hpair hcst
    obtain ⟨rma, hrma, hrmab⟩ := lookNbr_some_elim hpair
    have ha : dmem m a = true := by rw [dmem, hrma]; rfl
    have hb : dmem m b = true := dmem_of_lookNbr_some h hpair
    have hga : (!(dmem m a) || !(dmem m b)) = false := by rw [ha, hb]; rfl
    have hgp : (!(dmem (nbrsOf m a) b)) = false := by
      rw [nbrsOf, hrma]
      show (!(dmem rma b)) = false
      rw [dmem, hrmab]
      rfl
    exact remove_road_noop hga hgp hpair hcst
  · intro L hpair hcst
    have ha : dmem m a = true := dmem_fst_of_lookNbr_some hpair
    have hb : dmem m b = true := dmem_of_lookNbr_some h hpair
    obtain ⟨h1, _, h3, _⟩ := remove_road_spec h hab ha hb hpair hcst
    exact ⟨h1, h3⟩

/-- C3, witness for the amended theorem at the concrete graph
A–B with cost list `[3, 5]`. -/
theorem c3_amended_witness :
    ((!(dmem (runOps [.addCity "A", .addCity "B", .addRoad "A" "B" (.int 3),
        .addRoad "A" "B" (.int 5)]) "A") ||
      !(dmem (runOps [.addCity "A", .addCity "B", .addRoad "A" "B" (.int 3),
        .addRoad "A" "B" (.int 5)]) "B")) = true →
      remove_road (runOps [.addCity "A", .addCity "B",
        .addRoad "A" "B" (.int 3), .addRoad "A" "B" (.int 5)]) "A" "B"
        (some (.int 5)) =
      (some false, runOps [.addCity "A", .addCity "B",
        .addRoad "A" "B" (.int 3), .addRoad "A" "B" (.int 5)])) ∧
    (dmem (runOps [.addCity "A", .addCity "B", .addRoad "A" "B" (.int 3),
        .addRoad "A" "B" (.int 5)]) "A" = true →
      dmem (runOps [.addCity "A", .addCity "B", .addRoad "A" "B" (.int 3),
        .addRoad "A" "B" (.int 5)]) "B" = true →
      lookNbr (runOps [.addCity "A", .addCity "B", .addRoad "A" "B" (.int 3),
        .addRoad "A" "B" (.int 5)]) "A" "B" = none →
      remove_road (runOps [.addCity "A", .addCity "B",
        .addRoad "A" "B" (.int 3), .addRoad "A" "B" (.int 5)]) "A" "B"
        (some (.int 5)) =
      (some false, runOps [.addCity "A", .addCity "B",
        .addRoad "A" "B" (.int 3), .addRoad "A" "B" (.int 5)])) ∧
    (∀ L, lookNbr (runOps [.addCity "A", .addCity "B",
        .addRoad "A" "B" (.int 3), .addRoad "A" "B" (.int 5)]) "A" "B" =
        some L → (JVal.int 5) ∉ L →
      remove_road (runOps [.addCity "A", .addCity "B",
        .addRoad "A" "B" (.int 3), .addRoad "A" "B" (.int 5)]) "A" "B"
        (some (.int 5)) =
      (some true, runOps [.addCity "A", .addCity "B",
        .addRoad "A" "B" (.int 3), .addRoad "A" "B" (.int 5)])) ∧
    (∀ L, lookNbr (runOps [.addCity "A", .addCity "B",
        .addRoad "A" "B" (.int 3), .addRoad "A" "B" (.int 5)]) "A" "B" =
        some L → (JVal.int 5) ∈ L →
      (remove_road (runOps [.addCity "A", .addCity "B",
        .addRoad "A" "B" (.int 3), .addRoad "A" "B" (.int 5)]) "A" "B"
        (some (.int 5))).1 = some true ∧
      (∀ x y, lookNbr (remove_road (runOps [.addCity "A", .addCity "B",
          .addRoad "A" "B" (.int 3), .addRoad "A" "B" (.int 5)]) "A" "B"
          (some (.int 5))).2 x y =
        if (x = "A" ∧ y = "B") ∨ (x = "B" ∧ y = "A")
        then (if pyRemove L (.int 5) = []
              then none else some (pyRemove L (.int 5)))
        else lookNbr (runOps [.addCity "A", .addCity "B",
          .addRoad "A" "B" (.int 3), .addRoad "A" "B" (.int 5)]) x y)) :=
  c3_amended (runOps [.addCity "A", .addCity "B", .addRoad "A" "B" (.int 3),
    .addRoad "A" "B" (.int 5)]) "A" "B" (.int 5)
    (ginv_runOps [.addCity "A", .addCity "B", .addRoad "A" "B" (.int 3),
      .addRoad "A" "B" (.int 5)]) (by decide)

/-! ## The Command Set -/

/-- A command instance: its constructor arguments plus the captured state a
`RemoveCityCommand` accumulates in its mutable `roads` list. -/
inductive Cmd where
  | addCity (name : String)
  | removeCity (name : String) (roads : List (String × String × List JVal))
  | renameCity (old_name new_name : String)
  | addRoad (city1 city2 : String) (cost : JVal)
  | removeRoad (city1 city2 : String) (cost : JVal)
  | updateRoad (city1 city2 : String) (old_cost new_cost : JVal)
deriving DecidableEq

/-- The inner loop of `RemoveCityCommand.undo`: `for cost in costs:
add_road(city1, city2, cost)` — results are discarded, exceptions escape. -/
def addCosts (m : Cities) (c1 c2 : String) : List JVal → Option Unit × Cities
  | [] => (some (), m)
  | c :: rest =>
    match add_road m c1 c2 c with
    | (none, m') => (none, m')
    | (some _, m') => addCosts m' c1 c2 rest

/-- The outer loop of `RemoveCityCommand.undo`: `for city1, city2, costs in
self.roads`. -/
def addRoadsAll (m : Cities) :
    List (String × String × List JVal) → Option Unit × Cities
  | [] => (some (), m)
  | (c1, c2, costs) :: rest =>
    match addCosts m c1 c2 costs with
    | (none, m') => (none, m')
    | (some _, m') => addRoadsAll m' rest

/-- `execute()` of a command: returns the reported boolean (`none` when the
underlying operation raised), the mutated graph, and the command itself with
its captured state updated (`RemoveCityCommand.execute` appends the node's
incident roads to `self.roads` before removing it). -/
def cmdExecute (cmd : Cmd) (m : Cities) : Option Bool × Cities × Cmd :=
  match cmd with
  | .addCity n => (some (add_city m n).1, (add_city m n).2, .addCity n)
  | .removeCity n roads =>
    if dmem m n = false then (some false, m, .removeCity n roads)
    else
      (some (remove_city m n).1, (remove_city m n).2,
        .removeCity n (roads ++ (nbrsOf m n).map (fun e => (n, e.1, e.2))))
  | .renameCity o n =>
    (some (rename_city m o n).1, (rename_city m o n).2, .renameCity o n)
  | .addRoad a b c =>
    ((add_road m a b c).1, (add_road m a b c).2, .addRoad a b c)
  | .removeRoad a b c =>
    ((remove_road m a b (some c)).1, (remove_road m a b (some c)).2,
      .removeRoad a b c)
  | .updateRoad a b oc nc =>
    ((update_road_cost m a b oc nc).1, (update_road_cost m a b oc nc).2,
      .updateRoad a b oc nc)

/-- `undo()` of a command (no command mutates its fields during undo). -/
def cmdUndo (cmd : Cmd) (m : Cities) : Option Bool × Cities :=
  match cmd with
  | .addCity n => (some (remove_city m n).1, (remove_city m n).2)
  | .removeCity n roads =>
    match add_city m n with
    | (false, m1) => (some false, m1)
    | (true, m1) =>
      match addRoadsAll m1 roads with
      | (none, m2) => (none, m2)
      | (some _, m2) => (some true, m2)
  | .renameCity o n =>
    (some (rename_city m n o).1, (rename_city m n o).2)
  | .addRoad a b c => remove_road m a b (some c)
  | .removeRoad a b c =>
    ((add_road m a b c).1, (add_road m a b c).2)
  | .updateRoad a b oc nc => update_road_cost m a b nc oc

/-- The graph after `execute()`. -/
def execState (c : Cmd) (m : Cities) : Cities := (cmdExecute c m).2.1

/-- The command object after `execute()` (captured state updated). -/
def execCmd (c : Cmd) (m : Cities) : Cmd := (cmdExecute c m).2.2

/-- The graph after `undo()`. -/
def undoState (c : Cmd) (m : Cities) : Cities := (cmdUndo c m).2

/-- Two graphs with the same node set. -/
def SameNodes (g g' : Cities) : Prop := ∀ x, dmem g x = dmem g' x

/-- Two graphs whose per-direction cost multisets agree everywhere. -/
def SameCostMultisets (g g' : Cities) : Prop :=
  ∀ x y, ((lookNbr g x y).getD []).Perm ((lookNbr g' x y).getD [])

example :
    (cmdUndo
      (execCmd (.removeCity "X" [])
        (runOps [.addCity "X", .addCity "Y", .addCity "Z",
                 .addRoad "X" "Y" (.int 5), .addRoad "X" "Z" (.int 3)]))
      (execState (.removeCity "X" [])
        (runOps [.addCity "X", .addCity "Y", .addCity "Z",
                 .addRoad "X" "Y" (.int 5), .addRoad "X" "Z" (.int 3)]))).1 =
      some true := by decide

/-! ## Multiset facts about `pyRemove` and positional `List.set` updates -/

theorem perm_cons_pyRemove {l : List JVal} {c : JVal} (h : c ∈ l) :
    l.Perm (c :: pyRemove l c) := by
  induction l with
  | nil => cases h
  | cons x rest ih =>
    by_cases hx : x = c
    · subst hx
      simp [pyRemove]
    · have hc : c ∈ rest := by
        rcases List.mem_cons.mp h with h1 | h2
        · exact absurd h1.symm hx
        · exact h2
      simp only [pyRemove, hx, if_false]
      exact ((ih hc).cons x).trans (List.Perm.swap c x _)

theorem pyRemove_append_self_perm (L : List JVal) (c : JVal) :
    (pyRemove (L ++ [c]) c).Perm L := by
  have h1 : (L ++ [c]).Perm (c :: pyRemove (L ++ [c]) c) :=
    perm_cons_pyRemove (by simp)
  have h2 : (L ++ [c]).Perm (c :: L) := List.perm_append_singleton c L
  exact (h1.symm.trans h2).cons_inv

theorem perm_set_pyIndexOf {l : List JVal} {c : JVal} (h : c ∈ l) (y : JVal) :
    (c :: l.set (pyIndexOf l c) y).Perm (y :: l) := by
  induction l with
  | nil => cases h
  | cons x rest ih =>
    by_cases hx : x = c
    · subst hx
      simp only [pyIndexOf, if_pos rfl, List.set]
      exact List.Perm.swap y x rest
    · have hc : c ∈ rest := by
        rcases List.mem_cons.mp h with h1 | h2
        · exact absurd h1.symm hx
        · exact h2
      simp only [pyIndexOf, if_neg hx, List.set]
      exact (List.Perm.swap x c _).trans
        (((ih hc).cons x).trans (List.Perm.swap y x rest))

theorem mem_set_pyIndexOf {l : List JVal} {c : JVal} (h : c ∈ l) (y : JVal) :
    y ∈ l.set (pyIndexOf l c) y := by
  induction l with
  | nil => cases h
  | cons x rest ih =>
    by_cases hx : x = c
    · simp [pyIndexOf, hx, List.set]
    · have hc : c ∈ rest := by
        rcases List.mem_cons.mp h with h1 | h2
        · exact absurd h1.symm hx
        · exact h2
      simp only [pyIndexOf, if_neg hx, List.set]
      exact List.mem_cons_of_mem x (ih hc)

theorem addCosts_spec {a b : String} (hab : a ≠ b) :
    ∀ (cs : List JVal) (g : Cities), GInv g → dmem g a = true →
    dmem g b = true →
    (addCosts g a b cs).1 = some () ∧
    GInv (addCosts g a b cs).2 ∧
    (∀ x, dmem (addCosts g a b cs).2 x = dmem g x) ∧
    (∀ x y, lookNbr (addCosts g a b cs).2 x y =
      if (x = a ∧ y = b) ∨ (x = b ∧ y = a)
      then (if cs = [] then lookNbr g a b
            else some ((lookNbr g a b).getD [] ++ cs))
      else lookNbr g x y) := by
  intro cs
  induction cs with
  | nil =>
    intro g hg ha hb
    refine ⟨rfl, hg, fun x => rfl, ?_⟩
    intro x y
    by_cases hguard : (x = a ∧ y = b) ∨ (x = b ∧ y = a)
    · rw [if_pos hguard, if_pos rfl]
      rcases hguard with ⟨hx, hy⟩ | ⟨hx, hy⟩
      · rw [hx, hy]
        rfl
      · rw [hx, hy]
        exact (hg.sym b a).symm.symm
    · rw [if_neg hguard]
      rfl
  | cons c rest ih =>
    intro g hg ha hb
    obtain ⟨h1, h2, h4, h3⟩ := add_road_spec c hg hab ha hb
    cases hsp : add_road g a b c with
    | mk r s =>
      rw [hsp] at h1 h2 h3 h4
      have hr : r = some true := h1
      subst hr
      have hred : addCosts g a b (c :: rest) = addCosts s a b rest := by
        simp only [addCosts, hsp]
      obtain ⟨ih1, ih2, ih3, ih4⟩ :=
        ih s h2 ((h3 a).trans ha) ((h3 b).trans hb)
      rw [hred]
      refine ⟨ih1, ih2, fun x => (ih3 x).trans (h3 x), ?_⟩
      intro x y
      rw [ih4 x y]
      by_cases hguard : (x = a ∧ y = b) ∨ (x = b ∧ y = a)
      · rw [if_pos hguard, if_pos hguard,
            if_neg (show ¬(c :: rest = []) from List.cons_ne_nil c rest)]
        have hsab : lookNbr s a b = some ((lookNbr g a b).getD [] ++ [c]) :=
          (h4 a b).trans (if_pos (Or.inl ⟨rfl, rfl⟩))
        by_cases hrest : rest = []
        · rw [if_pos hrest, hsab, hrest]
        · rw [if_neg hrest, hsab]
          show some ((((lookNbr g a b).getD []) ++ [c]) ++ rest) = _
          rw [List.append_assoc, List.singleton_append]
      · rw [if_neg hguard, if_neg hguard]
        exact (h4 x y).trans (if_neg hguard)

theorem addRoadsAll_restore {n : String} :
    ∀ (rs : List (String × List JVal)) (g : Cities), GInv g →
    dmem g n = true → NodupKeys rs → (∀ p ∈ rs, p.1 ≠ n) →
    (∀ p ∈ rs, dmem g p.1 = true) →
    ∀ res, addRoadsAll g (rs.map (fun e => (n, e.1, e.2))) = res →
    res.1 = some () ∧ GInv res.2 ∧ (∀ x, dmem res.2 x = dmem g x) ∧
    (∀ y cs, dlook rs y = some cs →
      (lookNbr res.2 n y).getD [] = (lookNbr g n y).getD [] ++ cs ∧
      (lookNbr res.2 y n).getD [] = (lookNbr g n y).getD [] ++ cs) ∧
    (∀ x y, x ≠ n → y ≠ n → lookNbr res.2 x y = lookNbr g x y) ∧
    (∀ y, dlook rs y = none →
      lookNbr res.2 n y = lookNbr g n y ∧
      lookNbr res.2 y n = lookNbr g y n) := by
  intro rs
  induction rs with
  | nil =>
    intro g hg hn _ _ _ res hres
    cases hres
    refine ⟨rfl, hg, fun x => rfl, ?_, fun x y _ _ => rfl,
      fun y _ => ⟨rfl, rfl⟩⟩
    intro y cs hy
    exact Option.noConfusion hy
  | cons hd rest ih =>
    obtain ⟨nbr, cs⟩ := hd
    intro g hg hn hnd hdist hcity res hres
    have hd_ne : nbr ≠ n := hdist (nbr, cs) (List.mem_cons_self _ _)
    have hnbr_n : n ≠ nbr := fun hh => hd_ne hh.symm
    have hd_city : dmem g nbr = true := hcity (nbr, cs) (List.mem_cons_self _ _)
    obtain ⟨h1, h2, h3, h4⟩ := addCosts_spec hnbr_n cs g hg hn hd_city
    cases hsp : addCosts g n nbr cs with
    | mk r s =>
      rw [hsp] at h1 h2 h3 h4
      have hr : r = some () := h1
      subst hr
      have hred : addRoadsAll g (((nbr, cs) :: rest).map
          (fun e => (n, e.1, e.2))) = addRoadsAll s (rest.map
          (fun e => (n, e.1, e.2))) := by
        simp only [List.map_cons, addRoadsAll, hsp]
      have hnd' : NodupKeys rest := by
        simp only [NodupKeys, dkeys, List.map_cons, List.nodup_cons] at hnd
        exact hnd.2
      have hnbr_rest : dlook rest nbr = none := by
        apply dlook_eq_none_of_not_mem_keys
        simp only [NodupKeys, dkeys, List.map_cons, List.nodup_cons] at hnd
        exact hnd.1
      obtain ⟨ih1, ih2, ih3, ih4, ih5, ih6⟩ := ih s h2 ((h3 n).trans hn) hnd'
        (fun p hp => hdist p (List.mem_cons_of_mem _ hp))
        (fun p hp => (h3 p.1).trans (hcity p (List.mem_cons_of_mem _ hp)))
        res (hred.symm.trans hres)
      have hs_n_nbr : (lookNbr s n nbr).getD [] =
          (lookNbr g n nbr).getD [] ++ cs := by
        rw [(h4 n nbr).trans (if_pos (Or.inl ⟨rfl, rfl⟩))]
        by_cases hcs : cs = []
        · rw [if_pos hcs, hcs, List.append_nil]
        · rw [if_neg hcs]
          rfl
      have hs_nbr_n : (lookNbr s nbr n).getD [] =
          (lookNbr g n nbr).getD [] ++ cs := by
        rw [(h4 nbr n).trans (if_pos (Or.inr ⟨rfl, rfl⟩))]
        by_cases hcs : cs = []
        · rw [if_pos hcs, hcs, List.append_nil]
        · rw [if_neg hcs]
          rfl
      have hs_other : ∀ x y, ¬((x = n ∧ y = nbr) ∨ (x = nbr ∧ y = n)) →
          lookNbr s x y = lookNbr g x y := by
        intro x y hng
        exact (h4 x y).trans (if_neg hng)
      refine ⟨ih1, ih2, fun x => (ih3 x).trans (h3 x), ?_, ?_, ?_⟩
      · intro y cs' hy
        by_cases hynbr : y = nbr
        · subst hynbr
          have hcs' : cs' = cs := by
            simp only [dlook, if_pos rfl] at hy
            exact (Option.some.injEq _ _ ▸ hy).symm
          subst hcs'
          obtain ⟨w1, w2⟩ := ih6 y hnbr_rest
          exact ⟨by rw [w1]; exact hs_n_nbr, by rw [w2]; exact hs_nbr_n⟩
        · have hy' : dlook rest y = some cs' := by
            simp only [dlook, if_neg (show ¬ nbr = y from
              fun hh => hynbr hh.symm)] at hy
            exact hy
          obtain ⟨w1, w2⟩ := ih4 y cs' hy'
          have hng : ¬((n = n ∧ y = nbr) ∨ (n = nbr ∧ y = n)) := by
            intro hh
            rcases hh with ⟨_, p2⟩ | ⟨p1, _⟩
            · exact hynbr p2
            · exact hnbr_n p1
          have hng2 : ¬((y = n ∧ n = nbr) ∨ (y = nbr ∧ n = n)) := by
            intro hh
            rcases hh with ⟨_, p2⟩ | ⟨p1, _⟩
            · exact hnbr_n p2
            · exact hynbr p1
          constructor
          · rw [w1, hs_other n y hng]
          · rw [w2, hs_other n y hng]
      · intro x y hx hy
        rw [ih5 x y hx hy]
        apply hs_other
        intro hh
        rcases hh with ⟨p1, _⟩ | ⟨_, p2⟩
        · exact hx p1
        · exact hy p2
      · intro y hy
        have hynbr : ¬ y = nbr := by
          intro hh
          rw [dlook, if_pos hh.symm] at hy
          exact Option.noConfusion hy
        have hy' : dlook rest y = none := by
          rw [dlook, if_neg (show ¬ nbr = y from
            fun hh => hynbr hh.symm)] at hy
          exact hy
        obtain ⟨w1, w2⟩ := ih6 y hy'
        have hng : ¬((n = n ∧ y = nbr) ∨ (n = nbr ∧ y = n)) := by
          intro hh
          rcases hh with ⟨_, p2⟩ | ⟨p1, _⟩
          · exact hynbr p2
          · exact hnbr_n p1
        have hng2 : ¬((y = n ∧ n = nbr) ∨ (y = nbr ∧ n = n)) := by
          intro hh
          rcases hh with ⟨_, p2⟩ | ⟨p1, _⟩
          · exact hnbr_n p2
          · exact hynbr p1
        exact ⟨w1.trans (hs_other n y hng), w2.trans (hs_other y n hng2)⟩

/-! ## C2: per-command undo/redo restoration (multiset level) -/

theorem c2_addCity {m : Cities} {n : String} (h : GInv m)
    (hn : dmem m n = false) :
    (cmdUndo (.addCity n) (add_city m n).2).1 = some true ∧
    SameNodes (cmdUndo (.addCity n) (add_city m n).2).2 m ∧
    SameCostMultisets (cmdUndo (.addCity n) (add_city m n).2).2 m ∧
    (cmdExecute (.addCity n)
      (cmdUndo (.addCity n) (add_city m n).2).2).1 = some true ∧
    SameNodes (cmdExecute (.addCity n)
      (cmdUndo (.addCity n) (add_city m n).2).2).2.1 (add_city m n).2 ∧
    SameCostMultisets (cmdExecute (.addCity n)
      (cmdUndo (.addCity n) (add_city m n).2).2).2.1 (add_city m n).2 := by
  have hInv1 : GInv (add_city m n).2 := ginv_add_city m n h
  have hm1n : dmem (add_city m n).2 n = true := by
    rw [dmem_add_city hn n, if_pos rfl]
  have hu1 : (cmdUndo (.addCity n) (add_city m n).2).1 = some true := by
    show some (remove_city (add_city m n).2 n).1 = some true
    rw [remove_city_mem hm1n]
  have hu_dmem : ∀ x, dmem (cmdUndo (.addCity n) (add_city m n).2).2 x =
      dmem m x := by
    intro x
    show dmem (remove_city (add_city m n).2 n).2 x = dmem m x
    rw [dmem_remove_city hInv1 hm1n x]
    by_cases hx : x = n
    · rw [if_pos hx, hx, hn]
    · rw [if_neg hx, dmem_add_city hn x, if_neg hx]
  have hmn_none : ∀ x y, (x = n ∨ y = n) → lookNbr m x y = none := by
    intro x y hxy
    rcases hxy with hx | hy
    · rw [lookNbr_bind, hx]
      have : dlook m n = none := by
        cases hd : dlook m n with
        | none => rfl
        | some rm => rw [dmem, hd] at hn; exact Bool.noConfusion hn
      rw [this]
      rfl
    · cases hd : dlook m x with
      | none => rw [lookNbr_bind, hd]; rfl
      | some rm =>
        rw [lookNbr_bind, hd]
        show dlook rm y = none
        rw [hy]
        exact no_dangling h hd hn
  have hu_look : ∀ x y, lookNbr (cmdUndo (.addCity n) (add_city m n).2).2 x y =
      lookNbr m x y := by
    intro x y
    show lookNbr (remove_city (add_city m n).2 n).2 x y = lookNbr m x y
    rw [lookNbr_remove_city hInv1 hm1n x y]
    by_cases hg : x = n ∨ y = n
    · rw [if_pos hg, hmn_none x y hg]
    · rw [if_neg hg, lookNbr_add_city h hn x y, if_neg hg]
  have hInvU : GInv (cmdUndo (.addCity n) (add_city m n).2).2 :=
    ginv_remove_city _ n hInv1
  have hun : dmem (cmdUndo (.addCity n) (add_city m n).2).2 n = false := by
    rw [hu_dmem n]
    exact hn
  refine ⟨hu1, hu_dmem, fun x y => by rw [hu_look x y], ?_, ?_, ?_⟩
  · show some (add_city (cmdUndo (.addCity n) (add_city m n).2).2 n).1 =
      some true
    rw [add_city_not_mem hun]
  · intro x
    show dmem (add_city (cmdUndo (.addCity n) (add_city m n).2).2 n).2 x = _
    rw [dmem_add_city hun x, dmem_add_city hn x]
    by_cases hx : x = n
    · rw [if_pos hx, if_pos hx]
    · rw [if_neg hx, if_neg hx, hu_dmem x]
  · intro x y
    show ((lookNbr (add_city (cmdUndo (.addCity n)
      (add_city m n).2).2 n).2 x y).getD []).Perm _
    rw [lookNbr_add_city hInvU hun x y, lookNbr_add_city h hn x y]
    by_cases hg : x = n ∨ y = n
    · rw [if_pos hg, if_pos hg]
    · rw [if_neg hg, if_neg hg, hu_look x y]

theorem c2_renameCity {m : Cities} {o n : String} (h : GInv m)
    (ho : dmem m o = true) (hn : dmem m n = false) :
    (cmdUndo (.renameCity o n) (rename_city m o n).2).1 = some true ∧
    SameNodes (cmdUndo (.renameCity o n) (rename_city m o n).2).2 m ∧
    SameCostMultisets (cmdUndo (.renameCity o n) (rename_city m o n).2).2 m ∧
    (cmdExecute (.renameCity o n)
      (cmdUndo (.renameCity o n) (rename_city m o n).2).2).1 = some true ∧
    SameNodes (cmdExecute (.renameCity o n)
      (cmdUndo (.renameCity o n) (rename_city m o n).2).2).2.1
      (rename_city m o n).2 ∧
    SameCostMultisets (cmdExecute (.renameCity o n)
      (cmdUndo (.renameCity o n) (rename_city m o n).2).2).2.1
      (rename_city m o n).2 := by
  have hon : o ≠ n := ne_of_dmem_true_false ho hn
  have hInv1 : GInv (rename_city m o n).2 := ginv_rename_city m o n h
  have hm1n : dmem (rename_city m o n).2 n = true := by
    rw [dmem_rename_city h ho hn n, if_neg (fun hh : n = o => hon hh.symm),
        if_pos rfl]
  have hm1o : dmem (rename_city m o n).2 o = false := by
    rw [dmem_rename_city h ho hn o, if_pos rfl]
  have hu1 : (cmdUndo (.renameCity o n) (rename_city m o n).2).1 =
      some true := by
    show some (rename_city (rename_city m o n).2 n o).1 = some true
    rw [rename_city_ok hm1n hm1o]
  have hmn_none : ∀ x y, (x = n ∨ y = n) → lookNbr m x y = none := by
    intro x y hxy
    rcases hxy with hx | hy
    · rw [lookNbr_bind, hx]
      have : dlook m n = none := by
        cases hd : dlook m n with
        | none => rfl
        | some rm => rw [dmem, hd] at hn; exact Bool.noConfusion hn
      rw [this]
      rfl
    · cases hd : dlook m x with
      | none => rw [lookNbr_bind, hd]; rfl
      | some rm =>
        rw [lookNbr_bind, hd]
        show dlook rm y = none
        rw [hy]
        exact no_dangling h hd hn
  have hto : ∀ z, ¬ (if z = o then n else z) = o := by
    intro z hc
    by_cases hzo : z = o
    · rw [if_pos hzo] at hc
      exact hon hc.symm
    · rw [if_neg hzo] at hc
      exact hzo hc
  have hcomp : ∀ z, z ≠ n →
      (if (if z = o then n else z) = n then o else (if z = o then n else z))
        = z := by
    intro z hz
    by_cases hzo : z = o
    · rw [if_pos hzo, if_pos rfl, hzo]
    · rw [if_neg hzo, if_neg hz]
  have hu_look : ∀ x y,
      lookNbr (cmdUndo (.renameCity o n) (rename_city m o n).2).2 x y =
        lookNbr m x y := by
    intro x y
    show lookNbr (rename_city (rename_city m o n).2 n o).2 x y = lookNbr m x y
    rw [lookNbr_rename_city hInv1 hm1n hm1o x y]
    by_cases hg : x = n ∨ y = n
    · rw [if_pos hg, hmn_none x y hg]
    · push_neg at hg
      rw [if_neg (show ¬(x = n ∨ y = n) from fun hh => hh.elim hg.1 hg.2)]
      rw [lookNbr_rename_city h ho hn]
      rw [if_neg (show ¬((if x = o then n else x) = o ∨
            (if y = o then n else y) = o) from
          fun hh => hh.elim (hto x) (hto y))]
      rw [hcomp x hg.1, hcomp y hg.2]
  have hu_dmem : ∀ x,
      dmem (cmdUndo (.renameCity o n) (rename_city m o n).2).2 x =
        dmem m x := by
    intro x
    show dmem (rename_city (rename_city m o n).2 n o).2 x = dmem m x
    rw [dmem_rename_city hInv1 hm1n hm1o x]
    by_cases hxn : x = n
    · rw [if_pos hxn, hxn, hn]
    · rw [if_neg hxn]
      by_cases hxo : x = o
      · rw [if_pos hxo, hxo, ho]
      · rw [if_neg hxo, dmem_rename_city h ho hn x, if_neg hxo, if_neg hxn]
  have hInvU : GInv (cmdUndo (.renameCity o n) (rename_city m o n).2).2 :=
    ginv_rename_city _ n o hInv1
  have huo : dmem (cmdUndo (.renameCity o n) (rename_city m o n).2).2 o =
      true := by rw [hu_dmem o]; exact ho
  have hun : dmem (cmdUndo (.renameCity o n) (rename_city m o n).2).2 n =
      false := by rw [hu_dmem n]; exact hn
  refine ⟨hu1, hu_dmem, fun x y => by rw [hu_look x y], ?_, ?_, ?_⟩
  · show some (rename_city (cmdUndo (.renameCity o n)
      (rename_city m o n).2).2 o n).1 = some true
    rw [rename_city_ok huo hun]
  · intro x
    show dmem (rename_city (cmdUndo (.renameCity o n)
      (rename_city m o n).2).2 o n).2 x = _
    rw [dmem_rename_city hInvU huo hun x, dmem_rename_city h ho hn x]
    by_cases hxo : x = o
    · rw [if_pos hxo, if_pos hxo]
    · rw [if_neg hxo, if_neg hxo]
      by_cases hxn : x = n
      · rw [if_pos hxn, if_pos hxn]
      · rw [if_neg hxn, if_neg hxn, hu_dmem x]
  · intro x y
    show ((lookNbr (rename_city (cmdUndo (.renameCity o n)
      (rename_city m o n).2).2 o n).2 x y).getD []).Perm _
    rw [lookNbr_rename_city hInvU huo hun x y,
        lookNbr_rename_city h ho hn x y]
    by_cases hg : x = o ∨ y = o
    · rw [if_pos hg, if_pos hg]
    · rw [if_neg hg, if_neg hg, hu_look]

theorem c2_addRoad {m : Cities} {a b : String} {c : JVal} (h : GInv m)
    (hab : a ≠ b) (ha : dmem m a = true) (hb : dmem m b = true) :
    (cmdUndo (.addRoad a b c) (add_road m a b c).2).1 = some true ∧
    SameNodes (cmdUndo (.addRoad a b c) (add_road m a b c).2).2 m ∧
    SameCostMultisets (cmdUndo (.addRoad a b c) (add_road m a b c).2).2 m ∧
    (cmdExecute (.addRoad a b c)
      (cmdUndo (.addRoad a b c) (add_road m a b c).2).2).1 = some true ∧
    SameNodes (cmdExecute (.addRoad a b c)
      (cmdUndo (.addRoad a b c) (add_road m a b c).2).2).2.1
      (add_road m a b c).2 ∧
    SameCostMultisets (cmdExecute (.addRoad a b c)
      (cmdUndo (.addRoad a b c) (add_road m a b c).2).2).2.1
      (add_road m a b c).2 := by
  obtain ⟨e1, eInv, echar, edmem⟩ := add_road_spec c h hab ha hb
  have hm1pair : lookNbr (add_road m a b c).2 a b =
      some ((lookNbr m a b).getD [] ++ [c]) :=
    (echar a b).trans (if_pos (Or.inl ⟨rfl, rfl⟩))
  have hm1pair' : lookNbr (add_road m a b c).2 b a =
      some ((lookNbr m a b).getD [] ++ [c]) :=
    (echar b a).trans (if_pos (Or.inr ⟨rfl, rfl⟩))
  have hm1a : dmem (add_road m a b c).2 a = true := (edmem a).trans ha
  have hm1b : dmem (add_road m a b c).2 b = true := (edmem b).trans hb
  have hcmem : c ∈ (lookNbr m a b).getD [] ++ [c] := by simp
  obtain ⟨u1, uInv, uchar, udmem⟩ :=
    remove_road_spec eInv hab hm1a hm1b hm1pair hcmem
  have hR : (pyRemove ((lookNbr m a b).getD [] ++ [c]) c).Perm
      ((lookNbr m a b).getD []) :=
    pyRemove_append_self_perm _ c
  have hgetD : ((if pyRemove ((lookNbr m a b).getD [] ++ [c]) c = []
      then none
      else some (pyRemove ((lookNbr m a b).getD [] ++ [c]) c)).getD []) =
      pyRemove ((lookNbr m a b).getD [] ++ [c]) c := by
    by_cases hh : pyRemove ((lookNbr m a b).getD [] ++ [c]) c = []
    · rw [if_pos hh, hh]
      rfl
    · rw [if_neg hh]
      rfl
  have huab : (lookNbr (remove_road (add_road m a b c).2 a b (some c)).2
      a b).getD [] = pyRemove ((lookNbr m a b).getD [] ++ [c]) c := by
    rw [uchar a b, if_pos (Or.inl ⟨rfl, rfl⟩)]
    exact hgetD
  have hu_dmem : ∀ x,
      dmem (remove_road (add_road m a b c).2 a b (some c)).2 x =
        dmem m x := fun x => (udmem x).trans (edmem x)
  refine ⟨u1, hu_dmem, ?_, ?_, ?_, ?_⟩
  · intro x y
    show ((lookNbr (remove_road (add_road m a b c).2 a b (some c)).2
      x y).getD []).Perm ((lookNbr m x y).getD [])
    rw [uchar x y]
    by_cases hg : (x = a ∧ y = b) ∨ (x = b ∧ y = a)
    · rw [if_pos hg, hgetD]
      rcases hg with ⟨hx, hy⟩ | ⟨hx, hy⟩
      · rw [hx, hy]
        exact hR
      · rw [hx, hy, h.sym b a]
        exact hR
    · rw [if_neg hg, echar x y, if_neg hg]
  · show (add_road (remove_road (add_road m a b c).2 a b (some c)).2
      a b c).1 = some true
    exact (add_road_spec c uInv hab ((hu_dmem a).trans ha)
      ((hu_dmem b).trans hb)).1
  · intro x
    obtain ⟨_, _, _, rdmem⟩ := add_road_spec c uInv hab
      ((hu_dmem a).trans ha) ((hu_dmem b).trans hb)
    show dmem (add_road (remove_road (add_road m a b c).2 a b
      (some c)).2 a b c).2 x = _
    rw [rdmem x, hu_dmem x, edmem x]
  · intro x y
    obtain ⟨_, _, rchar, _⟩ := add_road_spec c uInv hab
      ((hu_dmem a).trans ha) ((hu_dmem b).trans hb)
    show ((lookNbr (add_road (remove_road (add_road m a b c).2 a b
      (some c)).2 a b c).2 x y).getD []).Perm _
    rw [rchar x y]
    by_cases hg : (x = a ∧ y = b) ∨ (x = b ∧ y = a)
    · rw [if_pos hg, huab]
      rcases hg with ⟨hx, hy⟩ | ⟨hx, hy⟩
      · rw [hx, hy, hm1pair]
        exact (hR.append_right [c]).trans (List.Perm.refl _)
      · rw [hx, hy, hm1pair']
        exact (hR.append_right [c]).trans (List.Perm.refl _)
    · rw [if_neg hg, uchar x y, if_neg hg, echar x y, if_neg hg]

theorem c2_removeRoad {m : Cities} {a b : String} {c : JVal}
    {L : List JVal} (h : GInv m) (hab : a ≠ b)
    (ha : dmem m a = true) (hb : dmem m b = true)
    (hpair : lookNbr m a b = some L) (hcst : c ∈ L) :
    (cmdUndo (.removeRoad a b c) (remove_road m a b (some c)).2).1 =
      some true ∧
    SameNodes (cmdUndo (.removeRoad a b c)
      (remove_road m a b (some c)).2).2 m ∧
    SameCostMultisets (cmdUndo (.removeRoad a b c)
      (remove_road m a b (some c)).2).2 m ∧
    (cmdExecute (.removeRoad a b c)
      (cmdUndo (.removeRoad a b c) (remove_road m a b (some c)).2).2).1 =
      some true ∧
    SameNodes (cmdExecute (.removeRoad a b c)
      (cmdUndo (.removeRoad a b c) (remove_road m a b (some c)).2).2).2.1
      (remove_road m a b (some c)).2 ∧
    SameCostMultisets (cmdExecute (.removeRoad a b c)
      (cmdUndo (.removeRoad a b c) (remove_road m a b (some c)).2).2).2.1
      (remove_road m a b (some c)).2 := by
  obtain ⟨e1, eInv, echar, edmem⟩ := remove_road_spec h hab ha hb hpair hcst
  obtain ⟨u1, uInv, uchar, udmem⟩ := add_road_spec c eInv hab
    ((edmem a).trans ha) ((edmem b).trans hb)
  have hm1ab : (lookNbr (remove_road m a b (some c)).2 a b).getD [] =
      pyRemove L c := by
    rw [echar a b, if_pos (Or.inl ⟨rfl, rfl⟩)]
    by_cases hh : pyRemove L c = []
    · rw [if_pos hh, hh]
      rfl
    · rw [if_neg hh]
      rfl
  have hm1ba : (lookNbr (remove_road m a b (some c)).2 b a).getD [] =
      pyRemove L c := by
    rw [echar b a, if_pos (Or.inr ⟨rfl, rfl⟩)]
    by_cases hh : pyRemove L c = []
    · rw [if_pos hh, hh]
      rfl
    · rw [if_neg hh]
      rfl
  have hLperm : (pyRemove L c ++ [c]).Perm L :=
    (List.perm_append_singleton c _).trans (perm_cons_pyRemove hcst).symm
  have hupair : lookNbr (add_road (remove_road m a b (some c)).2 a b c).2
      a b = some (pyRemove L c ++ [c]) := by
    rw [uchar a b, if_pos (Or.inl ⟨rfl, rfl⟩), hm1ab]
  have hu_dmem : ∀ x,
      dmem (add_road (remove_road m a b (some c)).2 a b c).2 x =
        dmem m x := fun x => (udmem x).trans (edmem x)
  have hcmem : c ∈ pyRemove L c ++ [c] := by simp
  obtain ⟨r1, rInv, rchar, rdmem⟩ := remove_road_spec uInv hab
    ((hu_dmem a).trans ha) ((hu_dmem b).trans hb) hupair hcmem
  refine ⟨u1, hu_dmem, ?_, r1, ?_, ?_⟩
  · intro x y
    show ((lookNbr (add_road (remove_road m a b (some c)).2 a b c).2
      x y).getD []).Perm ((lookNbr m x y).getD [])
    rw [uchar x y]
    by_cases hg : (x = a ∧ y = b) ∨ (x = b ∧ y = a)
    · rw [if_pos hg, Option.getD_some, hm1ab]
      rcases hg with ⟨hx, hy⟩ | ⟨hx, hy⟩
      · rw [hx, hy, hpair]
        exact hLperm
      · rw [hx, hy, h.sym b a, hpair]
        exact hLperm
    · rw [if_neg hg, echar x y, if_neg hg]
  · intro x
    show dmem (remove_road (add_road (remove_road m a b (some c)).2
      a b c).2 a b (some c)).2 x = _
    rw [rdmem x, hu_dmem x, ← edmem x]
  · intro x y
    show ((lookNbr (remove_road (add_road (remove_road m a b (some c)).2
      a b c).2 a b (some c)).2 x y).getD []).Perm _
    rw [rchar x y]
    by_cases hg : (x = a ∧ y = b) ∨ (x = b ∧ y = a)
    · rw [if_pos hg]
      have hgd : ((if pyRemove (pyRemove L c ++ [c]) c = [] then none
          else some (pyRemove (pyRemove L c ++ [c]) c)).getD []) =
          pyRemove (pyRemove L c ++ [c]) c := by
        by_cases hh : pyRemove (pyRemove L c ++ [c]) c = []
        · rw [if_pos hh, hh]
          rfl
        · rw [if_neg hh]
          rfl
      rw [hgd]
      rcases hg with ⟨hx, hy⟩ | ⟨hx, hy⟩
      · rw [hx, hy, hm1ab]
        exact pyRemove_append_self_perm _ c
      · rw [hx, hy, hm1ba]
        exact pyRemove_append_self_perm _ c
    · rw [if_neg hg, uchar x y, if_neg hg]

theorem c2_updateRoad {m : Cities} {a b : String} {oc nc : JVal}
    {L : List JVal} (h : GInv m) (hab : a ≠ b)
    (ha : dmem m a = true) (hb : dmem m b = true)
    (hpair : lookNbr m a b = some L) (hoc : oc ∈ L) :
    (cmdUndo (.updateRoad a b oc nc) (update_road_cost m a b oc nc).2).1 =
      some true ∧
    SameNodes (cmdUndo (.updateRoad a b oc nc)
      (update_road_cost m a b oc nc).2).2 m ∧
    SameCostMultisets (cmdUndo (.updateRoad a b oc nc)
      (update_road_cost m a b oc nc).2).2 m ∧
    (cmdExecute (.updateRoad a b oc nc)
      (cmdUndo (.updateRoad a b oc nc)
        (update_road_cost m a b oc nc).2).2).1 = some true ∧
    SameNodes (cmdExecute (.updateRoad a b oc nc)
      (cmdUndo (.updateRoad a b oc nc)
        (update_road_cost m a b oc nc).2).2).2.1
      (update_road_cost m a b oc nc).2 ∧
    SameCostMultisets (cmdExecute (.updateRoad a b oc nc)
      (cmdUndo (.updateRoad a b oc nc)
        (update_road_cost m a b oc nc).2).2).2.1
      (update_road_cost m a b oc nc).2 := by
  obtain ⟨e1, eInv, echar, edmem⟩ :=
    update_road_cost_spec nc h hab ha hb hpair hoc
  have hm1pair : lookNbr (update_road_cost m a b oc nc).2 a b =
      some (L.set (pyIndexOf L oc) nc) :=
    (echar a b).trans (if_pos (Or.inl ⟨rfl, rfl⟩))
  have hm1pair' : lookNbr (update_road_cost m a b oc nc).2 b a =
      some (L.set (pyIndexOf L oc) nc) :=
    (echar b a).trans (if_pos (Or.inr ⟨rfl, rfl⟩))
  have hncM : nc ∈ L.set (pyIndexOf L oc) nc := mem_set_pyIndexOf hoc nc
  obtain ⟨u1, uInv, uchar, udmem⟩ := update_road_cost_spec oc eInv hab
    ((edmem a).trans ha) ((edmem b).trans hb) hm1pair hncM
  have hundo_perm : ((L.set (pyIndexOf L oc) nc).set
      (pyIndexOf (L.set (pyIndexOf L oc) nc) nc) oc).Perm L := by
    have p1 := perm_set_pyIndexOf hncM oc
    have p2 := perm_set_pyIndexOf hoc nc
    exact (p1.trans p2).cons_inv
  have hu_dmem : ∀ x,
      dmem (update_road_cost (update_road_cost m a b oc nc).2 a b
        nc oc).2 x = dmem m x := fun x => (udmem x).trans (edmem x)
  have hupair : lookNbr (update_road_cost (update_road_cost m a b oc nc).2
      a b nc oc).2 a b = some ((L.set (pyIndexOf L oc) nc).set
      (pyIndexOf (L.set (pyIndexOf L oc) nc) nc) oc) :=
    (uchar a b).trans (if_pos (Or.inl ⟨rfl, rfl⟩))
  have hocu : oc ∈ (L.set (pyIndexOf L oc) nc).set
      (pyIndexOf (L.set (pyIndexOf L oc) nc) nc) oc :=
    mem_set_pyIndexOf hncM oc
  obtain ⟨r1, rInv, rchar, rdmem⟩ := update_road_cost_spec nc uInv hab
    ((hu_dmem a).trans ha) ((hu_dmem b).trans hb) hupair hocu
  have hredo_perm : (((L.set (pyIndexOf L oc) nc).set
      (pyIndexOf (L.set (pyIndexOf L oc) nc) nc) oc).set
      (pyIndexOf ((L.set (pyIndexOf L oc) nc).set
        (pyIndexOf (L.set (pyIndexOf L oc) nc) nc) oc) oc) nc).Perm
      (L.set (pyIndexOf L oc) nc) := by
    have p1 := perm_set_pyIndexOf hocu nc
    have p2 := perm_set_pyIndexOf hncM oc
    exact (p1.trans p2).cons_inv
  refine ⟨u1, hu_dmem, ?_, r1, ?_, ?_⟩
  · intro x y
    show ((lookNbr (update_road_cost (update_road_cost m a b oc nc).2 a b
      nc oc).2 x y).getD []).Perm ((lookNbr m x y).getD [])
    rw [uchar x y]
    by_cases hg : (x = a ∧ y = b) ∨ (x = b ∧ y = a)
    · rw [if_pos hg, Option.getD_some]
      rcases hg with ⟨hx, hy⟩ | ⟨hx, hy⟩
      · rw [hx, hy, hpair]
        exact hundo_perm
      · rw [hx, hy, h.sym b a, hpair]
        exact hundo_perm
    · rw [if_neg hg, echar x y, if_neg hg]
  · intro x
    show dmem (update_road_cost (update_road_cost
      (update_road_cost m a b oc nc).2 a b nc oc).2 a b oc nc).2 x = _
    rw [rdmem x, hu_dmem x, ← edmem x]
  · intro x y
    show ((lookNbr (update_road_cost (update_road_cost
      (update_road_cost m a b oc nc).2 a b nc oc).2 a b oc nc).2
      x y).getD []).Perm _
    rw [rchar x y]
    by_cases hg : (x = a ∧ y = b) ∨ (x = b ∧ y = a)
    · rw [if_pos hg, Option.getD_some]
      rcases hg with ⟨hx, hy⟩ | ⟨hx, hy⟩
      · rw [hx, hy, hm1pair]
        exact hredo_perm
      · rw [hx, hy, hm1pair']
        exact hredo_perm
    · rw [if_neg hg, uchar x y, if_neg hg]

theorem cmdExecute_removeCity_red {m : Cities} {n : String}
    (roads : List (String × String × List JVal)) (hn : dmem m n = true) :
    cmdExecute (.removeCity n roads) m =
      (some (remove_city m n).1, (remove_city m n).2,
        .removeCity n (roads ++ (nbrsOf m n).map (fun e => (n, e.1, e.2)))) := by
  show (if dmem m n = false then _ else _) = _
  rw [if_neg (show ¬ dmem m n = false from fun hh => by
    rw [hn] at hh; exact Bool.noConfusion hh)]

theorem c2_removeCity {m : Cities} {n : String} (h : GInv m)
    (hn : dmem m n = true) (hself : dlook (nbrsOf m n) n = none) :
    (cmdUndo (.removeCity n ((nbrsOf m n).map (fun e => (n, e.1, e.2))))
      (remove_city m n).2).1 = some true ∧
    SameNodes (cmdUndo (.removeCity n ((nbrsOf m n).map
      (fun e => (n, e.1, e.2)))) (remove_city m n).2).2 m ∧
    SameCostMultisets (cmdUndo (.removeCity n ((nbrsOf m n).map
      (fun e => (n, e.1, e.2)))) (remove_city m n).2).2 m ∧
    (cmdExecute (.removeCity n ((nbrsOf m n).map (fun e => (n, e.1, e.2))))
      (cmdUndo (.removeCity n ((nbrsOf m n).map (fun e => (n, e.1, e.2))))
        (remove_city m n).2).2).1 = some true ∧
    SameNodes (cmdExecute (.removeCity n ((nbrsOf m n).map
      (fun e => (n, e.1, e.2)))) (cmdUndo (.removeCity n ((nbrsOf m n).map
      (fun e => (n, e.1, e.2)))) (remove_city m n).2).2).2.1
      (remove_city m n).2 ∧
    SameCostMultisets (cmdExecute (.removeCity n ((nbrsOf m n).map
      (fun e => (n, e.1, e.2)))) (cmdUndo (.removeCity n ((nbrsOf m n).map
      (fun e => (n, e.1, e.2)))) (remove_city m n).2).2).2.1
      (remove_city m n).2 := by
  obtain ⟨rmn, hrmn⟩ := Option.isSome_iff_exists.mp hn
  have hInv1 : GInv (remove_city m n).2 := ginv_remove_city m n h
  have hm1look := lookNbr_remove_city h hn
  have hm1dmem := dmem_remove_city h hn
  have hm1n : dmem (remove_city m n).2 n = false := by
    rw [hm1dmem n, if_pos rfl]
  have hadd : add_city (remove_city m n).2 n =
      (true, dset (remove_city m n).2 n []) := add_city_not_mem hm1n
  have hInv0 : GInv (dset (remove_city m n).2 n []) := by
    have hh := ginv_add_city (remove_city m n).2 n hInv1
    rw [hadd] at hh
    exact hh
  have hg0look : ∀ x y, lookNbr (dset (remove_city m n).2 n []) x y =
      if x = n ∨ y = n then none else lookNbr (remove_city m n).2 x y := by
    intro x y
    have hh := lookNbr_add_city hInv1 hm1n x y
    rw [hadd] at hh
    exact hh
  have hg0dmem : ∀ x, dmem (dset (remove_city m n).2 n []) x =
      if x = n then true else dmem (remove_city m n).2 x := by
    intro x
    have hh := dmem_add_city hm1n x
    rw [hadd] at hh
    exact hh
  have hdist : ∀ p ∈ nbrsOf m n, p.1 ≠ n := by
    intro p hp hpn
    have hkey : p.1 ∈ dkeys (nbrsOf m n) := List.mem_map_of_mem Prod.fst hp
    have h2 := dlook_isSome_of_mem_keys hkey
    rw [hpn, hself] at h2
    exact Bool.noConfusion h2
  have hlookup : ∀ p ∈ nbrsOf m n, ∃ cs, lookNbr m n p.1 = some cs := by
    intro p hp
    have hkey : p.1 ∈ dkeys (nbrsOf m n) := List.mem_map_of_mem Prod.fst hp
    obtain ⟨cs, hcs⟩ := Option.isSome_iff_exists.mp
      (dlook_isSome_of_mem_keys hkey)
    refine ⟨cs, ?_⟩
    rw [lookNbr_bind, hrmn]
    show dlook rmn p.1 = some cs
    rw [nbrsOf, hrmn] at hcs
    exact hcs
  have hcity : ∀ p ∈ nbrsOf m n,
      dmem (dset (remove_city m n).2 n []) p.1 = true := by
    intro p hp
    obtain ⟨cs, hcs⟩ := hlookup p hp
    have hd : dmem m p.1 = true := dmem_of_lookNbr_some h hcs
    rw [hg0dmem p.1, if_neg (hdist p hp), hm1dmem p.1, if_neg (hdist p hp)]
    exact hd
  have hg0n : dmem (dset (remove_city m n).2 n []) n = true := by
    rw [hg0dmem n, if_pos rfl]
  cases hsp : addRoadsAll (dset (remove_city m n).2 n [])
      ((nbrsOf m n).map (fun e => (n, e.1, e.2))) with
  | mk r s =>
    obtain ⟨c1, c2, c3, c4, c5, c6⟩ := addRoadsAll_restore (nbrsOf m n)
      (dset (remove_city m n).2 n []) hInv0 hg0n (nbrsOf_nodup h n)
      hdist hcity (r, s) hsp
    have hr : r = some () := c1
    subst hr
    have hundo_eq : cmdUndo (.removeCity n ((nbrsOf m n).map
        (fun e => (n, e.1, e.2)))) (remove_city m n).2 = (some true, s) := by
      simp only [cmdUndo, hadd, hsp]
    have hu_dmem : ∀ x, dmem s x = dmem m x := by
      intro x
      rw [c3 x, hg0dmem x]
      by_cases hx : x = n
      · rw [if_pos hx, hx, hn]
      · rw [if_neg hx, hm1dmem x, if_neg hx]
    have hu_getD : ∀ x y, (lookNbr s x y).getD [] =
        (lookNbr m x y).getD [] := by
      intro x y
      by_cases hxn : x = n
      · cases hy : dlook (nbrsOf m n) y with
        | some cs =>
          have hmy : lookNbr m n y = some cs := by
            rw [lookNbr_bind, hrmn]
            show dlook rmn y = some cs
            rw [nbrsOf, hrmn] at hy
            exact hy
          obtain ⟨w1, _⟩ := c4 y cs hy
          rw [hxn, w1, hg0look n y, if_pos (Or.inl rfl), hmy]
          rfl
        | none =>
          have hmy : lookNbr m n y = none := by
            rw [lookNbr_bind, hrmn]
            show dlook rmn y = none
            rw [nbrsOf, hrmn] at hy
            exact hy
          obtain ⟨w1, _⟩ := c6 y hy
          rw [hxn, w1, hg0look n y, if_pos (Or.inl rfl), hmy]
      · by_cases hyn : y = n
        · cases hx : dlook (nbrsOf m n) x with
          | some cs =>
            have hmx : lookNbr m n x = some cs := by
              rw [lookNbr_bind, hrmn]
              show dlook rmn x = some cs
              rw [nbrsOf, hrmn] at hx
              exact hx
            have hmxn : lookNbr m x n = some cs := by
              rw [h.sym x n]
              exact hmx
            obtain ⟨_, w2⟩ := c4 x cs hx
            rw [hyn, w2, hg0look n x, if_pos (Or.inl rfl), hmxn]
            rfl
          | none =>
            have hmx : lookNbr m n x = none := by
              rw [lookNbr_bind, hrmn]
              show dlook rmn x = none
              rw [nbrsOf, hrmn] at hx
              exact hx
            have hmxn : lookNbr m x n = none := by
              rw [h.sym x n]
              exact hmx
            obtain ⟨_, w2⟩ := c6 x hx
            rw [hyn, w2, hg0look x n, if_pos (Or.inr rfl), hmxn]
        · rw [c5 x y hxn hyn, hg0look x y,
              if_neg (show ¬(x = n ∨ y = n) from
                fun hh => hh.elim hxn hyn),
              hm1look x y,
              if_neg (show ¬(x = n ∨ y = n) from
                fun hh => hh.elim hxn hyn)]
    have hsn : dmem s n = true := by
      rw [hu_dmem n]
      exact hn
    have hredo_eq := cmdExecute_removeCity_red (m := s)
      ((nbrsOf m n).map (fun e => (n, e.1, e.2))) hsn
    refine ⟨?_, ?_, ?_, ?_, ?_, ?_⟩
    · rw [hundo_eq]
    · intro x
      rw [hundo_eq]
      exact hu_dmem x
    · intro x y
      rw [hundo_eq]
      show ((lookNbr s x y).getD []).Perm _
      rw [hu_getD x y]
    · rw [hundo_eq]
      show (cmdExecute (.removeCity n ((nbrsOf m n).map
        (fun e => (n, e.1, e.2)))) s).1 = some true
      rw [hredo_eq]
      show some (remove_city s n).1 = some true
      rw [remove_city_mem hsn]
    · intro x
      rw [hundo_eq]
      show dmem (cmdExecute (.removeCity n ((nbrsOf m n).map
        (fun e => (n, e.1, e.2)))) s).2.1 x = _
      rw [hredo_eq]
      show dmem (remove_city s n).2 x = _
      rw [dmem_remove_city c2 hsn x, hm1dmem x]
      by_cases hx : x = n
      · rw [if_pos hx, if_pos hx]
      · rw [if_neg hx, if_neg hx, hu_dmem x]
    · intro x y
      rw [hundo_eq]
      show ((lookNbr (cmdExecute (.removeCity n ((nbrsOf m n).map
        (fun e => (n, e.1, e.2)))) s).2.1 x y).getD []).Perm _
      rw [hredo_eq]
      show ((lookNbr (remove_city s n).2 x y).getD []).Perm _
      rw [lookNbr_remove_city c2 hsn x y, hm1look x y]
      by_cases hg : x = n ∨ y = n
      · rw [if_pos hg, if_pos hg]
      · rw [if_neg hg, if_neg hg, hu_getD x y]

/-- Side conditions under which a command's undo/redo pair is an inverse at
the multiset level: the command is freshly constructed (`roads` not yet
populated), road endpoints are distinct (the data model's edges join distinct
nodes), a removed node has no self-loop entry, and a `RemoveRoadCommand`
names a cost that is actually present (when absent, `execute` succeeds as a
silent no-op that `undo` does not invert). -/
def CmdOk : Cmd → Cities → Prop
  | .addCity _, _ => True
  | .removeCity n roads, m => roads = [] ∧ dlook (nbrsOf m n) n = none
  | .renameCity _ _, _ => True
  | .addRoad a b _, _ => a ≠ b
  | .removeRoad a b c, m => a ≠ b ∧ ∀ L, lookNbr m a b = some L → c ∈ L
  | .updateRoad a b _ _, _ => a ≠ b

/-- C2, counterexample.  From the graph A–B with cost list `[5, 3]`,
executing `AddRoadCommand(A, B, 5)` and then undoing it yields the cost list
`[3, 5]`: the pre-execute state is *not* restored exactly — `add_road`
appends at the end while `remove_road` removes the first match, so the order
of the cost list changes even though both calls succeed. -/
theorem c2_counterexample :
    (cmdExecute (.addRoad "A" "B" (.int 5))
      (runOps [.addCity "A", .addCity "B", .addRoad "A" "B" (.int 5),
               .addRoad "A" "B" (.int 3)])).1 = some true ∧
    (cmdUndo (execCmd (.addRoad "A" "B" (.int 5))
        (runOps [.addCity "A", .addCity "B", .addRoad "A" "B" (.int 5),
                 .addRoad "A" "B" (.int 3)]))
      (execState (.addRoad "A" "B" (.int 5))
        (runOps [.addCity "A", .addCity "B", .addRoad "A" "B" (.int 5),
                 .addRoad "A" "B" (.int 3)]))).1 = some true ∧
    lookNbr (runOps [.addCity "A", .addCity "B", .addRoad "A" "B" (.int 5),
      .addRoad "A" "B" (.int 3)]) "A" "B" = some [.int 5, .int 3] ∧
    lookNbr (undoState (execCmd (.addRoad "A" "B" (.int 5))
        (runOps [.addCity "A", .addCity "B", .addRoad "A" "B" (.int 5),
                 .addRoad "A" "B" (.int 3)]))
      (execState (.addRoad "A" "B" (.int 5))
        (runOps [.addCity "A", .addCity "B", .addRoad "A" "B" (.int 5),
                 .addRoad "A" "B" (.int 3)]))) "A" "B" =
      some [.int 3, .int 5] ∧
    some [JVal.int 3, JVal.int 5] ≠ some [JVal.int 5, JVal.int 3] := by
  decide

/-- C2, amended.  For a freshly-constructed command whose `execute()`
succeeds (with distinct road endpoints, no self-loop on a removed node, and
a present cost for `RemoveRoadCommand`), `undo()` immediately afterwards
succeeds and restores the node set and every directed pair's cost multiset
(not necessarily the list order); re-executing the command immediately after
such an undo succeeds and restores the post-execute node set and cost
multisets. -/
theorem c2_amended (m : Cities) (c : Cmd) (h : GInv m) (hok : CmdOk c m)
    (hexec : (cmdExecute c m).1 = some true) :
    (cmdUndo (execCmd c m) (execState c m)).1 = some true ∧
    SameNodes (undoState (execCmd c m) (execState c m)) m ∧
    SameCostMultisets (undoState (execCmd c m) (execState c m)) m ∧
    (cmdExecute (execCmd c m)
      (undoState (execCmd c m) (execState c m))).1 = some true ∧
    SameNodes (execState (execCmd c m)
      (undoState (execCmd c m) (execState c m))) (execState c m) ∧
    SameCostMultisets (execState (execCmd c m)
      (undoState (execCmd c m) (execState c m))) (execState c m) := by
  cases c with
  | addCity n =>
    have hxb : (add_city m n).1 = true := Option.some.inj hexec
    have hn : dmem m n = false := by
      cases hd : dmem m n with
      | false => rfl
      | true =>
        rw [add_city_mem hd] at hxb
        exact Bool.noConfusion hxb
    exact c2_addCity h hn
  | removeCity n roads =>
    obtain ⟨hroads, hself⟩ := hok
    subst hroads
    have hn : dmem m n = true := by
      cases hd : dmem m n with
      | true => rfl
      | false =>
        exfalso
        have hx := hexec
        have hred : cmdExecute (.removeCity n []) m =
            (some false, m, .removeCity n []) := by
          show (if dmem m n = false then _ else _) = _
          rw [if_pos hd]
        rw [hred] at hx
        exact Bool.noConfusion (Option.some.inj hx)
    simp only [execState, execCmd, undoState,
      cmdExecute_removeCity_red ([]) hn, List.nil_append]
    exact c2_removeCity h hn hself
  | renameCity o n =>
    have hxb : (rename_city m o n).1 = true := Option.some.inj hexec
    have hg : (!(dmem m o) || dmem m n) = false := by
      cases hgg : (!(dmem m o) || dmem m n) with
      | false => rfl
      | true =>
        rw [rename_city_fail hgg] at hxb
        exact Bool.noConfusion hxb
    have ho : dmem m o = true := by
      cases hd : dmem m o with
      | true => rfl
      | false => rw [hd] at hg; exact Bool.noConfusion hg
    have hn2 : dmem m n = false := by
      cases hd : dmem m n with
      | false => rfl
      | true => rw [hd, Bool.or_true] at hg; exact Bool.noConfusion hg
    exact c2_renameCity h ho hn2
  | addRoad a b c =>
    have hab : a ≠ b := hok
    have hx : (add_road m a b c).1 = some true := hexec
    have hga : (!(dmem m a) || !(dmem m b)) = false := by
      cases hgg : (!(dmem m a) || !(dmem m b)) with
      | false => rfl
      | true =>
        rw [add_road_fail c hgg] at hx
        exact Bool.noConfusion (Option.some.inj hx)
    have ha : dmem m a = true := by
      cases hd : dmem m a with
      | true => rfl
      | false => rw [hd] at hga; exact Bool.noConfusion hga
    have hb : dmem m b = true := by
      cases hd : dmem m b with
      | true => rfl
      | false =>
        rw [hd, Bool.not_false, Bool.or_true] at hga
        exact Bool.noConfusion hga
    exact c2_addRoad h hab ha hb
  | removeRoad a b c =>
    obtain ⟨hab, hmem⟩ := hok
    have hx : (remove_road m a b (some c)).1 = some true := hexec
    have hga : (!(dmem m a) || !(dmem m b)) = false := by
      cases hgg : (!(dmem m a) || !(dmem m b)) with
      | false => rfl
      | true =>
        rw [remove_road_fail_nodes (some c) hgg] at hx
        exact Bool.noConfusion (Option.some.inj hx)
    have ha : dmem m a = true := by
      cases hd : dmem m a with
      | true => rfl
      | false => rw [hd] at hga; exact Bool.noConfusion hga
    have hb : dmem m b = true := by
      cases hd : dmem m b with
      | true => rfl
      | false =>
        rw [hd, Bool.not_false, Bool.or_true] at hga
        exact Bool.noConfusion hga
    have hgp : (!(dmem (nbrsOf m a) b)) = false := by
      cases hgg : (!(dmem (nbrsOf m a) b)) with
      | false => rfl
      | true =>
        rw [remove_road_fail_pair (some c) hga hgg] at hx
        exact Bool.noConfusion (Option.some.inj hx)
    obtain ⟨rma, hrma⟩ := Option.isSome_iff_exists.mp ha
    have hpres : dmem rma b = true := by
      cases hgg : dmem rma b with
      | true => rfl
      | false =>
        rw [nbrsOf, hrma] at hgp
        have : dmem rma b = true := by
          cases hgg2 : dmem ((some rma).getD []) b with
          | true => exact hgg2
          | false => rw [hgg2] at hgp; exact Bool.noConfusion hgp
        rw [hgg] at this
        exact Bool.noConfusion this
    obtain ⟨L, hL⟩ := Option.isSome_iff_exists.mp hpres
    have hpair : lookNbr m a b = some L := by
      rw [lookNbr_bind, hrma]
      exact hL
    exact c2_removeRoad h hab ha hb hpair (hmem L hpair)
  | updateRoad a b oc nc =>
    have hab : a ≠ b := hok
    have hx : (update_road_cost m a b oc nc).1 = some true := hexec
    have hga : (!(dmem m a) || !(dmem m b)) = false := by
      cases hgg : (!(dmem m a) || !(dmem m b)) with
      | false => rfl
      | true =>
        rw [update_fail_nodes oc nc hgg] at hx
        exact Bool.noConfusion (Option.some.inj hx)
    have ha : dmem m a = true := by
      cases hd : dmem m a with
      | true => rfl
      | false => rw [hd] at hga; exact Bool.noConfusion hga
    have hb : dmem m b = true := by
      cases hd : dmem m b with
      | true => rfl
      | false =>
        rw [hd, Bool.not_false, Bool.or_true] at hga
        exact Bool.noConfusion hga
    have hgp : (!(dmem (nbrsOf m a) b)) = false := by
      cases hgg : (!(dmem (nbrsOf m a) b)) with
      | false => rfl
      | true =>
        rw [update_fail_pair oc nc hga hgg] at hx
        exact Bool.noConfusion (Option.some.inj hx)
    obtain ⟨rma, hrma⟩ := Option.isSome_iff_exists.mp ha
    have hpres : dmem rma b = true := by
      rw [nbrsOf, hrma] at hgp
      cases hgg2 : dmem ((some rma).getD []) b with
      | true => exact hgg2
      | false => rw [hgg2] at hgp; exact Bool.noConfusion hgp
    obtain ⟨L, hL⟩ := Option.isSome_iff_exists.mp hpres
    have hpair : lookNbr m a b = some L := by
      rw [lookNbr_bind, hrma]
      exact hL
    have hoc : oc ∈ L := by
      by_cases hmem : oc ∈ L
      · exact hmem
      · exfalso
        rw [update_fail_notin nc hga hgp hpair hmem] at hx
        exact Bool.noConfusion (Option.some.inj hx)
    exact c2_updateRoad h hab ha hb hpair hoc

/-- C2, witness: on the graph A–B with cost list `[5]`, `AddRoadCommand(A, B, 3)`
executes successfully; its undo succeeds, preserves the node membership of
`A`, and restores the A→B cost multiset to `[5]`. -/
theorem c2_amended_witness :
    (cmdExecute (.addRoad "A" "B" (.int 3))
      (runOps [.addCity "A", .addCity "B",
               .addRoad "A" "B" (.int 5)])).1 = some true ∧
    (cmdUndo (execCmd (.addRoad "A" "B" (.int 3))
        (runOps [.addCity "A", .addCity "B", .addRoad "A" "B" (.int 5)]))
      (execState (.addRoad "A" "B" (.int 3))
        (runOps [.addCity "A", .addCity "B",
                 .addRoad "A" "B" (.int 5)]))).1 = some true ∧
    dmem (undoState (execCmd (.addRoad "A" "B" (.int 3))
        (runOps [.addCity "A", .addCity "B", .addRoad "A" "B" (.int 5)]))
      (execState (.addRoad "A" "B" (.int 3))
        (runOps [.addCity "A", .addCity "B", .addRoad "A" "B" (.int 5)])))
      "A" =
    dmem (runOps [.addCity "A", .addCity "B", .addRoad "A" "B" (.int 5)])
      "A" ∧
    ((lookNbr (undoState (execCmd (.addRoad "A" "B" (.int 3))
        (runOps [.addCity "A", .addCity "B", .addRoad "A" "B" (.int 5)]))
      (execState (.addRoad "A" "B" (.int 3))
        (runOps [.addCity "A", .addCity "B", .addRoad "A" "B" (.int 5)])))
      "A" "B").getD []).Perm
    ((lookNbr (runOps [.addCity "A", .addCity "B",
        .addRoad "A" "B" (.int 5)]) "A" "B").getD []) := by
  have h := c2_amended
    (runOps [.addCity "A", .addCity "B", .addRoad "A" "B" (.int 5)])
    (.addRoad "A" "B" (.int 3)) (ginv_runOps _)
    (show ("A" : String) ≠ "B" by decide) (by decide)
  exact ⟨by decide, h.1, h.2.1 "A", h.2.2.1 "A" "B"⟩

/-- The captured `self.roads` list of a `RemoveCityCommand` (empty for the
other command classes, which have no such field). -/
def cmdRoads : Cmd → List (String × String × List JVal)
  | .removeCity _ roads => roads
  | _ => []

/-- `addRoadsAll` over an appended list: when the first half succeeds, the
run continues on the second half from the intermediate state. -/
theorem addRoadsAll_append_ok (A B : List (String × String × List JVal)) :
    ∀ g s u, addRoadsAll g A = (some u, s) →
      addRoadsAll g (A ++ B) = addRoadsAll s B := by
  induction A with
  | nil =>
    intro g s u hgs
    cases hgs
    rfl
  | cons hd rest ih =>
    obtain ⟨a, b, cs⟩ := hd
    intro g s u hgs
    simp only [addRoadsAll] at hgs
    show addRoadsAll g ((a, b, cs) :: (rest ++ B)) = _
    simp only [addRoadsAll]
    cases hsp : addCosts g a b cs with
    | mk r s1 =>
      rw [hsp] at hgs
      cases r with
      | none =>
        exact Option.noConfusion
          (show (none : Option Unit) = some u from congrArg Prod.fst hgs)
      | some v => exact ih s1 s u hgs

/-- Exact characterization of `RemoveCityCommand.undo` right after a remove
of a node with no self-loop: it succeeds, preserves `GInv`, and restores
node membership and every directed cost list exactly (at the `getD []`
level), leaving no self-loop entry on the restored node. -/
theorem undo_removeCity_exact {m : Cities} {n : String} (h : GInv m)
    (hn : dmem m n = true) (hself : dlook (nbrsOf m n) n = none) :
    ∀ res, cmdUndo (.removeCity n ((nbrsOf m n).map (fun e => (n, e.1, e.2))))
        (remove_city m n).2 = res →
      res.1 = some true ∧ GInv res.2 ∧
      (∀ x, dmem res.2 x = dmem m x) ∧
      (∀ x y, (lookNbr res.2 x y).getD [] = (lookNbr m x y).getD []) ∧
      lookNbr res.2 n n = none := by
  obtain ⟨rmn, hrmn⟩ := Option.isSome_iff_exists.mp hn
  have hInv1 : GInv (remove_city m n).2 := ginv_remove_city m n h
  have hm1look := lookNbr_remove_city h hn
  have hm1dmem := dmem_remove_city h hn
  have hm1n : dmem (remove_city m n).2 n = false := by
    rw [hm1dmem n, if_pos rfl]
  have hadd : add_city (remove_city m n).2 n =
      (true, dset (remove_city m n).2 n []) := add_city_not_mem hm1n
  have hInv0 : GInv (dset (remove_city m n).2 n []) := by
    have hh := ginv_add_city (remove_city m n).2 n hInv1
    rw [hadd] at hh
    exact hh
  have hg0look : ∀ x y, lookNbr (dset (remove_city m n).2 n []) x y =
      if x = n ∨ y = n then none else lookNbr (remove_city m n).2 x y := by
    intro x y
    have hh := lookNbr_add_city hInv1 hm1n x y
    rw [hadd] at hh
    exact hh
  have hg0dmem : ∀ x, dmem (dset (remove_city m n).2 n []) x =
      if x = n then true else dmem (remove_city m n).2 x := by
    intro x
    have hh := dmem_add_city hm1n x
    rw [hadd] at hh
    exact hh
  have hdist : ∀ p ∈ nbrsOf m n, p.1 ≠ n := by
    intro p hp hpn
    have hkey : p.1 ∈ dkeys (nbrsOf m n) := List.mem_map_of_mem Prod.fst hp
    have h2 := dlook_isSome_of_mem_keys hkey
    rw [hpn, hself] at h2
    exact Bool.noConfusion h2
  have hlookup : ∀ p ∈ nbrsOf m n, ∃ cs, lookNbr m n p.1 = some cs := by
    intro p hp
    have hkey : p.1 ∈ dkeys (nbrsOf m n) := List.mem_map_of_mem Prod.fst hp
    obtain ⟨cs, hcs⟩ := Option.isSome_iff_exists.mp
      (dlook_isSome_of_mem_keys hkey)
    refine ⟨cs, ?_⟩
    rw [lookNbr_bind, hrmn]
    show dlook rmn p.1 = some cs
    rw [nbrsOf, hrmn] at hcs
    exact hcs
  have hcity : ∀ p ∈ nbrsOf m n,
      dmem (dset (remove_city m n).2 n []) p.1 = true := by
    intro p hp
    obtain ⟨cs, hcs⟩ := hlookup p hp
    have hd : dmem m p.1 = true := dmem_of_lookNbr_some h hcs
    rw [hg0dmem p.1, if_neg (hdist p hp), hm1dmem p.1, if_neg (hdist p hp)]
    exact hd
  have hg0n : dmem (dset (remove_city m n).2 n []) n = true := by
    rw [hg0dmem n, if_pos rfl]
  cases hsp : addRoadsAll (dset (remove_city m n).2 n [])
      ((nbrsOf m n).map (fun e => (n, e.1, e.2))) with
  | mk r s =>
    obtain ⟨r1, r2, r3, r4, r5, r6⟩ := addRoadsAll_restore (nbrsOf m n)
      (dset (remove_city m n).2 n []) hInv0 hg0n (nbrsOf_nodup h n)
      hdist hcity (r, s) hsp
    have hr : r = some () := r1
    subst hr
    have hundo_eq : cmdUndo (.removeCity n ((nbrsOf m n).map
        (fun e => (n, e.1, e.2)))) (remove_city m n).2 = (some true, s) := by
      simp only [cmdUndo, hadd, hsp]
    have hu_dmem : ∀ x, dmem s x = dmem m x := by
      intro x
      rw [r3 x, hg0dmem x]
      by_cases hx : x = n
      · rw [if_pos hx, hx, hn]
      · rw [if_neg hx, hm1dmem x, if_neg hx]
    have hu_getD : ∀ x y, (lookNbr s x y).getD [] =
        (lookNbr m x y).getD [] := by
      intro x y
      by_cases hxn : x = n
      · cases hy : dlook (nbrsOf m n) y with
        | some cs =>
          have hmy : lookNbr m n y = some cs := by
            rw [lookNbr_bind, hrmn]
            show dlook rmn y = some cs
            rw [nbrsOf, hrmn] at hy
            exact hy
          obtain ⟨w1, _⟩ := r4 y cs hy
          rw [hxn, w1, hg0look n y, if_pos (Or.inl rfl), hmy]
          rfl
        | none =>
          have hmy : lookNbr m n y = none := by
            rw [lookNbr_bind, hrmn]
            show dlook rmn y = none
            rw [nbrsOf, hrmn] at hy
            exact hy
          obtain ⟨w1, _⟩ := r6 y hy
          rw [hxn, w1, hg0look n y, if_pos (Or.inl rfl), hmy]
      · by_cases hyn : y = n
        · cases hx : dlook (nbrsOf m n) x with
          | some cs =>
            have hmx : lookNbr m n x = some cs := by
              rw [lookNbr_bind, hrmn]
              show dlook rmn x = some cs
              rw [nbrsOf, hrmn] at hx
              exact hx
            have hmxn : lookNbr m x n = some cs := by
              rw [h.sym x n]
              exact hmx
            obtain ⟨_, w2⟩ := r4 x cs hx
            rw [hyn, w2, hg0look n x, if_pos (Or.inl rfl), hmxn]
            rfl
          | none =>
            have hmx : lookNbr m n x = none := by
              rw [lookNbr_bind, hrmn]
              show dlook rmn x = none
              rw [nbrsOf, hrmn] at hx
              exact hx
            have hmxn : lookNbr m x n = none := by
              rw [h.sym x n]
              exact hmx
            obtain ⟨_, w2⟩ := r6 x hx
            rw [hyn, w2, hg0look x n, if_pos (Or.inr rfl), hmxn]
        · rw [r5 x y hxn hyn, hg0look x y,
              if_neg (show ¬(x = n ∨ y = n) from
                fun hh => hh.elim hxn hyn),
              hm1look x y,
              if_neg (show ¬(x = n ∨ y = n) from
                fun hh => hh.elim hxn hyn)]
    intro res hres
    rw [hundo_eq] at hres
    cases hres
    refine ⟨rfl, r2, hu_dmem, hu_getD, ?_⟩
    obtain ⟨w1, _⟩ := r6 n hself
    rw [w1, hg0look n n, if_pos (Or.inl rfl)]

/-- C10.  `RemoveCityCommand.execute` appends the node's incident roads to
the command's captured `roads` list without resetting it first: after
execute / undo / re-execute (what `redo()` performs) the captured list has
strictly grown (it is the old list plus a fresh capture), and the following
undo restores each originally incident road's cost list doubled
(`cs ++ cs`) instead of the pre-remove state — even though every one of the
four calls reports success. -/
theorem c10_roads_accumulation (m : Cities) (n y : String) (cs : List JVal)
    (r1 u1 r2 u2 : Option Bool) (m1 m2 m3 m4 : Cities) (c1 c2 : Cmd)
    (h : GInv m) (hn : dmem m n = true)
    (hself : dlook (nbrsOf m n) n = none)
    (hy : dlook (nbrsOf m n) y = some cs) (hcs : cs ≠ [])
    (h1 : cmdExecute (.removeCity n []) m = (r1, m1, c1))
    (h2 : cmdUndo c1 m1 = (u1, m2))
    (h3 : cmdExecute c1 m2 = (r2, m3, c2))
    (h4 : cmdUndo c2 m3 = (u2, m4)) :
    r1 = some true ∧ u1 = some true ∧ r2 = some true ∧ u2 = some true ∧
    cmdRoads c2 = cmdRoads c1 ++ (nbrsOf m2 n).map (fun e => (n, e.1, e.2)) ∧
    (cmdRoads c1).length < (cmdRoads c2).length ∧
    lookNbr m n y = some cs ∧
    (lookNbr m4 n y).getD [] = cs ++ cs ∧
    (lookNbr m4 n y).getD [] ≠ (lookNbr m n y).getD [] := by
  obtain ⟨rmn, hrmn⟩ := Option.isSome_iff_exists.mp hn
  have hmy : lookNbr m n y = some cs := by
    rw [lookNbr_bind, hrmn]
    show dlook rmn y = some cs
    rw [nbrsOf, hrmn] at hy
    exact hy
  rw [cmdExecute_removeCity_red ([]) hn] at h1
  injection h1 with hr1 h1'
  injection h1' with hm1 hc1
  subst hr1; subst hm1; subst hc1
  rw [List.nil_append] at h2
  obtain ⟨hu1c, hInv2c, hdm2c, hgetD2c, hns2c⟩ :=
    undo_removeCity_exact h hn hself (u1, m2) h2
  have hu1 : u1 = some true := hu1c
  have hInv2 : GInv m2 := hInv2c
  have hdm2 : ∀ x, dmem m2 x = dmem m x := hdm2c
  have hgetD2 : ∀ x z, (lookNbr m2 x z).getD [] = (lookNbr m x z).getD [] :=
    hgetD2c
  have hns2 : lookNbr m2 n n = none := hns2c
  have hn2 : dmem m2 n = true := (hdm2 n).trans hn
  obtain ⟨rm2, hrm2⟩ := Option.isSome_iff_exists.mp hn2
  have hself2 : dlook (nbrsOf m2 n) n = none := by
    rw [lookNbr_bind, hrm2] at hns2
    rw [nbrsOf, hrm2]
    exact hns2
  have hmy2 : lookNbr m2 n y = some cs := by
    have hgd := hgetD2 n y
    rw [hmy] at hgd
    cases hml : lookNbr m2 n y with
    | none =>
      rw [hml] at hgd
      exact absurd (show cs = [] from hgd.symm) hcs
    | some v =>
      rw [hml] at hgd
      exact congrArg some (show v = cs from hgd)
  have hy2 : dlook (nbrsOf m2 n) y = some cs := by
    rw [lookNbr_bind, hrm2] at hmy2
    rw [nbrsOf, hrm2]
    exact hmy2
  rw [List.nil_append] at h3
  rw [cmdExecute_removeCity_red ((nbrsOf m n).map (fun e => (n, e.1, e.2)))
    hn2] at h3
  injection h3 with hr2 h3'
  injection h3' with hm3 hc2
  subst hr2; subst hm3; subst hc2
  have hm3dmem := dmem_remove_city hInv2 hn2
  have hm3look := lookNbr_remove_city hInv2 hn2
  have hInv3 : GInv (remove_city m2 n).2 := ginv_remove_city m2 n hInv2
  have hm3n : dmem (remove_city m2 n).2 n = false := by
    rw [hm3dmem n, if_pos rfl]
  have hadd3 : add_city (remove_city m2 n).2 n =
      (true, dset (remove_city m2 n).2 n []) := add_city_not_mem hm3n
  have hInv03 : GInv (dset (remove_city m2 n).2 n []) := by
    have hh := ginv_add_city (remove_city m2 n).2 n hInv3
    rw [hadd3] at hh
    exact hh
  have hg03look : ∀ x z, lookNbr (dset (remove_city m2 n).2 n []) x z =
      if x = n ∨ z = n then none else lookNbr (remove_city m2 n).2 x z := by
    intro x z
    have hh := lookNbr_add_city hInv3 hm3n x z
    rw [hadd3] at hh
    exact hh
  have hg03dmem : ∀ x, dmem (dset (remove_city m2 n).2 n []) x =
      if x = n then true else dmem (remove_city m2 n).2 x := by
    intro x
    have hh := dmem_add_city hm3n x
    rw [hadd3] at hh
    exact hh
  have hg03n : dmem (dset (remove_city m2 n).2 n []) n = true := by
    rw [hg03dmem n, if_pos rfl]
  have hdist1 : ∀ p ∈ nbrsOf m n, p.1 ≠ n := by
    intro p hp hpn
    have hkey : p.1 ∈ dkeys (nbrsOf m n) := List.mem_map_of_mem Prod.fst hp
    have h2x := dlook_isSome_of_mem_keys hkey
    rw [hpn, hself] at h2x
    exact Bool.noConfusion h2x
  have hcity1 : ∀ p ∈ nbrsOf m n,
      dmem (dset (remove_city m2 n).2 n []) p.1 = true := by
    intro p hp
    have hkey : p.1 ∈ dkeys (nbrsOf m n) := List.mem_map_of_mem Prod.fst hp
    obtain ⟨cs1, hcs1⟩ := Option.isSome_iff_exists.mp
      (dlook_isSome_of_mem_keys hkey)
    have hl1 : lookNbr m n p.1 = some cs1 := by
      rw [lookNbr_bind, hrmn]
      show dlook rmn p.1 = some cs1
      rw [nbrsOf, hrmn] at hcs1
      exact hcs1
    have hd : dmem m p.1 = true := dmem_of_lookNbr_some h hl1
    rw [hg03dmem p.1, if_neg (hdist1 p hp), hm3dmem p.1,
      if_neg (hdist1 p hp), hdm2 p.1]
    exact hd
  cases hspA : addRoadsAll (dset (remove_city m2 n).2 n [])
      ((nbrsOf m n).map (fun e => (n, e.1, e.2))) with
  | mk rA sA =>
    obtain ⟨a1, a2c, a3c, a4c, a5c, a6c⟩ := addRoadsAll_restore (nbrsOf m n)
      (dset (remove_city m2 n).2 n []) hInv03 hg03n (nbrsOf_nodup h n)
      hdist1 hcity1 (rA, sA) hspA
    have hrA : rA = some () := a1
    subst hrA
    have a2 : GInv sA := a2c
    have a3 : ∀ x, dmem sA x = dmem (dset (remove_city m2 n).2 n []) x := a3c
    have a4 : ∀ z cs1, dlook (nbrsOf m n) z = some cs1 →
        (lookNbr sA n z).getD [] =
          (lookNbr (dset (remove_city m2 n).2 n []) n z).getD [] ++ cs1 ∧
        (lookNbr sA z n).getD [] =
          (lookNbr (dset (remove_city m2 n).2 n []) n z).getD [] ++ cs1 :=
      a4c
    have hsAn : dmem sA n = true := by
      rw [a3 n]
      exact hg03n
    have hdist2 : ∀ p ∈ nbrsOf m2 n, p.1 ≠ n := by
      intro p hp hpn
      have hkey : p.1 ∈ dkeys (nbrsOf m2 n) := List.mem_map_of_mem Prod.fst hp
      have h2x := dlook_isSome_of_mem_keys hkey
      rw [hpn, hself2] at h2x
      exact Bool.noConfusion h2x
    have hcity2 : ∀ p ∈ nbrsOf m2 n, dmem sA p.1 = true := by
      intro p hp
      have hkey : p.1 ∈ dkeys (nbrsOf m2 n) := List.mem_map_of_mem Prod.fst hp
      obtain ⟨cs1, hcs1⟩ := Option.isSome_iff_exists.mp
        (dlook_isSome_of_mem_keys hkey)
      have hl1 : lookNbr m2 n p.1 = some cs1 := by
        rw [lookNbr_bind, hrm2]
        show dlook rm2 p.1 = some cs1
        rw [nbrsOf, hrm2] at hcs1
        exact hcs1
      have hd : dmem m2 p.1 = true := dmem_of_lookNbr_some hInv2 hl1
      rw [a3 p.1, hg03dmem p.1, if_neg (hdist2 p hp), hm3dmem p.1,
        if_neg (hdist2 p hp)]
      exact hd
    cases hspB : addRoadsAll sA
        ((nbrsOf m2 n).map (fun e => (n, e.1, e.2))) with
    | mk rB sB =>
      obtain ⟨b1, b2c, b3c, b4c, b5c, b6c⟩ := addRoadsAll_restore
        (nbrsOf m2 n) sA a2 hsAn (nbrsOf_nodup hInv2 n)
        hdist2 hcity2 (rB, sB) hspB
      have hrB : rB = some () := b1
      subst hrB
      have b4 : ∀ z cs1, dlook (nbrsOf m2 n) z = some cs1 →
          (lookNbr sB n z).getD [] = (lookNbr sA n z).getD [] ++ cs1 ∧
          (lookNbr sB z n).getD [] = (lookNbr sA n z).getD [] ++ cs1 := b4c
      have happ : addRoadsAll (dset (remove_city m2 n).2 n [])
          (((nbrsOf m n).map (fun e => (n, e.1, e.2))) ++
            ((nbrsOf m2 n).map (fun e => (n, e.1, e.2)))) =
          (some (), sB) := by
        rw [addRoadsAll_append_ok _ _ _ _ _ hspA]
        exact hspB
      have hundo4 : cmdUndo (.removeCity n
          (((nbrsOf m n).map (fun e => (n, e.1, e.2))) ++
            ((nbrsOf m2 n).map (fun e => (n, e.1, e.2)))))
          (remove_city m2 n).2 = (some true, sB) := by
        simp only [cmdUndo, hadd3, happ]
      rw [hundo4] at h4
      injection h4 with hu2 hm4
      subst hu2; subst hm4
      have hpos : 0 < (nbrsOf m2 n).length := by
        cases hnb : nbrsOf m2 n with
        | nil => rw [hnb] at hy2; exact Option.noConfusion hy2
        | cons p l => simp
      obtain ⟨wA, _⟩ := a4 y cs hy
      obtain ⟨wB, _⟩ := b4 y cs hy2
      have hfinal : (lookNbr sB n y).getD [] = cs ++ cs := by
        rw [wB, wA, hg03look n y, if_pos (Or.inl rfl)]
        rfl
      refine ⟨?_, hu1, ?_, rfl, ?_, ?_, hmy, hfinal, ?_⟩
      · rw [remove_city_mem hn]
      · rw [remove_city_mem hn2]
      · simp only [cmdRoads, List.nil_append]
      · simp only [cmdRoads, List.nil_append, List.length_append,
          List.length_map]
        omega
      · intro heq
        rw [hfinal, hmy] at heq
        have heq2 : cs ++ cs = cs := heq
        have hl := congrArg List.length heq2
        rw [List.length_append] at hl
        have hz : cs.length = 0 := by omega
        exact hcs (List.eq_nil_of_length_eq_zero hz)

/-- The concrete scenario for the roads-accumulation behaviour: graph A–B
with cost `[5]`. -/
def c10m : Cities :=
  runOps [.addCity "A", .addCity "B", .addRoad "A" "B" (.int 5)]

/-- The `RemoveCityCommand` after its first execute (roads captured once). -/
def c10c1 : Cmd := execCmd (.removeCity "B" []) c10m

/-- The graph after the first execute. -/
def c10m1 : Cities := execState (.removeCity "B" []) c10m

/-- The graph after the first undo. -/
def c10m2 : Cities := undoState c10c1 c10m1

/-- The command after the second execute (roads captured twice). -/
def c10c2 : Cmd := execCmd c10c1 c10m2

/-- The graph after the second execute. -/
def c10m3 : Cities := execState c10c1 c10m2

/-- The graph after the second undo. -/
def c10m4 : Cities := undoState c10c2 c10m3

/-- C10, witness: in the concrete A–B scenario the captured roads list
strictly grows across the second execute, and the second undo leaves the
B→A cost list doubled (`[5, 5]`), differing from the original state. -/
theorem c10_roads_accumulation_witness :
    (cmdRoads c10c1).length < (cmdRoads c10c2).length ∧
    (lookNbr c10m4 "B" "A").getD [] = [JVal.int 5] ++ [JVal.int 5] ∧
    (lookNbr c10m4 "B" "A").getD [] ≠ (lookNbr c10m "B" "A").getD [] := by
  have hh := c10_roads_accumulation c10m "B" "A" [JVal.int 5]
    (cmdExecute (.removeCity "B" []) c10m).1 (cmdUndo c10c1 c10m1).1
    (cmdExecute c10c1 c10m2).1 (cmdUndo c10c2 c10m3).1
    c10m1 c10m2 c10m3 c10m4 c10c1 c10c2
    (ginv_runOps _) (by decide) (by decide) (by decide) (by decide)
    rfl rfl rfl rfl
  exact ⟨hh.2.2.2.2.2.1, hh.2.2.2.2.2.2.2.1, hh.2.2.2.2.2.2.2.2⟩

/-!
The History Engine: `CommandManager` with its snapshot history and JSON
persistence.  The manager's `history` is kept as a raw `JVal` because
`load_from_file` assigns whatever the document's `history` key holds before
any validation; `current_history_index` is kept as `Int` (documents whose
`current_index` is not an integer fall outside the embedding and are mapped
to `none` by `loadFromDoc`).
-/

/-- Python truthiness of a JSON value (`if not self.history`). -/
def jfalsy : JVal → Bool
  | .null => true
  | .int i => i == 0
  | .str s => s == ""
  | .arr l => l.isEmpty
  | .obj l => l.isEmpty

/-- Python list indexing `l[i]` with negative indices counting from the
end; `none` models an `IndexError`. -/
def pyListGet {α : Type} (l : List α) (i : Int) : Option α :=
  if 0 ≤ i then l.get? i.toNat
  else if 0 ≤ (l.length : Int) + i then l.get? ((l.length : Int) + i).toNat
  else none

/-- Python slice `l[:i]` (negative `i` counts from the end, clamped). -/
def pySliceTo {α : Type} (l : List α) (i : Int) : List α :=
  if 0 ≤ i then l.take i.toNat else l.take ((l.length : Int) + i).toNat

/-- `CommandManager._get_safe_state`'s `cities` sub-object: the graph as a
JSON object of objects of cost arrays. -/
def citiesToJ (m : Cities) : JVal :=
  .obj (m.map (fun e => (e.1, .obj (e.2.map (fun p => (p.1, .arr p.2))))))

/-- `CommandManager._get_safe_state`. -/
def safeStateJ (m : Cities) : JVal :=
  .obj [("cities", citiesToJ m), ("_version", .str "1.2")]

/-- `CommandManager._command_to_dict`. -/
def cmdToJ : Cmd → JVal
  | .addCity n => .obj [("type", .str "AddCityCommand"), ("name", .str n)]
  | .removeCity n roads =>
    .obj [("type", .str "RemoveCityCommand"), ("name", .str n),
      ("roads", .arr (roads.map
        (fun t => .arr [.str t.1, .str t.2.1, .arr t.2.2])))]
  | .renameCity o n =>
    .obj [("type", .str "RenameCityCommand"), ("old_name", .str o),
      ("new_name", .str n)]
  | .addRoad a b c =>
    .obj [("type", .str "AddRoadCommand"), ("city1", .str a),
      ("city2", .str b), ("cost", c)]
  | .removeRoad a b c =>
    .obj [("type", .str "RemoveRoadCommand"), ("city1", .str a),
      ("city2", .str b), ("cost", c)]
  | .updateRoad a b oc nc =>
    .obj [("type", .str "UpdateRoadCommand"), ("city1", .str a),
      ("city2", .str b), ("old_cost", oc), ("new_cost", nc)]

/-- The state of a `CommandManager`. -/
structure Manager where
  city_map : Cities
  undo_stack : List Cmd
  redo_stack : List Cmd
  history : JVal
  current_history_index : Int
  deriving DecidableEq

/-- The snapshot object `_save_state` builds from the current manager
state. -/
def snapJ (mgr : Manager) : JVal :=
  .obj [("map_state", safeStateJ mgr.city_map),
    ("undo_stack", .arr (mgr.undo_stack.map cmdToJ)),
    ("redo_stack", .arr (mgr.redo_stack.map cmdToJ))]

/-- `CommandManager._save_state`: truncate any redo-branch of the timeline,
append a snapshot, and point the cursor at it.  `none` models the
`TypeError` Python would raise if `history` is not a list. -/
def saveStateM (mgr : Manager) : Option Manager :=
  match mgr.history with
  | .arr hs =>
    let hs1 := if mgr.current_history_index < (hs.length : Int) - 1
      then pySliceTo hs (mgr.current_history_index + 1) else hs
    some { mgr with
      history := .arr (hs1 ++ [snapJ mgr])
      current_history_index := (hs1.length : Int) }
  | _ => none

/-- `CommandManager.__init__`: empty stacks and history, cursor `-1`,
followed by `_save_state()`. -/
def mkManager (m : Cities) : Manager :=
  let base : Manager := ⟨m, [], [], .arr [], -1⟩
  match saveStateM base with
  | some g => g
  | none => base

/-- `CommandManager.execute_command`.  `none` models an exception escaping
(the command's `execute` raised). -/
def executeCommand (mgr : Manager) (c : Cmd) : Option (Bool × Manager) :=
  match cmdExecute c mgr.city_map with
  | (none, _, _) => none
  | (some false, m', _) => some (false, { mgr with city_map := m' })
  | (some true, m', c') =>
    match saveStateM { mgr with
        city_map := m'
        undo_stack := mgr.undo_stack ++ [c']
        redo_stack := ([] : List Cmd) } with
    | none => none
    | some mgr2 => some (true, mgr2)

/-- `CommandManager.undo`. -/
def undoManager (mgr : Manager) : Option (Bool × Manager) :=
  match mgr.undo_stack.getLast? with
  | none => some (false, mgr)
  | some c =>
    match cmdUndo c mgr.city_map with
    | (none, _) => none
    | (some false, m') =>
      some (false, { mgr with
        city_map := m'
        undo_stack := mgr.undo_stack.dropLast })
    | (some true, m') =>
      match saveStateM { mgr with
          city_map := m'
          undo_stack := mgr.undo_stack.dropLast
          redo_stack := mgr.redo_stack ++ [c] } with
      | none => none
      | some mgr2 => some (true, mgr2)

/-- `CommandManager.redo`. -/
def redoManager (mgr : Manager) : Option (Bool × Manager) :=
  match mgr.redo_stack.getLast? with
  | none => some (false, mgr)
  | some c =>
    match cmdExecute c mgr.city_map with
    | (none, _, _) => none
    | (some false, m', _) =>
      some (false, { mgr with
        city_map := m'
        redo_stack := mgr.redo_stack.dropLast })
    | (some true, m', c') =>
      match saveStateM { mgr with
          city_map := m'
          undo_stack := mgr.undo_stack ++ [c']
          redo_stack := mgr.redo_stack.dropLast } with
      | none => none
      | some mgr2 => some (true, mgr2)

/-- `CommandManager.save_to_file`'s document (the JSON written to disk).
The `created` metadata field holds a wall-clock timestamp in the code; the
loader never reads `_metadata`, so it is modeled as a fixed string. -/
def saveDoc (mgr : Manager) : JVal :=
  .obj [("history", .arr [snapJ mgr]),
    ("current_index", .int 0),
    ("_metadata", .obj [("version", .str "1.2"), ("created", .str "")])]

/-- One entry of a serialized `RemoveCityCommand.roads` list:
`[city1, city2, costs]`.  The code stores whatever the document holds
without validation (a malformed entry would only raise later, inside
`undo`); entries of any other shape make the whole record unparseable
here, which cannot occur for documents produced by the serializer. -/
def parseRoad (v : JVal) : Option (String × String × List JVal) :=
  match v with
  | .arr [.str a, .str b, .arr cs] => some (a, b, cs)
  | _ => none

/-- Parse a serialized roads list entry-by-entry. -/
def parseRoads : List JVal → Option (List (String × String × List JVal))
  | [] => some []
  | v :: rest =>
    match parseRoad v, parseRoads rest with
    | some r, some rs => some (r :: rs)
    | _, _ => none

/-- One iteration of `CommandManager._deserialize_commands`: `none` models
the record being skipped (`except: continue`, a missing key, or an
unrecognized `type`). -/
def parseCmd (v : JVal) : Option Cmd :=
  match v with
  | .obj kvs =>
    match dlook kvs "type" with
    | some (.str t) =>
      if t = "AddCityCommand" then
        match dlook kvs "name" with
        | some (.str n) => some (.addCity n)
        | _ => none
      else if t = "RemoveCityCommand" then
        match dlook kvs "name" with
        | some (.str n) =>
          match dlook kvs "roads" with
          | none => some (.removeCity n [])
          | some (.arr rs) =>
            match parseRoads rs with
            | some roads => some (.removeCity n roads)
            | none => none
          | some _ => none
        | _ => none
      else if t = "RenameCityCommand" then
        match dlook kvs "old_name", dlook kvs "new_name" with
        | some (.str o), some (.str n) => some (.renameCity o n)
        | _, _ => none
      else if t = "AddRoadCommand" then
        match dlook kvs "city1", dlook kvs "city2", dlook kvs "cost" with
        | some (.str a), some (.str b), some c => some (.addRoad a b c)
        | _, _, _ => none
      else if t = "RemoveRoadCommand" then
        match dlook kvs "city1", dlook kvs "city2", dlook kvs "cost" with
        | some (.str a), some (.str b), some c => some (.removeRoad a b c)
        | _, _, _ => none
      else if t = "UpdateRoadCommand" then
        match dlook kvs "city1", dlook kvs "city2",
            dlook kvs "old_cost", dlook kvs "new_cost" with
        | some (.str a), some (.str b), some oc, some nc =>
          some (.updateRoad a b oc nc)
        | _, _, _, _ => none
      else none
    | _ => none
  | _ => none

/-- `CommandManager._deserialize_commands` applied to the raw value found
under `undo_stack`/`redo_stack`: iterating a JSON array keeps the parseable
records; iterating an object or a string yields strings, every one of which
the per-record handler skips; integers and `null` are not iterable, so the
`for` raises out of the method (`none`). -/
def jIterCmds (v : JVal) : Option (List Cmd) :=
  match v with
  | .arr l => some (l.filterMap parseCmd)
  | .obj _ => some []
  | .str _ => some []
  | _ => none

/-- `from_dict`'s per-neighbor normalization: a JSON array is taken as the
cost list, any scalar becomes a one-element list. -/
def costToList (v : JVal) : List JVal :=
  match v with
  | .arr l => l
  | _ => [v]

/-- The v1.2 branch of `CityMap.from_dict`: for each city, assign an empty
road dict, then fill it neighbor-by-neighbor; a non-object neighbors value
raises with the partial graph built so far (`none` in the first
component). -/
def buildCities12 (acc : Cities) : List (String × JVal) → Option Unit × Cities
  | [] => (some (), acc)
  | (city, nb) :: rest =>
    match nb with
    | .obj nbs =>
      buildCities12 (dset acc city
        (nbs.foldl (fun d p => dset d p.1 (costToList p.2)) [])) rest
    | _ => (none, dset acc city [])

/-- The legacy branch of `CityMap.from_dict`: like the v1.2 branch but a
non-object neighbors value just leaves the city with no roads (no raise). -/
def buildLegacy (acc : Cities) : List (String × JVal) → Cities
  | [] => acc
  | (city, nb) :: rest =>
    match nb with
    | .obj nbs =>
      buildLegacy (dset acc city
        (nbs.foldl (fun d p => dset d p.1 (costToList p.2)) [])) rest
    | _ => buildLegacy (dset acc city []) rest

/-- `CityMap.from_dict`: non-dict data raises before touching the graph;
otherwise the graph is cleared first, then rebuilt by the version-selected
branch (so a raise mid-build leaves a partial graph). -/
def from_dict (m : Cities) (data : JVal) : Option Unit × Cities :=
  match data with
  | .obj kvs =>
    let version := match dlook kvs "_version" with
      | some v => v
      | none => .str "1.0"
    if version = .str "1.2" then
      match (match dlook kvs "cities" with
        | some v => v
        | none => .obj []) with
      | .obj cs => buildCities12 [] cs
      | _ => (none, [])
    else (some (), buildLegacy [] kvs)
  | _ => (none, m)

/-- `CommandManager.load_from_file` applied to an already-parsed document.
Every exception raised inside the method body is caught and turned into a
`false` return, with all mutations made before the raise kept.  The result
is `none` only for documents outside the embedding: a non-integer
`current_index` (Python would store it and raise on indexing, leaving a
cursor this model cannot represent) or a string `map_state` (re-parsed as
JSON by the code). -/
def loadFromDoc (mgr : Manager) (data : JVal) : Option (Bool × Manager) :=
  match data with
  | .obj kvs =>
    let hist := match dlook kvs "history" with
      | some v => v
      | none => .arr []
    match (match dlook kvs "current_index" with
      | some v => v
      | none => .int 0) with
    | .int idx =>
      let mgr1 := { mgr with
        history := hist
        current_history_index := idx }
      if jfalsy hist then some (false, mgr1)
      else
        match hist with
        | .arr hs =>
          match pyListGet hs idx with
          | none => some (false, mgr1)
          | some st =>
            match st with
            | .obj stkvs =>
              match (match dlook stkvs "map_state" with
                | some v => v
                | none => .obj []) with
              | .str _ => none
              | ms =>
                match from_dict mgr1.city_map ms with
                | (none, partialc) =>
                  some (false, { mgr1 with city_map := partialc })
                | (some _, newc) =>
                  let mgr2 := { mgr1 with city_map := newc }
                  match jIterCmds (match dlook stkvs "undo_stack" with
                    | some v => v
                    | none => .arr []) with
                  | none => some (false, mgr2)
                  | some ucmds =>
                    let mgr3 := { mgr2 with undo_stack := ucmds }
                    match jIterCmds (match dlook stkvs "redo_stack" with
                      | some v => v
                      | none => .arr []) with
                    | none => some (false, mgr3)
                    | some rcmds =>
                      some (true, { mgr3 with redo_stack := rcmds })
            | _ => some (false, mgr1)
        | _ => some (false, mgr1)
    | _ => none
  | _ => some (false, mgr)

/-- Once both membership guards pass, `add_road` reports `true` or raises
(`none`) — it never returns `false`. -/
theorem add_road_not_false {m : Cities} {a b : String} (c : JVal)
    (hg : (!(dmem m a) || !(dmem m b)) = false) :
    (add_road m a b c).1 ≠ some false := by
  intro hcon
  simp only [add_road, if_bool_false hg] at hcon
  split at hcon <;> (try split at hcon) <;> (try split at hcon) <;>
    (try split at hcon) <;> (try split at hcon) <;> simp at hcon

/-- Once both guards pass, `remove_road` reports `true` or raises — it
never returns `false` (a missing cost is a silent no-op). -/
theorem remove_road_not_false {m : Cities} {a b : String} (co : Option JVal)
    (hga : (!(dmem m a) || !(dmem m b)) = false)
    (hgp : (!(dmem (nbrsOf m a) b)) = false) :
    (remove_road m a b co).1 ≠ some false := by
  intro hcon
  simp only [remove_road, if_bool_false hga, if_bool_false hgp] at hcon
  split at hcon <;> (try split at hcon) <;> (try split at hcon) <;>
    (try split at hcon) <;> (try split at hcon) <;> (try split at hcon) <;>
    (try split at hcon) <;> simp at hcon

/-- Once the guards pass and the old cost is present, `update_road_cost`
reports `true` or raises — it never returns `false`. -/
theorem update_not_false_mem {m : Cities} {a b : String} {oc : JVal}
    (nc : JVal) {L : List JVal}
    (hga : (!(dmem m a) || !(dmem m b)) = false)
    (hgp : (!(dmem (nbrsOf m a) b)) = false)
    (hpair : lookNbr m a b = some L) (hoc : oc ∈ L) :
    (update_road_cost m a b oc nc).1 ≠ some false := by
  intro hcon
  simp only [update_road_cost, if_bool_false hga, if_bool_false hgp, hpair,
    if_pos hoc] at hcon
  split at hcon <;> (try split at hcon) <;> simp at hcon

/-- `add_road` returns `false` only from its membership guard, before any
mutation. -/
theorem add_road_some_false {m : Cities} {a b : String} {c : JVal}
    (h : (add_road m a b c).1 = some false) :
    add_road m a b c = (some false, m) := by
  cases hg : (!(dmem m a) || !(dmem m b)) with
  | true => exact add_road_fail c hg
  | false => exact absurd h (add_road_not_false c hg)

/-- `remove_road` returns `false` only from its guards, before any
mutation. -/
theorem remove_road_some_false {m : Cities} {a b : String} {co : Option JVal}
    (h : (remove_road m a b co).1 = some false) :
    remove_road m a b co = (some false, m) := by
  cases hga : (!(dmem m a) || !(dmem m b)) with
  | true => exact remove_road_fail_nodes co hga
  | false =>
    cases hgp : (!(dmem (nbrsOf m a) b)) with
    | true => exact remove_road_fail_pair co hga hgp
    | false => exact absurd h (remove_road_not_false co hga hgp)

/-- `update_road_cost` returns `false` only from its guards or the
missing-old-cost check, before any mutation. -/
theorem update_some_false {m : Cities} {a b : String} {oc nc : JVal}
    (h : (update_road_cost m a b oc nc).1 = some false) :
    update_road_cost m a b oc nc = (some false, m) := by
  cases hga : (!(dmem m a) || !(dmem m b)) with
  | true => exact update_fail_nodes oc nc hga
  | false =>
    cases hgp : (!(dmem (nbrsOf m a) b)) with
    | true => exact update_fail_pair oc nc hga hgp
    | false =>
      have ha : dmem m a = true := by
        cases hd : dmem m a with
        | true => rfl
        | false => rw [hd] at hga; exact Bool.noConfusion hga
      obtain ⟨rma, hrma⟩ := Option.isSome_iff_exists.mp ha
      have hpres : dmem rma b = true := by
        rw [nbrsOf, hrma] at hgp
        cases hd : dmem ((some rma).getD []) b with
        | true => exact hd
        | false => rw [hd] at hgp; exact Bool.noConfusion hgp
      obtain ⟨L, hL⟩ := Option.isSome_iff_exists.mp hpres
      have hpair : lookNbr m a b = some L := by
        rw [lookNbr_bind, hrma]
        exact hL
      by_cases hoc : oc ∈ L
      · exact absurd h (update_not_false_mem nc hga hgp hpair hoc)
      · exact update_fail_notin nc hga hgp hpair hoc

/-- A command's `execute()` returns `false` only from a pre-mutation guard:
the graph and the command's captured state are unchanged. -/
theorem cmdExecute_some_false {c : Cmd} {m : Cities}
    (h : (cmdExecute c m).1 = some false) :
    cmdExecute c m = (some false, m, c) := by
  cases c with
  | addCity n =>
    cases hd : dmem m n with
    | false =>
      exfalso
      have hx : some (add_city m n).1 = some false := h
      rw [add_city_not_mem hd] at hx
      exact Bool.noConfusion (Option.some.inj hx)
    | true =>
      show (some (add_city m n).1, (add_city m n).2, Cmd.addCity n) = _
      rw [add_city_mem hd]
  | removeCity n roads =>
    cases hd : dmem m n with
    | false =>
      show (if dmem m n = false then _ else _) = _
      rw [if_pos hd]
    | true =>
      exfalso
      have hx := h
      rw [cmdExecute_removeCity_red roads hd] at hx
      have hb : (remove_city m n).1 = false := Option.some.inj hx
      rw [remove_city_mem hd] at hb
      exact Bool.noConfusion hb
  | renameCity o n =>
    cases hg : (!(dmem m o) || dmem m n) with
    | true =>
      show (some (rename_city m o n).1, (rename_city m o n).2, _) = _
      rw [rename_city_fail hg]
    | false =>
      exfalso
      have ho : dmem m o = true := by
        cases hd : dmem m o with
        | true => rfl
        | false => rw [hd] at hg; exact Bool.noConfusion hg
      have hn : dmem m n = false := by
        cases hd : dmem m n with
        | false => rfl
        | true => rw [hd, Bool.or_true] at hg; exact Bool.noConfusion hg
      have hx : some (rename_city m o n).1 = some false := h
      rw [rename_city_ok ho hn] at hx
      exact Bool.noConfusion (Option.some.inj hx)
  | addRoad a b c =>
    show ((add_road m a b c).1, (add_road m a b c).2, _) = _
    rw [add_road_some_false h]
  | removeRoad a b c =>
    show ((remove_road m a b (some c)).1, (remove_road m a b (some c)).2,
      _) = _
    rw [remove_road_some_false h]
  | updateRoad a b oc nc =>
    show ((update_road_cost m a b oc nc).1,
      (update_road_cost m a b oc nc).2, _) = _
    rw [update_some_false h]

/-- A command's `undo()` returns `false` only from a pre-mutation guard:
the graph is unchanged. -/
theorem cmdUndo_some_false {c : Cmd} {m : Cities}
    (h : (cmdUndo c m).1 = some false) :
    cmdUndo c m = (some false, m) := by
  cases c with
  | addCity n =>
    cases hd : dmem m n with
    | false =>
      show (some (remove_city m n).1, (remove_city m n).2) = _
      rw [remove_city_not_mem hd]
    | true =>
      exfalso
      have hx : some (remove_city m n).1 = some false := h
      rw [remove_city_mem hd] at hx
      exact Bool.noConfusion (Option.some.inj hx)
  | removeCity n roads =>
    cases hd : dmem m n with
    | true =>
      show (match add_city m n with
        | (false, m1) => (some false, m1)
        | (true, m1) =>
          match addRoadsAll m1 roads with
          | (none, m2) => (none, m2)
          | (some _, m2) => (some true, m2)) = _
      rw [add_city_mem hd]
    | false =>
      exfalso
      have hx := h
      show False
      have hred : cmdUndo (.removeCity n roads) m =
          (match addRoadsAll (dset m n []) roads with
            | (none, m2) => (none, m2)
            | (some _, m2) => (some true, m2)) := by
        show (match add_city m n with
          | (false, m1) => (some false, m1)
          | (true, m1) =>
            match addRoadsAll m1 roads with
            | (none, m2) => (none, m2)
            | (some _, m2) => (some true, m2)) = _
        rw [add_city_not_mem hd]
      rw [hred] at hx
      cases hsp : addRoadsAll (dset m n []) roads with
      | mk r s =>
        rw [hsp] at hx
        cases r with
        | none => exact Option.noConfusion hx
        | some u => exact Bool.noConfusion (Option.some.inj hx)
  | renameCity o n =>
    cases hg : (!(dmem m n) || dmem m o) with
    | true =>
      show (some (rename_city m n o).1, (rename_city m n o).2) = _
      rw [rename_city_fail hg]
    | false =>
      exfalso
      have hn : dmem m n = true := by
        cases hd : dmem m n with
        | true => rfl
        | false => rw [hd] at hg; exact Bool.noConfusion hg
      have ho : dmem m o = false := by
        cases hd : dmem m o with
        | false => rfl
        | true => rw [hd, Bool.or_true] at hg; exact Bool.noConfusion hg
      have hx : some (rename_city m n o).1 = some false := h
      rw [rename_city_ok hn ho] at hx
      exact Bool.noConfusion (Option.some.inj hx)
  | addRoad a b c =>
    exact remove_road_some_false h
  | removeRoad a b c =>
    show ((add_road m a b c).1, (add_road m a b c).2) = _
    rw [add_road_some_false h]
  | updateRoad a b oc nc =>
    exact update_some_false h

/-- `_save_state` on a manager whose cursor sits at a valid position `k` of
its list-shaped history: the timeline is truncated to the first `k + 1`
entries (a no-op when the cursor is already at the end), the snapshot is
appended, and the cursor advances to `k + 1`. -/
theorem saveStateM_arr (g : Manager) (hs : List JVal) (k : Nat)
    (hh : g.history = .arr hs) (hk : g.current_history_index = (k : Int))
    (hlen : k < hs.length) :
    saveStateM g = some { g with
      history := .arr (hs.take (k+1) ++ [snapJ g])
      current_history_index := ((k+1 : Nat) : Int) } := by
  simp only [saveStateM, hh, hk]
  by_cases hc : (k : Int) < (hs.length : Int) - 1
  · rw [if_pos hc]
    have htake : pySliceTo hs ((k : Int) + 1) = hs.take (k+1) := by
      simp only [pySliceTo]
      rw [if_pos (by omega)]
      congr 1
    rw [htake]
    have hlt : (hs.take (k+1)).length = k + 1 := by
      rw [List.length_take]
      omega
    rw [hlt]
  · rw [if_neg hc]
    have hkl : k + 1 = hs.length := by omega
    have htake : hs.take (k+1) = hs := by
      rw [hkl]
      exact List.take_length hs
    have hidx : ((hs.length : Int)) = ((k+1 : Nat) : Int) := by omega
    rw [htake, hidx]

/-- C6.  `execute_command` with the cursor at a valid position `k` of the
list-shaped timeline: if the command's `execute()` succeeds, the (updated)
command is pushed onto the undo stack, the redo stack is cleared regardless
of its prior contents, the timeline is truncated to the first `k + 1`
entries and a snapshot appended, the cursor advances to `k + 1`, and the
call returns `true`; if `execute()` fails, the call returns `false` and the
whole manager state is unchanged. -/
theorem c6_executeCommand_semantics (mgr : Manager) (c : Cmd)
    (hs : List JVal) (k : Nat) (hh : mgr.history = .arr hs)
    (hk : mgr.current_history_index = (k : Int)) (hlen : k < hs.length) :
    (∀ m' c', cmdExecute c mgr.city_map = (some true, m', c') →
      executeCommand mgr c = some (true, Manager.mk m'
        (mgr.undo_stack ++ [c']) []
        (.arr (hs.take (k+1) ++ [snapJ (Manager.mk m'
          (mgr.undo_stack ++ [c']) [] mgr.history
          mgr.current_history_index)]))
        ((k+1 : Nat) : Int))) ∧
    ((cmdExecute c mgr.city_map).1 = some false →
      executeCommand mgr c = some (false, mgr)) := by
  constructor
  · intro m' c' hsp
    simp only [executeCommand, hsp]
    have hsave := saveStateM_arr
      (Manager.mk m' (mgr.undo_stack ++ [c']) []
        mgr.history mgr.current_history_index) hs k hh hk hlen
    rw [hsave]
  · intro hex
    have heq := cmdExecute_some_false hex
    simp only [executeCommand, heq]

/-- The concrete manager used to witness the history-engine claims: graph
`{A}`, empty stacks, a one-entry timeline with the cursor on it. -/
def c6mgr : Manager := Manager.mk (runOps [.addCity "A"]) [] [] (.arr [.null]) 0

/-- C6, witness: on a concrete manager, adding a fresh city succeeds and
produces exactly the predicted manager (command pushed, redo cleared,
snapshot appended, cursor advanced), while re-adding an existing city fails
and leaves the manager untouched. -/
theorem c6_executeCommand_semantics_witness :
    cmdExecute (.addCity "B") c6mgr.city_map =
      (some true, (cmdExecute (.addCity "B") c6mgr.city_map).2.1,
        (cmdExecute (.addCity "B") c6mgr.city_map).2.2) ∧
    executeCommand c6mgr (.addCity "B") = some (true, Manager.mk
      (cmdExecute (.addCity "B") c6mgr.city_map).2.1
      (c6mgr.undo_stack ++ [(cmdExecute (.addCity "B") c6mgr.city_map).2.2])
      []
      (.arr ([JVal.null].take (0+1) ++ [snapJ (Manager.mk
        (cmdExecute (.addCity "B") c6mgr.city_map).2.1
        (c6mgr.undo_stack ++
          [(cmdExecute (.addCity "B") c6mgr.city_map).2.2])
        [] c6mgr.history c6mgr.current_history_index)]))
      ((0+1 : Nat) : Int)) ∧
    (cmdExecute (.addCity "A") c6mgr.city_map).1 = some false ∧
    executeCommand c6mgr (.addCity "A") = some (false, c6mgr) := by
  have hth := c6_executeCommand_semantics c6mgr (.addCity "B")
    [.null] 0 rfl rfl (by decide)
  have hth2 := c6_executeCommand_semantics c6mgr (.addCity "A")
    [.null] 0 rfl rfl (by decide)
  exact ⟨rfl, hth.1 _ _ rfl, by decide, hth2.2 (by decide)⟩

/-- C7.  `undo()` with the cursor at a valid position `k` of the
list-shaped timeline: with an empty undo stack it returns `false` and
changes nothing; otherwise the top command is popped and its `undo()`
called — on success the command is pushed onto the redo stack, a snapshot
is appended, and the call returns `true`; on failure the popped command is
dropped (restored to neither stack) and the call returns `false`. -/
theorem c7_undo_semantics (mgr : Manager) (hs : List JVal) (k : Nat)
    (hh : mgr.history = .arr hs) (hk : mgr.current_history_index = (k : Int))
    (hlen : k < hs.length) :
    (mgr.undo_stack = [] → undoManager mgr = some (false, mgr)) ∧
    (∀ c, mgr.undo_stack.getLast? = some c →
      (∀ m', cmdUndo c mgr.city_map = (some true, m') →
        undoManager mgr = some (true, Manager.mk m'
          mgr.undo_stack.dropLast (mgr.redo_stack ++ [c])
          (.arr (hs.take (k+1) ++ [snapJ (Manager.mk m'
            mgr.undo_stack.dropLast (mgr.redo_stack ++ [c])
            mgr.history mgr.current_history_index)]))
          ((k+1 : Nat) : Int))) ∧
      ((cmdUndo c mgr.city_map).1 = some false →
        undoManager mgr = some (false, Manager.mk mgr.city_map
          mgr.undo_stack.dropLast mgr.redo_stack
          mgr.history mgr.current_history_index))) := by
  refine ⟨?_, ?_⟩
  · intro hempty
    simp only [undoManager, hempty, List.getLast?_nil]
  · intro c hlast
    refine ⟨?_, ?_⟩
    · intro m' hsp
      simp only [undoManager, hlast, hsp]
      have hsave := saveStateM_arr
        (Manager.mk m' mgr.undo_stack.dropLast (mgr.redo_stack ++ [c])
          mgr.history mgr.current_history_index) hs k hh hk hlen
      rw [hsave]
    · intro hex
      have heq := cmdUndo_some_false hex
      simp only [undoManager, hlast, heq]

/-- A manager whose one-command undo stack can be undone successfully. -/
def c7mgr : Manager := Manager.mk
  (runOps [.addCity "A", .addCity "B", .addRoad "A" "B" (.int 5)])
  [.addRoad "A" "B" (.int 5)] [] (.arr [.null]) 0

/-- A manager whose one-command undo stack fails to undo (removing a city
that does not exist). -/
def c7mgrf : Manager := Manager.mk (runOps [.addCity "A"])
  [.addCity "C"] [] (.arr [.null]) 0

/-- C7, witness: an empty undo stack is a no-op returning `false`; a
successful undo pops the command, pushes it onto the redo stack, appends a
snapshot and returns `true`; a failing undo drops the popped command and
returns `false`. -/
theorem c7_undo_semantics_witness :
    undoManager c6mgr = some (false, c6mgr) ∧
    undoManager c7mgr = some (true, Manager.mk
      (cmdUndo (.addRoad "A" "B" (.int 5)) c7mgr.city_map).2
      c7mgr.undo_stack.dropLast
      (c7mgr.redo_stack ++ [.addRoad "A" "B" (.int 5)])
      (.arr ([JVal.null].take (0+1) ++ [snapJ (Manager.mk
        (cmdUndo (.addRoad "A" "B" (.int 5)) c7mgr.city_map).2
        c7mgr.undo_stack.dropLast
        (c7mgr.redo_stack ++ [.addRoad "A" "B" (.int 5)])
        c7mgr.history c7mgr.current_history_index)]))
      ((0+1 : Nat) : Int)) ∧
    undoManager c7mgrf = some (false, Manager.mk c7mgrf.city_map
      c7mgrf.undo_stack.dropLast c7mgrf.redo_stack
      c7mgrf.history c7mgrf.current_history_index) := by
  have h1 := (c7_undo_semantics c6mgr [.null] 0 rfl rfl (by decide)).1 rfl
  have h2 := ((c7_undo_semantics c7mgr [.null] 0 rfl rfl
      (by decide)).2 (.addRoad "A" "B" (.int 5)) rfl).1
    (cmdUndo (.addRoad "A" "B" (.int 5)) c7mgr.city_map).2 rfl
  have h3 := ((c7_undo_semantics c7mgrf [.null] 0 rfl rfl
      (by decide)).2 (.addCity "C") rfl).2 (by decide)
  exact ⟨h1, h2, h3⟩

/-- C8.  Loading a legacy document `{"A": {"B": 5}}` (bare scalar cost, no
version tag) through `from_dict` normalizes the scalar into a one-element
cost list: afterwards `get_roads_from_city("A")` returns `[("B", [5])]`,
and the load reports no error. -/
theorem c8_legacy_migration :
    (from_dict [] (.obj [("A", .obj [("B", .int 5)])])).1 = some () ∧
    get_roads_from_city
      (from_dict [] (.obj [("A", .obj [("B", .int 5)])])).2 "A" =
      [("B", [.int 5])] := by
  decide

/-- Assignment of an absent key appends the entry at the end. -/
theorem dset_append_of_not_mem {α : Type} (m : List (String × α))
    (k : String) (v : α) (h : dmem m k = false) :
    dset m k v = m ++ [(k, v)] := by
  induction m with
  | nil => rfl
  | cons hd rest ih =>
    obtain ⟨k', v'⟩ := hd
    have hne : k' ≠ k := by
      intro hk
      subst hk
      simp [dmem, dlook] at h
    show (if k' = k then (k', v) :: rest else (k', v') :: dset rest k v) = _
    rw [if_neg hne]
    have hrest : dmem rest k = false := by
      simp only [dmem, dlook, if_neg hne] at h
      exact h
    rw [ih hrest]
    rfl

/-- Membership in an appended dict. -/
theorem dmem_append {α : Type} (l1 l2 : List (String × α)) (x : String) :
    dmem (l1 ++ l2) x = (dmem l1 x || dmem l2 x) := by
  induction l1 with
  | nil => rfl
  | cons hd rest ih =>
    obtain ⟨k, v⟩ := hd
    by_cases hk : k = x
    · simp [dmem, dlook, hk]
    · simp only [List.cons_append, dmem, dlook, if_neg hk]
      exact ih

/-- Rebuilding a road dict by folding assignments of its serialized entries
over an accumulator with disjoint keys appends it unchanged (the cost lists
come back through `costToList`'s array case). -/
theorem foldl_dset_costs (rm : RoadMap) :
    ∀ acc : RoadMap, NodupKeys rm → (∀ p ∈ rm, dmem acc p.1 = false) →
    List.foldl (fun d p => dset d p.1 (costToList p.2)) acc
      (rm.map (fun p => (p.1, JVal.arr p.2))) = acc ++ rm := by
  induction rm with
  | nil =>
    intro acc _ _
    simp
  | cons hd rest ih =>
    obtain ⟨k, cs⟩ := hd
    intro acc hnd hdisj
    have hk : dmem acc k = false := hdisj (k, cs) (List.mem_cons_self _ _)
    simp only [List.map_cons, List.foldl_cons]
    have hset : dset acc k (costToList (.arr cs)) = acc ++ [(k, cs)] :=
      dset_append_of_not_mem acc k (costToList (.arr cs)) hk
    rw [hset]
    have hnd' : NodupKeys rest := by
      simp only [NodupKeys, dkeys, List.map_cons, List.nodup_cons] at hnd
      exact hnd.2
    have hkrest : k ∉ dkeys rest := by
      simp only [NodupKeys, dkeys, List.map_cons, List.nodup_cons] at hnd
      exact hnd.1
    have hdisj' : ∀ p ∈ rest, dmem (acc ++ [(k, cs)]) p.1 = false := by
      intro p hp
      rw [dmem_append]
      have h1 : dmem acc p.1 = false := hdisj p (List.mem_cons_of_mem _ hp)
      have h2 : dmem [(k, cs)] p.1 = false := by
        have hpk : k ≠ p.1 := by
          intro hkk
          exact hkrest (hkk ▸ List.mem_map_of_mem Prod.fst hp)
        simp [dmem, dlook, hpk]
      rw [h1, h2]
      rfl
    rw [ih (acc ++ [(k, cs)]) hnd' hdisj', List.append_assoc]
    rfl

/-- Rebuilding the whole graph from its serialized `cities` object: the
v1.2 branch succeeds and appends each city's roads unchanged. -/
theorem buildCities12_eq (m : Cities) :
    ∀ acc : Cities, NodupKeys m → (∀ e ∈ m, NodupKeys e.2) →
    (∀ e ∈ m, dmem acc e.1 = false) →
    buildCities12 acc (m.map (fun e =>
      (e.1, JVal.obj (e.2.map (fun p => (p.1, JVal.arr p.2)))))) =
      (some (), acc ++ m) := by
  induction m with
  | nil =>
    intro acc _ _ _
    simp [buildCities12]
  | cons hd rest ih =>
    obtain ⟨city, rm⟩ := hd
    intro acc hnd hinner hdisj
    simp only [List.map_cons, buildCities12]
    have hfold := foldl_dset_costs rm []
      (hinner (city, rm) (List.mem_cons_self _ _)) (fun p _ => rfl)
    rw [hfold, List.nil_append]
    have hcity : dmem acc city = false :=
      hdisj (city, rm) (List.mem_cons_self _ _)
    rw [dset_append_of_not_mem acc city rm hcity]
    have hnd' : NodupKeys rest := by
      simp only [NodupKeys, dkeys, List.map_cons, List.nodup_cons] at hnd
      exact hnd.2
    have hkrest : city ∉ dkeys rest := by
      simp only [NodupKeys, dkeys, List.map_cons, List.nodup_cons] at hnd
      exact hnd.1
    have hdisj' : ∀ e ∈ rest, dmem (acc ++ [(city, rm)]) e.1 = false := by
      intro e he
      rw [dmem_append]
      have h1 : dmem acc e.1 = false := hdisj e (List.mem_cons_of_mem _ he)
      have h2 : dmem [(city, rm)] e.1 = false := by
        have hck : city ≠ e.1 := by
          intro hkk
          exact hkrest (hkk ▸ List.mem_map_of_mem Prod.fst he)
        simp [dmem, dlook, hck]
      rw [h1, h2]
      rfl
    rw [ih (acc ++ [(city, rm)]) hnd'
      (fun e he => hinner e (List.mem_cons_of_mem _ he)) hdisj',
      List.append_assoc]
    rfl

/-- Deserializing `_get_safe_state`'s output restores the graph exactly
(for a graph with well-formed dict keys, as every real dict has). -/
theorem from_dict_safeState {m : Cities} (m0 : Cities) (h1 : NodupKeys m)
    (h2 : ∀ e ∈ m, NodupKeys e.2) :
    from_dict m0 (safeStateJ m) = (some (), m) := by
  have hb := buildCities12_eq m [] h1 h2 (fun e _ => rfl)
  rw [List.nil_append] at hb
  simp [from_dict, safeStateJ, citiesToJ, dlook, hb]

/-- Serialize/deserialize round trip for one command. -/
theorem parseRoads_map (roads : List (String × String × List JVal)) :
    parseRoads (roads.map
      (fun t => JVal.arr [.str t.1, .str t.2.1, .arr t.2.2])) = some roads := by
  induction roads with
  | nil => rfl
  | cons hd rest ih =>
    obtain ⟨a, b, cs⟩ := hd
    simp only [List.map_cons, parseRoads, parseRoad, ih]

/-- Serialize/deserialize round trip for one command record. -/
theorem parseCmd_cmdToJ (c : Cmd) : parseCmd (cmdToJ c) = some c := by
  cases c with
  | removeCity n roads =>
    simp [parseCmd, cmdToJ, dlook, parseRoads_map]
  | _ => rfl

/-- Serialize/deserialize round trip for a command stack. -/
theorem filterMap_parseCmd_map (l : List Cmd) :
    (l.map cmdToJ).filterMap parseCmd = l := by
  induction l with
  | nil => rfl
  | cons hd rest ih =>
    simp [List.filterMap_cons, parseCmd_cmdToJ, ih]

/-- Variant of the stack round trip with the composed function that
`filterMap_map` produces. -/
theorem filterMap_parseCmd_comp (l : List Cmd) :
    List.filterMap (parseCmd ∘ cmdToJ) l = l := by
  induction l with
  | nil => rfl
  | cons hd rest ih =>
    simp [List.filterMap_cons, Function.comp, parseCmd_cmdToJ, ih]

/-- C5.  Serialization round trip: loading the document produced by
`save_to_file` into any manager reproduces the saved graph and both command
stacks exactly (hence identical `get_cities`, `get_all_roads`, and stack
sizes), with the single-snapshot timeline and cursor `0` that
`save_to_file` writes. -/
theorem c5_round_trip (mgr mgr₀ : Manager) (h1 : NodupKeys mgr.city_map)
    (h2 : ∀ e ∈ mgr.city_map, NodupKeys e.2) :
    loadFromDoc mgr₀ (saveDoc mgr) = some (true, Manager.mk mgr.city_map
      mgr.undo_stack mgr.redo_stack (.arr [snapJ mgr]) 0) ∧
    (∀ g, loadFromDoc mgr₀ (saveDoc mgr) = some (true, g) →
      get_cities g.city_map = get_cities mgr.city_map ∧
      get_all_roads g.city_map = get_all_roads mgr.city_map ∧
      g.undo_stack.length = mgr.undo_stack.length ∧
      g.redo_stack.length = mgr.redo_stack.length) := by
  have hfd : from_dict mgr₀.city_map
      (.obj [("cities", citiesToJ mgr.city_map), ("_version", .str "1.2")]) =
      (some (), mgr.city_map) := from_dict_safeState mgr₀.city_map h1 h2
  have hload : loadFromDoc mgr₀ (saveDoc mgr) = some (true, Manager.mk
      mgr.city_map mgr.undo_stack mgr.redo_stack (.arr [snapJ mgr]) 0) := by
    simp [loadFromDoc, saveDoc, snapJ, safeStateJ, dlook, jfalsy, pyListGet,
      jIterCmds, filterMap_parseCmd_map, filterMap_parseCmd_comp, hfd]
  refine ⟨hload, ?_⟩
  intro g hg
  rw [hload] at hg
  have hg2 : g = Manager.mk mgr.city_map mgr.undo_stack mgr.redo_stack
      (.arr [snapJ mgr]) 0 :=
    (congrArg Prod.snd (Option.some.inj hg)).symm
  subst hg2
  exact ⟨rfl, rfl, rfl, rfl⟩

/-- A manager with a nonempty graph and nonempty stacks, used to witness
the round trip. -/
def c5mgr : Manager := Manager.mk
  [("A", [("B", [.int 5])]), ("B", [("A", [.int 5])])]
  [.addCity "A", .addCity "B", .addRoad "A" "B" (.int 5)]
  [.removeCity "B" []] (.arr [.null]) 0

/-- C5, witness: saving the concrete manager and loading the document into
a fresh manager reproduces graph, stacks, and the single-snapshot timeline
exactly. -/
theorem c5_round_trip_witness :
    loadFromDoc (Manager.mk [] [] [] (.arr []) (-1)) (saveDoc c5mgr) =
      some (true, Manager.mk c5mgr.city_map c5mgr.undo_stack
        c5mgr.redo_stack (.arr [snapJ c5mgr]) 0) := by
  have hnk : NodupKeys c5mgr.city_map := by
    show List.Nodup (dkeys [("A", [("B", [JVal.int 5])]),
      ("B", [("A", [JVal.int 5])])])
    decide
  have hinner : ∀ e ∈ c5mgr.city_map, NodupKeys e.2 := by
    intro e he
    cases he with
    | head => show List.Nodup (dkeys [("B", [JVal.int 5])]); decide
    | tail _ h =>
      cases h with
      | head => show List.Nodup (dkeys [("A", [JVal.int 5])]); decide
      | tail _ h2 => cases h2
  exact (c5_round_trip c5mgr (Manager.mk [] [] [] (.arr []) (-1))
    hnk hinner).1

/-- A manager with a nonempty timeline and stacks, used to exhibit the
non-atomic failed load. -/
def c4mgr : Manager := Manager.mk [("A", [])] [.addCity "A"] [.addCity "A"]
  (.arr [.null]) 0

/-- C4, counterexample.  Loading the empty document `{}` fails (no
timeline), yet the engine's prior state is *not* left untouched: the
timeline has already been overwritten with the document's (absent, hence
empty) history and the cursor reset to `0`. -/
theorem c4_counterexample :
    loadFromDoc c4mgr (.obj []) = some (false, Manager.mk c4mgr.city_map
      c4mgr.undo_stack c4mgr.redo_stack (.arr []) 0) ∧
    (Manager.mk c4mgr.city_map c4mgr.undo_stack c4mgr.redo_stack
      (.arr ([] : List JVal)) 0).history ≠ c4mgr.history := by
  decide

/-- C4, amended.  `load_from_file` assigns the document's `history` and
`current_index` to the engine *before* any validation, so on every return —
success or failure — the timeline and cursor hold the document's values,
not the prior ones (shown for documents with an integer or absent
`current_index`); only the redo stack is guaranteed to keep its prior value
when the load fails. -/
theorem c4_amended (mgr : Manager) (kvs : List (String × JVal)) (idx : Int)
    (histv : JVal)
    (hhist : (match dlook kvs "history" with
      | some v => v
      | none => JVal.arr []) = histv)
    (hidx : dlook kvs "current_index" = some (.int idx) ∨
      (dlook kvs "current_index" = none ∧ idx = 0)) :
    ∀ b mgr', loadFromDoc mgr (.obj kvs) = some (b, mgr') →
      mgr'.history = histv ∧
      mgr'.current_history_index = idx ∧
      (b = false → mgr'.redo_stack = mgr.redo_stack) := by
  intro b mgr' hload
  rcases hidx with hci | ⟨hci, hidx0⟩
  · simp only [loadFromDoc, hci, hhist] at hload
    split at hload <;> (try split at hload) <;> (try split at hload) <;>
      (try split at hload) <;> (try split at hload) <;>
      (try split at hload) <;> (try split at hload) <;>
      (try split at hload) <;>
      (first
        | exact Option.noConfusion hload
        | (injection hload with h1; injection h1 with hb hm;
           subst hb; subst hm; exact ⟨rfl, rfl, fun x => rfl⟩)
        | (injection hload with h1; injection h1 with hb hm;
           subst hb; subst hm;
           exact ⟨rfl, rfl, fun hb2 => Bool.noConfusion hb2⟩))
  · subst hidx0
    simp only [loadFromDoc, hci, hhist] at hload
    split at hload <;> (try split at hload) <;> (try split at hload) <;>
      (try split at hload) <;> (try split at hload) <;>
      (try split at hload) <;> (try split at hload) <;>
      (try split at hload) <;>
      (first
        | exact Option.noConfusion hload
        | (injection hload with h1; injection h1 with hb hm;
           subst hb; subst hm; exact ⟨rfl, rfl, fun x => rfl⟩)
        | (injection hload with h1; injection h1 with hb hm;
           subst hb; subst hm;
           exact ⟨rfl, rfl, fun hb2 => Bool.noConfusion hb2⟩))

/-- C4, witness: a document whose cursor points past its two-entry timeline
fails to load, and the failed load has overwritten the timeline and cursor
with the document's values while keeping the redo stack. -/
theorem c4_amended_witness :
    loadFromDoc c4mgr (.obj [("history", .arr [.null, .null]),
      ("current_index", .int 5)]) = some (false, Manager.mk c4mgr.city_map
        c4mgr.undo_stack c4mgr.redo_stack (.arr [.null, .null]) 5) ∧
    (Manager.mk c4mgr.city_map c4mgr.undo_stack c4mgr.redo_stack
      (.arr [JVal.null, JVal.null]) 5).history = .arr [.null, .null] ∧
    (Manager.mk c4mgr.city_map c4mgr.undo_stack c4mgr.redo_stack
      (.arr [JVal.null, JVal.null]) 5).current_history_index = 5 ∧
    (false = false → (Manager.mk c4mgr.city_map c4mgr.undo_stack
      c4mgr.redo_stack (.arr [JVal.null, JVal.null]) 5).redo_stack =
        c4mgr.redo_stack) := by
  have hh := c4_amended c4mgr
    [("history", .arr [.null, .null]), ("current_index", .int 5)] 5
    (.arr [.null, .null]) rfl (Or.inl rfl) false
    (Manager.mk c4mgr.city_map c4mgr.undo_stack c4mgr.redo_stack
      (.arr [JVal.null, JVal.null]) 5) (by decide)
  exact ⟨by decide, hh⟩
